import Mathlib

/-!
# A shallow embedding of the generic quadtree `rz_quadtree`

Sources: `rz_geometry_structs.hpp`, `rz_geometry_math.hpp`, `rz_quadtree_node.hpp`,
`rz_quadtree.hpp`.

Modelling conventions.

* Coordinates are rationals: the coordinate type of `rz_point_2d<T>` is taken to be `double`,
  the type of `box_size_`, of `EPS` and of every intermediate result in the source, and a
  `double` is the rational it denotes. `fabs`, `fmin`, `fmax` are `|·|`, `min`, `max`.
  The arithmetic is read in two ways.
  In the definitions without suffix `+`, `-`, `*`, `/` are exact; they carry the properties
  that are decided by comparisons and by the control flow.
  In the definitions with suffix `_d` the result of every `+`, `-`, `*`, `/` is rounded to
  binary64 by `fl` (to nearest, ties to even, subnormals included, each operation rounded on
  its own); they carry the properties that depend on the computed corners of the cells or
  on the sums inside the box test (C4, C6, C21, and the second parts of C1, C2, C3, C14,
  C16, C20, C26). Overflow to infinity and NaN are not modelled.
* `size_t` values are natural numbers.
* A `std::vector<T>` is a `List T`. Copying an element into a vector runs the copy
  constructor of `T`, which is the field `copy` of `quad_object`. Where the capacity of the
  caller's vector matters, because `insert` may reallocate and copy the elements already
  present, the vector is an `o_vector` (elements and capacity).
* A node pointer that may be null is an `Option`; `throw std::runtime_error(msg)` is
  `Except.error msg`.
* The `parent_` back pointer of a node is never read by construction or queries and is
  left out of the node value.
* The queries take the node by non-const pointer. The functions with suffix `_st` return the
  node, and the tree, that a query leaves behind, next to the vector.
-/

set_option linter.unusedSectionVars false
set_option linter.unusedVariables false

namespace rimz

/-! ## rz_geometry_structs.hpp -/

def EPS : ℚ := 1 / 10000000000
def MINF : ℚ := -999999999
def MAXF : ℚ := 999999999

structure rz_point_2d where
  x : ℚ
  y : ℚ
deriving DecidableEq, Repr

/-- The operator `rz_point_2d::operator ==` : equality within `EPS` on both axes. -/
def rz_point_2d.op_eq (p rhs : rz_point_2d) : Bool :=
  decide (|p.x - rhs.x| < EPS) && decide (|p.y - rhs.y| < EPS)

structure rz_aabb where
  min : rz_point_2d
  max : rz_point_2d
deriving DecidableEq, Repr

/-- The copy constructor `rz_aabb(const rz_aabb& aabb) : min(aabb.min), max(aabb.min)`. -/
def rz_aabb.copy (aabb : rz_aabb) : rz_aabb := ⟨aabb.min, aabb.min⟩

def rz_aabb.width (b : rz_aabb) : ℚ := |b.max.x - b.min.x|

def rz_aabb.height (b : rz_aabb) : ℚ := |b.max.y - b.min.y|

/-- The operator `rz_aabb::operator ==`. -/
def rz_aabb.op_eq (b rhs : rz_aabb) : Bool :=
  b.min.op_eq rhs.min && b.max.op_eq rhs.max

structure rz_line where
  begin : rz_point_2d
  end_ : rz_point_2d
deriving DecidableEq, Repr

/-- The copy constructor `rz_line(const rz_line& line) : begin(line.begin), end(line.end)`. -/
def rz_line.copy (line : rz_line) : rz_line := ⟨line.begin, line.end_⟩

/-! ## rz_geometry_math.hpp -/

/-- The overload `intersect_2d(const rz_line&, const rz_line&)`. -/
@[irreducible] def intersect_2d_line_line (line_a line_b : rz_line) : Bool :=
  let a1 := line_a.begin
  let a2 := line_a.end_
  let b1 := line_b.begin
  let b2 := line_b.end_
  let denom := (b2.y - b1.y) * (a2.x - a1.x) - (b2.x - b1.x) * (a2.y - a1.y)
  let numera := (b2.x - b1.x) * (a1.y - b1.y) - (b2.y - b1.y) * (a1.x - b1.x)
  let numerb := (a2.x - a1.x) * (a1.y - b1.y) - (a2.y - a1.y) * (a1.x - b1.x)
  if |numera| < EPS ∧ |numerb| < EPS ∧ |denom| < EPS then true
  else if |denom| < EPS then false
  else
    let mua := numera / denom
    let mub := numerb / denom
    if mua < 0 ∨ mua > 1 ∨ mub < 0 ∨ mub > 1 then false
    else true

/-- The overload `intersect_2d(const rz_aabb&, const rz_aabb&)`. -/
@[irreducible] def intersect_2d_aabb_aabb (aabb aabb_b : rz_aabb) : Bool :=
  if aabb.op_eq aabb_b then true
  else
    let total_boxes_x_len := |max aabb.max.x aabb_b.max.x - min aabb.min.x aabb_b.min.x|
    let total_boxes_y_len := |max aabb.max.y aabb_b.max.y - min aabb.min.y aabb_b.min.y|
    if total_boxes_x_len < aabb.width + aabb_b.width ∧
        total_boxes_y_len < aabb.height + aabb_b.height then true
    else false

/-- The four edges `aabb_points[i] → aabb_points[i+1 mod 4]` walked by the loop of
`intersect_2d(const rz_aabb&, const rz_line&)`. -/
def aabb_edges (aabb : rz_aabb) : List rz_line :=
  let p0 := aabb.min
  let p1 : rz_point_2d := ⟨aabb.min.x, aabb.max.y⟩
  let p2 := aabb.max
  let p3 : rz_point_2d := ⟨aabb.max.x, aabb.min.y⟩
  [⟨p0, p1⟩, ⟨p1, p2⟩, ⟨p2, p3⟩, ⟨p3, p0⟩]

/-- The overload `intersect_2d(const rz_aabb&, const rz_line&)`. -/
@[irreducible] def intersect_2d_aabb_line (aabb : rz_aabb) (line : rz_line) : Bool :=
  if line.begin.x > aabb.min.x ∧ line.begin.x < aabb.max.x ∧
      line.begin.y > aabb.min.y ∧ line.begin.y < aabb.max.y then true
  else if line.end_.x > aabb.min.x ∧ line.end_.x < aabb.max.x ∧
      line.end_.y > aabb.min.y ∧ line.end_.y < aabb.max.y then true
  else (aabb_edges aabb).any (fun aabb_line => intersect_2d_line_line line aabb_line)

/-- The overload `intersect_2d(const rz_aabb&, const T& pt)`. -/
@[irreducible] def intersect_2d_aabb_point (aabb : rz_aabb) (pt : rz_point_2d) : Bool :=
  decide (pt.x > aabb.min.x ∧ pt.x ≤ aabb.max.x ∧ pt.y > aabb.min.y ∧ pt.y ≤ aabb.max.y)

def min_2d_line (line : rz_line) : rz_point_2d :=
  ⟨if line.begin.x < line.end_.x then line.begin.x else line.end_.x,
   if line.begin.y < line.end_.y then line.begin.y else line.end_.y⟩

def max_2d_line (line : rz_line) : rz_point_2d :=
  ⟨if line.begin.x > line.end_.x then line.begin.x else line.end_.x,
   if line.begin.y > line.end_.y then line.begin.y else line.end_.y⟩

def min_2d_aabb (aabb : rz_aabb) : rz_point_2d := aabb.min

def max_2d_aabb (aabb : rz_aabb) : rz_point_2d := aabb.max

/-- What the template parameter `T` of `rz_quadtree<T>` has to provide: `min_2d`, `max_2d`,
`intersect_2d(aabb, T)` and a copy constructor (used whenever an object is stored in a
vector). `copy_idem`: copying a copy changes nothing. -/
class quad_object (T : Type) where
  min_2d : T → rz_point_2d
  max_2d : T → rz_point_2d
  intersect_2d : rz_aabb → T → Bool
  copy : T → T
  copy_idem : ∀ o : T, copy (copy o) = copy o

instance : quad_object rz_line where
  min_2d := min_2d_line
  max_2d := max_2d_line
  intersect_2d := intersect_2d_aabb_line
  copy := rz_line.copy
  copy_idem := fun _ => rfl

instance : quad_object rz_aabb where
  min_2d := min_2d_aabb
  max_2d := max_2d_aabb
  intersect_2d := intersect_2d_aabb_aabb
  copy := rz_aabb.copy
  copy_idem := fun _ => rfl

open quad_object

/-! ## rz_quadtree_node.hpp -/

/-- A node value. `bare`: the four `child_*_` pointers are null. `branch`: `create_children`
has run and the four children exist. -/
inductive rz_quadtree_node (T : Type) where
  | bare (objects_list_ : List T) (is_leaf_ : Bool) (origin_ : rz_point_2d) (size_ : ℚ)
  | branch (objects_list_ : List T) (is_leaf_ : Bool) (origin_ : rz_point_2d) (size_ : ℚ)
      (child_a_ child_b_ child_c_ child_d_ : rz_quadtree_node T)
deriving Repr

namespace rz_quadtree_node

variable {T : Type}

/-- The default constructor: `is_leaf_(false)`, no children, empty list. `origin_` is the
default point `(0, 0)`; `size_` is not initialised by the source and is always set by
`set_dimentions` before it is read. -/
def new_node : rz_quadtree_node T := bare [] false ⟨0, 0⟩ 0

def objects_list : rz_quadtree_node T → List T
  | bare l _ _ _ => l
  | branch l _ _ _ _ _ _ _ => l

def set_objects_list (l : List T) : rz_quadtree_node T → rz_quadtree_node T
  | bare _ f o s => bare l f o s
  | branch _ f o s a b c d => branch l f o s a b c d

def is_leaf : rz_quadtree_node T → Bool
  | bare _ f _ _ => f
  | branch _ f _ _ _ _ _ _ => f

def set_leaf (value : Bool) : rz_quadtree_node T → rz_quadtree_node T
  | bare l _ o s => bare l value o s
  | branch l _ o s a b c d => branch l value o s a b c d

def create_children : rz_quadtree_node T → rz_quadtree_node T
  | bare l f o s => branch l f o s new_node new_node new_node new_node
  | branch l f o s _ _ _ _ => branch l f o s new_node new_node new_node new_node

def child_a : rz_quadtree_node T → Option (rz_quadtree_node T)
  | bare _ _ _ _ => none
  | branch _ _ _ _ a _ _ _ => some a

def child_b : rz_quadtree_node T → Option (rz_quadtree_node T)
  | bare _ _ _ _ => none
  | branch _ _ _ _ _ b _ _ => some b

def child_c : rz_quadtree_node T → Option (rz_quadtree_node T)
  | bare _ _ _ _ => none
  | branch _ _ _ _ _ _ c _ => some c

def child_d : rz_quadtree_node T → Option (rz_quadtree_node T)
  | bare _ _ _ _ => none
  | branch _ _ _ _ _ _ _ d => some d

def set_dimentions (origin : rz_point_2d) (size : ℚ) : rz_quadtree_node T → rz_quadtree_node T
  | bare l f _ _ => bare l f origin size
  | branch l f _ _ a b c d => branch l f origin size a b c d

def get_dimentions : rz_quadtree_node T → rz_point_2d × ℚ
  | bare _ _ o s => (o, s)
  | branch _ _ o s _ _ _ _ => (o, s)

/-- Write the four built children back into a node on which `create_children` has run (the
source mutates the children in place through `child_a()` … `child_d()`). -/
def set_children : rz_quadtree_node T → rz_quadtree_node T → rz_quadtree_node T →
    rz_quadtree_node T → rz_quadtree_node T → rz_quadtree_node T
  | bare l f o s, _, _, _, _ => bare l f o s
  | branch l f o s _ _ _ _, a, b, c, d => branch l f o s a b c d

/-- The box `aabb2d box(origin, point2d(origin.x + size, origin.y + size))` of a node. -/
def cell (node : rz_quadtree_node T) : rz_aabb :=
  let os := node.get_dimentions
  ⟨os.1, ⟨os.1.x + os.2, os.1.y + os.2⟩⟩

end rz_quadtree_node

open rz_quadtree_node

/-! ## rz_quadtree.hpp -/

section quadtree

variable {T : Type} [quad_object T]

/-- The body of the loop of `rz_quadtree::get_min_max`: the update of
`(common_min, common_max)` by one object. -/
def get_min_max_step (acc : rz_point_2d × rz_point_2d) (o : T) : rz_point_2d × rz_point_2d :=
  let common_min := acc.1
  let common_max := acc.2
  let obj_min := min_2d o
  let obj_max := max_2d o
  (⟨if obj_min.x < common_min.x then obj_min.x else common_min.x,
    if obj_min.y < common_min.y then obj_min.y else common_min.y⟩,
   ⟨if obj_max.x > common_max.x then obj_max.x else common_max.x,
    if obj_max.y > common_max.y then obj_max.y else common_max.y⟩)

/-- The method `rz_quadtree::get_min_max`: returns `(min, max)`. -/
def get_min_max (objects_list : List T) : rz_point_2d × rz_point_2d :=
  objects_list.foldl get_min_max_step (⟨MAXF, MAXF⟩, ⟨MINF, MINF⟩)

/-- The method `rz_quadtree::intersect_objects_with_cell`: returns `intersected_objects_list`. -/
def intersect_objects_with_cell (objects_list : List T) (box_origin : rz_point_2d)
    (box_size : ℚ) : List T :=
  let box_max : rz_point_2d := ⟨box_origin.x + box_size, box_origin.y + box_size⟩
  let cell_box : rz_aabb := ⟨box_origin, box_max⟩
  (objects_list.filter (fun o => intersect_2d cell_box o)).map copy

/-- The method `rz_quadtree::build_sub_tree`, with the recursion made structural: the first argument
after the thresholds bounds the number of nested calls still allowed. It returns the node
after the call. The members `min_`, `max_`, `objects_threshold_`, `depth_threshold_` of the
tree are the first four arguments. -/
def build_sub_tree_fuel (min_ max_ : rz_point_2d) (objects_threshold_ depth_threshold_ : Nat) :
    Nat → Option (rz_quadtree_node T) → List T → rz_point_2d → ℚ → Nat →
      Except String (rz_quadtree_node T)
  | 0, _, _, _, _, _ => .error "build_sub_tree: nesting bound exceeded"
  | _ + 1, none, _, _, _, _ => .error "rz_quadtree build_sub_tree received null node!"
  | fuel + 1, some node, objects_list, box_origin, box_size, depth =>
    let box_max : rz_point_2d := ⟨box_origin.x + box_size, box_origin.y + box_size⟩
    let cell_box : rz_aabb := ⟨box_origin, box_max⟩
    let data_box : rz_aabb := ⟨min_, max_⟩
    if intersect_2d_aabb_aabb cell_box data_box = false then
      .ok (node.set_leaf true)
    else
      let node := node.set_objects_list (objects_list.map copy)
      if objects_list.length ≤ objects_threshold_ then
        .ok (node.set_leaf true)
      else if depth ≥ depth_threshold_ then
        .ok (node.set_leaf true)
      else
        let node := node.create_children
        let sub_box_size := box_size / 2
        let sub_box_origin_a : rz_point_2d := ⟨box_origin.x, box_origin.y + sub_box_size⟩
        let sub_box_origin_b : rz_point_2d :=
          ⟨box_origin.x + sub_box_size, box_origin.y + sub_box_size⟩
        let sub_box_origin_c : rz_point_2d := ⟨box_origin.x, box_origin.y⟩
        let sub_box_origin_d : rz_point_2d := ⟨box_origin.x + sub_box_size, box_origin.y⟩
        match build_sub_tree_fuel min_ max_ objects_threshold_ depth_threshold_ fuel
            (node.child_a.map (set_dimentions sub_box_origin_a sub_box_size))
            (intersect_objects_with_cell objects_list sub_box_origin_a sub_box_size)
            sub_box_origin_a sub_box_size (depth + 1) with
        | .error e => .error e
        | .ok a =>
        match build_sub_tree_fuel min_ max_ objects_threshold_ depth_threshold_ fuel
            (node.child_b.map (set_dimentions sub_box_origin_b sub_box_size))
            (intersect_objects_with_cell objects_list sub_box_origin_b sub_box_size)
            sub_box_origin_b sub_box_size (depth + 1) with
        | .error e => .error e
        | .ok b =>
        match build_sub_tree_fuel min_ max_ objects_threshold_ depth_threshold_ fuel
            (node.child_c.map (set_dimentions sub_box_origin_c sub_box_size))
            (intersect_objects_with_cell objects_list sub_box_origin_c sub_box_size)
            sub_box_origin_c sub_box_size (depth + 1) with
        | .error e => .error e
        | .ok c =>
        match build_sub_tree_fuel min_ max_ objects_threshold_ depth_threshold_ fuel
            (node.child_d.map (set_dimentions sub_box_origin_d sub_box_size))
            (intersect_objects_with_cell objects_list sub_box_origin_d sub_box_size)
            sub_box_origin_d sub_box_size (depth + 1) with
        | .error e => .error e
        | .ok d => .ok (node.set_children a b c d)

/-- The method `rz_quadtree::build_sub_tree`. A call at `depth` nests at most
`depth_threshold_ - depth` further calls, because a node at `depth ≥ depth_threshold_`
is made a leaf. -/
def build_sub_tree (min_ max_ : rz_point_2d) (objects_threshold_ depth_threshold_ : Nat)
    (node : Option (rz_quadtree_node T)) (objects_list : List T) (box_origin : rz_point_2d)
    (box_size : ℚ) (depth : Nat) : Except String (rz_quadtree_node T) :=
  build_sub_tree_fuel min_ max_ objects_threshold_ depth_threshold_
    (depth_threshold_ - depth + 1) node objects_list box_origin box_size depth

/-- The state of an `rz_quadtree<T>` object. -/
structure rz_quadtree (T : Type) where
  min_ : rz_point_2d
  max_ : rz_point_2d
  box_size_ : ℚ
  root_ : Option (rz_quadtree_node T)
  objects_threshold_ : Nat
  depth_threshold_ : Nat

/-- The method `rz_quadtree::build_tree`, on an object whose thresholds are already set. -/
def build_tree (objects_threshold_ depth_threshold_ : Nat) (objects_list : List T) :
    Except String (rz_quadtree T) :=
  let mm := get_min_max objects_list
  let min_ := mm.1
  let max_ := mm.2
  let size_x := |max_.x - min_.x|
  let size_y := |max_.y - min_.y|
  let box_size_ := if size_x > size_y then size_x else size_y
  let root_ : Option (rz_quadtree_node T) := some (new_node.set_dimentions min_ box_size_)
  match build_sub_tree min_ max_ objects_threshold_ depth_threshold_ root_ objects_list
      min_ box_size_ 0 with
  | .error e => .error e
  | .ok r => .ok ⟨min_, max_, box_size_, some r, objects_threshold_, depth_threshold_⟩

/-- The constructor `rz_quadtree(objects_list, objects_threshold, depth_threshold)`. -/
def rz_quadtree.new (objects_list : List T) (objects_threshold depth_threshold : Nat) :
    Except String (rz_quadtree T) :=
  build_tree objects_threshold depth_threshold objects_list

/-- The constructor `rz_quadtree(objects_list)`: thresholds 10 and 12. -/
def rz_quadtree.new_default (objects_list : List T) : Except String (rz_quadtree T) :=
  build_tree 10 12 objects_list

/-- The method `rz_quadtree::intersect_node_with_point`. -/
def intersect_node_with_point (pt : rz_point_2d) :
    Option (rz_quadtree_node T) → Except String Bool
  | none => .error "rz_quadtree intersect_node_with_point received null node!"
  | some node => .ok (intersect_2d_aabb_point node.cell pt)

/-- The method `rz_quadtree::intersect_node_with_aabb`. -/
def intersect_node_with_aabb (aabb : rz_aabb) :
    Option (rz_quadtree_node T) → Except String Bool
  | none => .error "rz_quadtree intersect_node_with_aabb received null node!"
  | some node => .ok (intersect_2d_aabb_aabb node.cell aabb)

/-- The method `rz_quadtree::intersect_tree_with_point` on a non-null node; returns the vector
`objects` after the call. A child pointer of a `bare` node is null, and the first use of
it is the call `intersect_node_with_point(pt, node->child_a())`, which throws. -/
def intersect_tree_with_point (min_ max_ : rz_point_2d) (pt : rz_point_2d)
    (objects : List T) : rz_quadtree_node T → Except String (List T)
  | bare l f o s =>
    if intersect_2d_aabb_point ⟨min_, max_⟩ pt = false then .ok objects
    else if intersect_2d_aabb_point (bare l f o s).cell pt then
      if f then .ok (l.map copy)
      else .error "rz_quadtree intersect_node_with_point received null node!"
    else .ok objects
  | branch l f o s a b c d =>
    if intersect_2d_aabb_point ⟨min_, max_⟩ pt = false then .ok objects
    else if intersect_2d_aabb_point (branch l f o s a b c d).cell pt then
      if f then .ok (l.map copy)
      else if intersect_2d_aabb_point a.cell pt then
        intersect_tree_with_point min_ max_ pt objects a
      else if intersect_2d_aabb_point b.cell pt then
        intersect_tree_with_point min_ max_ pt objects b
      else if intersect_2d_aabb_point c.cell pt then
        intersect_tree_with_point min_ max_ pt objects c
      else if intersect_2d_aabb_point d.cell pt then
        intersect_tree_with_point min_ max_ pt objects d
      else .ok objects
    else .ok objects

/-- The method `rz_quadtree::intersect_tree_with_aabb` on a non-null node; returns the vector
`objects` after the call, for a caller's vector whose elements are unchanged by copying (an
empty vector, or elements of a type with a faithful copy constructor): `objects.insert` may
reallocate and copy-construct the elements already in the vector, which
`intersect_tree_with_aabb_vec` follows with the capacity of the vector. -/
def intersect_tree_with_aabb (min_ max_ : rz_point_2d) (aabb : rz_aabb) :
    List T → rz_quadtree_node T → Except String (List T)
  | objects, bare l f o s =>
    if intersect_2d_aabb_aabb ⟨min_, max_⟩ aabb = false then .ok objects
    else if intersect_2d_aabb_aabb (bare l f o s).cell aabb then
      if f then .ok (objects ++ l.map copy)
      else .error "rz_quadtree intersect_node_with_aabb received null node!"
    else .ok objects
  | objects, branch l f o s a b c d =>
    if intersect_2d_aabb_aabb ⟨min_, max_⟩ aabb = false then .ok objects
    else if intersect_2d_aabb_aabb (branch l f o s a b c d).cell aabb then
      if f then .ok (objects ++ l.map copy)
      else
        match (if intersect_2d_aabb_aabb a.cell aabb then
            intersect_tree_with_aabb min_ max_ aabb objects a else .ok objects) with
        | .error e => .error e
        | .ok objects =>
        match (if intersect_2d_aabb_aabb b.cell aabb then
            intersect_tree_with_aabb min_ max_ aabb objects b else .ok objects) with
        | .error e => .error e
        | .ok objects =>
        match (if intersect_2d_aabb_aabb c.cell aabb then
            intersect_tree_with_aabb min_ max_ aabb objects c else .ok objects) with
        | .error e => .error e
        | .ok objects =>
        if intersect_2d_aabb_aabb d.cell aabb then
          intersect_tree_with_aabb min_ max_ aabb objects d else .ok objects
    else .ok objects

/-- The method `rz_quadtree::get_objects_from_point`: `root_.get()` is passed on, and the callee
throws on a null node. -/
def get_objects_from_point (t : rz_quadtree T) (pt : rz_point_2d) (objects : List T) :
    Except String (List T) :=
  match t.root_ with
  | none => .error "rz_quadtree get_objects_from_point received null node!"
  | some node => intersect_tree_with_point t.min_ t.max_ pt objects node

/-- The method `rz_quadtree::get_objects_from_aabb`. -/
def get_objects_from_aabb (t : rz_quadtree T) (aabb : rz_aabb) (objects : List T) :
    Except String (List T) :=
  match t.root_ with
  | none => .error "rz_quadtree get_objects_from_aabb received null node!"
  | some node => intersect_tree_with_aabb t.min_ t.max_ aabb objects node

/-! ## Notions used to state the properties -/

/-- The box `aabb2d cell_box(box_origin, box_max)` built from an origin and an edge length
(`build_sub_tree`, `intersect_objects_with_cell`). -/
def cell_box (o : rz_point_2d) (s : ℚ) : rz_aabb := ⟨o, ⟨o.x + s, o.y + s⟩⟩

/-- The edge length `box_size_` that `build_tree` computes from the data box. -/
def root_size (min_ max_ : rz_point_2d) : ℚ :=
  if |max_.x - min_.x| > |max_.y - min_.y| then |max_.x - min_.x| else |max_.y - min_.y|

/-- All nodes of a subtree, the node itself first, then the subtrees A, B, C, D. -/
def nodes : rz_quadtree_node T → List (rz_quadtree_node T)
  | bare l f o s => [bare l f o s]
  | branch l f o s a b c d =>
    branch l f o s a b c d :: (nodes a ++ nodes b ++ nodes c ++ nodes d)

/-- The exhaustive enumeration of the leaves of a subtree. -/
def leaves (n : rz_quadtree_node T) : List (rz_quadtree_node T) :=
  (nodes n).filter (fun l => l.is_leaf)

/-- The leaves whose cell contains `pt` under the point-in-cell rule. -/
def leaves_containing (n : rz_quadtree_node T) (pt : rz_point_2d) :
    List (rz_quadtree_node T) :=
  (leaves n).filter (fun l => intersect_2d_aabb_point l.cell pt)

/-- Linear search: the object list of the first enumerated leaf whose cell contains `pt`,
the empty list when there is none. -/
def linear_leaf_search (n : rz_quadtree_node T) (pt : rz_point_2d) : List T :=
  match leaves_containing n pt with
  | [] => []
  | l :: _ => l.objects_list

/-- All downward paths of a subtree: each path lists the nodes from the subtree root down to
one of its nodes, the root first. -/
def paths : rz_quadtree_node T → List (List (rz_quadtree_node T))
  | bare l f o s => [[bare l f o s]]
  | branch l f o s a b c d =>
    [branch l f o s a b c d] ::
      (paths a ++ paths b ++ paths c ++ paths d).map (fun p => branch l f o s a b c d :: p)

/-- The point `p` lies on the closed segment `line`. -/
def on_segment (line : rz_line) (p : rz_point_2d) : Prop :=
  ∃ t : ℚ, 0 ≤ t ∧ t ≤ 1 ∧ p.x = line.begin.x + t * (line.end_.x - line.begin.x) ∧
    p.y = line.begin.y + t * (line.end_.y - line.begin.y)

/-- The point `p` lies in the closed box `b`. -/
def in_box (b : rz_aabb) (p : rz_point_2d) : Prop :=
  b.min.x ≤ p.x ∧ p.x ≤ b.max.x ∧ b.min.y ≤ p.y ∧ p.y ≤ b.max.y

/-- The value `v` is the least of the values `f o` for `o` in `L`. -/
def is_least_of (v : ℚ) (f : T → ℚ) (L : List T) : Prop :=
  (∀ o ∈ L, v ≤ f o) ∧ ∃ o ∈ L, f o = v

/-- The value `v` is the greatest of the values `f o` for `o` in `L`. -/
def is_greatest_of (v : ℚ) (f : T → ℚ) (L : List T) : Prop :=
  (∀ o ∈ L, f o ≤ v) ∧ ∃ o ∈ L, f o = v

/-- The tree that `build_sub_tree` returns for a fresh node with dimensions `(o, s)`, list
`L` and depth `d`, as a relation: the early exit, the two threshold exits, the subdivision. -/
inductive BuildsTo (min_ max_ : rz_point_2d) (ot dt : Nat) :
    List T → rz_point_2d → ℚ → Nat → rz_quadtree_node T → Prop
  | outside {L o s d} :
      intersect_2d_aabb_aabb (cell_box o s) ⟨min_, max_⟩ = false →
      BuildsTo min_ max_ ot dt L o s d (bare [] true o s)
  | stop {L o s d} :
      intersect_2d_aabb_aabb (cell_box o s) ⟨min_, max_⟩ = true →
      (L.length ≤ ot ∨ dt ≤ d) →
      BuildsTo min_ max_ ot dt L o s d (bare (L.map copy) true o s)
  | split {L o s d a b c e} :
      intersect_2d_aabb_aabb (cell_box o s) ⟨min_, max_⟩ = true →
      ot < L.length → d < dt →
      BuildsTo min_ max_ ot dt (intersect_objects_with_cell L ⟨o.x, o.y + s / 2⟩ (s / 2))
        ⟨o.x, o.y + s / 2⟩ (s / 2) (d + 1) a →
      BuildsTo min_ max_ ot dt
        (intersect_objects_with_cell L ⟨o.x + s / 2, o.y + s / 2⟩ (s / 2))
        ⟨o.x + s / 2, o.y + s / 2⟩ (s / 2) (d + 1) b →
      BuildsTo min_ max_ ot dt (intersect_objects_with_cell L ⟨o.x, o.y⟩ (s / 2))
        ⟨o.x, o.y⟩ (s / 2) (d + 1) c →
      BuildsTo min_ max_ ot dt (intersect_objects_with_cell L ⟨o.x + s / 2, o.y⟩ (s / 2))
        ⟨o.x + s / 2, o.y⟩ (s / 2) (d + 1) e →
      BuildsTo min_ max_ ot dt L o s d (branch (L.map copy) false o s a b c e)

/-- The shape every built subtree has: a leaf has no children; an inner node is not a leaf
and its children A, B, C, D carry the four quadrants of its cell; every stored list is a
list of copies; edge lengths are not negative. -/
inductive WellShaped : rz_quadtree_node T → Prop
  | leaf (l : List T) (o : rz_point_2d) (s : ℚ) :
      l.map copy = l → 0 ≤ s → WellShaped (bare l true o s)
  | inner (l : List T) (o : rz_point_2d) (s : ℚ) (a b c d : rz_quadtree_node T) :
      l.map copy = l → 0 ≤ s →
      a.get_dimentions = (⟨o.x, o.y + s / 2⟩, s / 2) →
      b.get_dimentions = (⟨o.x + s / 2, o.y + s / 2⟩, s / 2) →
      c.get_dimentions = (⟨o.x, o.y⟩, s / 2) →
      d.get_dimentions = (⟨o.x + s / 2, o.y⟩, s / 2) →
      WellShaped a → WellShaped b → WellShaped c → WellShaped d →
      WellShaped (branch l false o s a b c d)

/-- What folding `if f o < acc then f o else acc` over `L` from `acc` gives. -/
def MinFold (r acc : ℚ) (f : T → ℚ) (L : List T) : Prop :=
  r ≤ acc ∧ (∀ o ∈ L, r ≤ f o) ∧ (r = acc ∨ ∃ o ∈ L, f o = r)

/-- What folding `if f o > acc then f o else acc` over `L` from `acc` gives. -/
def MaxFold (r acc : ℚ) (f : T → ℚ) (L : List T) : Prop :=
  acc ≤ r ∧ (∀ o ∈ L, f o ≤ r) ∧ (r = acc ∨ ∃ o ∈ L, f o = r)

/-- The rectangle [lox, hix] x [loy, hiy] lies inside the closed box `b`. -/
def box_within (lox hix loy hiy : ℚ) (b : rz_aabb) : Prop :=
  b.min.x ≤ lox ∧ hix ≤ b.max.x ∧ b.min.y ≤ loy ∧ hiy ≤ b.max.y

/-- One of the four steps of `intersect_tree_with_aabb` at an inner node:
`if (intersect_node_with_aabb(aabb, child)) intersect_tree_with_aabb(aabb, objects, child)`. -/
def aabb_step (min_ max_ : rz_point_2d) (aabb : rz_aabb) (child : rz_quadtree_node T)
    (objects : List T) : Except String (List T) :=
  if intersect_2d_aabb_aabb child.cell aabb then
    intersect_tree_with_aabb min_ max_ aabb objects child
  else .ok objects

/-- All nodes of a subtree with their depth, the subtree root being at depth `k`. -/
def nodes_with_depth : rz_quadtree_node T → Nat → List (rz_quadtree_node T × Nat)
  | bare l f o s, k => [(bare l f o s, k)]
  | branch l f o s a b c d, k =>
    (branch l f o s a b c d, k) ::
      (nodes_with_depth a (k + 1) ++ nodes_with_depth b (k + 1) ++
        nodes_with_depth c (k + 1) ++ nodes_with_depth d (k + 1))

/-- The leaf that a downward path `p` contributes to a region query with box `q`: the last
node of `p` when it is a leaf and every node of `p` (the leaf and each of its ancestors)
passes `intersect_2d(cell, q)`. -/
def region_leaf_of_path (q : rz_aabb) (p : List (rz_quadtree_node T)) :
    Option (rz_quadtree_node T) :=
  match p.getLast? with
  | some l =>
    if l.is_leaf && p.all (fun n => intersect_2d_aabb_aabb n.cell q) then some l else none
  | none => none

/-- The leaves below `r` whose own cell and all of whose ancestors' cells pass
`intersect_2d(cell, q)`, in depth-first A, B, C, D order. -/
def region_leaves (q : rz_aabb) (r : rz_quadtree_node T) : List (rz_quadtree_node T) :=
  (paths r).filterMap (region_leaf_of_path q)

/-- All nodes of a subtree, each with its depth and the object list that `build_sub_tree`
received for it. The subtree root received `incoming`; a child received
`intersect_objects_with_cell(objects_list, sub_box_origin, sub_box_size)` computed from the
list its parent received and the child's own origin and edge length. -/
def nodes_with_input : rz_quadtree_node T → Nat → List T →
    List (rz_quadtree_node T × Nat × List T)
  | bare l f o s, k, incoming => [(bare l f o s, k, incoming)]
  | branch l f o s a b c d, k, incoming =>
    (branch l f o s a b c d, k, incoming) ::
      (nodes_with_input a (k + 1)
          (intersect_objects_with_cell incoming a.get_dimentions.1 a.get_dimentions.2) ++
        nodes_with_input b (k + 1)
          (intersect_objects_with_cell incoming b.get_dimentions.1 b.get_dimentions.2) ++
        nodes_with_input c (k + 1)
          (intersect_objects_with_cell incoming c.get_dimentions.1 c.get_dimentions.2) ++
        nodes_with_input d (k + 1)
          (intersect_objects_with_cell incoming d.get_dimentions.1 d.get_dimentions.2))

/-- The method `rz_quadtree::intersect_tree_with_point` with the node as part of the state:
it returns the node after the call together with the vector `objects` after the call. The
node is rebuilt from what each statement of the source leaves behind: `get_dimentions`
copies `origin_` and `size_` out, `is_leaf()` and `child_a()` … `child_d()` return a member,
`objects.assign` reads the node's list through `begin()` and `end()`; after a recursive call
on a child the node holds that child as the call left it. -/
def intersect_tree_with_point_st (min_ max_ : rz_point_2d) (pt : rz_point_2d)
    (objects : List T) : rz_quadtree_node T → Except String (rz_quadtree_node T × List T)
  | bare l f o s =>
    if intersect_2d_aabb_point ⟨min_, max_⟩ pt = false then .ok (bare l f o s, objects)
    else if intersect_2d_aabb_point (bare l f o s).cell pt then
      if f then .ok (bare l f o s, l.map copy)
      else .error "rz_quadtree intersect_node_with_point received null node!"
    else .ok (bare l f o s, objects)
  | branch l f o s a b c d =>
    if intersect_2d_aabb_point ⟨min_, max_⟩ pt = false then
      .ok (branch l f o s a b c d, objects)
    else if intersect_2d_aabb_point (branch l f o s a b c d).cell pt then
      if f then .ok (branch l f o s a b c d, l.map copy)
      else if intersect_2d_aabb_point a.cell pt then
        match intersect_tree_with_point_st min_ max_ pt objects a with
        | .error e => .error e
        | .ok (a1, objects) => .ok (branch l f o s a1 b c d, objects)
      else if intersect_2d_aabb_point b.cell pt then
        match intersect_tree_with_point_st min_ max_ pt objects b with
        | .error e => .error e
        | .ok (b1, objects) => .ok (branch l f o s a b1 c d, objects)
      else if intersect_2d_aabb_point c.cell pt then
        match intersect_tree_with_point_st min_ max_ pt objects c with
        | .error e => .error e
        | .ok (c1, objects) => .ok (branch l f o s a b c1 d, objects)
      else if intersect_2d_aabb_point d.cell pt then
        match intersect_tree_with_point_st min_ max_ pt objects d with
        | .error e => .error e
        | .ok (d1, objects) => .ok (branch l f o s a b c d1, objects)
      else .ok (branch l f o s a b c d, objects)
    else .ok (branch l f o s a b c d, objects)

/-- The method `rz_quadtree::intersect_tree_with_aabb` with the node as part of the state:
it returns the node after the call together with the vector `objects` after the call; the
node after the four conditional recursive calls holds the four children as the calls left
them. -/
def intersect_tree_with_aabb_st (min_ max_ : rz_point_2d) (aabb : rz_aabb) :
    List T → rz_quadtree_node T → Except String (rz_quadtree_node T × List T)
  | objects, bare l f o s =>
    if intersect_2d_aabb_aabb ⟨min_, max_⟩ aabb = false then .ok (bare l f o s, objects)
    else if intersect_2d_aabb_aabb (bare l f o s).cell aabb then
      if f then .ok (bare l f o s, objects ++ l.map copy)
      else .error "rz_quadtree intersect_node_with_aabb received null node!"
    else .ok (bare l f o s, objects)
  | objects, branch l f o s a b c d =>
    if intersect_2d_aabb_aabb ⟨min_, max_⟩ aabb = false then
      .ok (branch l f o s a b c d, objects)
    else if intersect_2d_aabb_aabb (branch l f o s a b c d).cell aabb then
      if f then .ok (branch l f o s a b c d, objects ++ l.map copy)
      else
        match (if intersect_2d_aabb_aabb a.cell aabb then
            intersect_tree_with_aabb_st min_ max_ aabb objects a else .ok (a, objects)) with
        | .error e => .error e
        | .ok (a1, objects) =>
        match (if intersect_2d_aabb_aabb b.cell aabb then
            intersect_tree_with_aabb_st min_ max_ aabb objects b else .ok (b, objects)) with
        | .error e => .error e
        | .ok (b1, objects) =>
        match (if intersect_2d_aabb_aabb c.cell aabb then
            intersect_tree_with_aabb_st min_ max_ aabb objects c else .ok (c, objects)) with
        | .error e => .error e
        | .ok (c1, objects) =>
        match (if intersect_2d_aabb_aabb d.cell aabb then
            intersect_tree_with_aabb_st min_ max_ aabb objects d else .ok (d, objects)) with
        | .error e => .error e
        | .ok (d1, objects) => .ok (branch l f o s a1 b1 c1 d1, objects)
    else .ok (branch l f o s a b c d, objects)

/-- The method `rz_quadtree::get_objects_from_point` as a transition of the tree object: the
tree after the call (its root replaced by the root node the traversal left behind; no other
member is touched by the method) and the vector after the call. -/
def get_objects_from_point_st (t : rz_quadtree T) (pt : rz_point_2d) (objects : List T) :
    Except String (rz_quadtree T × List T) :=
  match t.root_ with
  | none => .error "rz_quadtree get_objects_from_point received null node!"
  | some node =>
    match intersect_tree_with_point_st t.min_ t.max_ pt objects node with
    | .error e => .error e
    | .ok (node1, objects) =>
      .ok (⟨t.min_, t.max_, t.box_size_, some node1, t.objects_threshold_,
        t.depth_threshold_⟩, objects)

/-- The method `rz_quadtree::get_objects_from_aabb` as a transition of the tree object. -/
def get_objects_from_aabb_st (t : rz_quadtree T) (aabb : rz_aabb) (objects : List T) :
    Except String (rz_quadtree T × List T) :=
  match t.root_ with
  | none => .error "rz_quadtree get_objects_from_aabb received null node!"
  | some node =>
    match intersect_tree_with_aabb_st t.min_ t.max_ aabb objects node with
    | .error e => .error e
    | .ok (node1, objects) =>
      .ok (⟨t.min_, t.max_, t.box_size_, some node1, t.objects_threshold_,
        t.depth_threshold_⟩, objects)

/-- The leaf that a downward path `p` contributes to a point query at `pt`: the last node of
`p` when it is a leaf and the cell of every node of `p` (the leaf and each of its
ancestors) contains `pt` under the point-in-cell rule. -/
def point_leaf_of_path (pt : rz_point_2d) (p : List (rz_quadtree_node T)) :
    Option (rz_quadtree_node T) :=
  match p.getLast? with
  | some l =>
    if l.is_leaf && p.all (fun n => intersect_2d_aabb_point n.cell pt) then some l else none
  | none => none

/-- The leaves below `r` whose own cell and all of whose ancestors' cells contain `pt`,
found by enumerating all downward paths. -/
def point_leaves (pt : rz_point_2d) (r : rz_quadtree_node T) : List (rz_quadtree_node T) :=
  (paths r).filterMap (point_leaf_of_path pt)

/-- Search over all downward paths: the object list of the first enumerated leaf whose own
cell and all of whose ancestors' cells contain `pt`, the empty list when there is none. -/
def path_leaf_search (r : rz_quadtree_node T) (pt : rz_point_2d) : List T :=
  match point_leaves pt r with
  | [] => []
  | l :: _ => l.objects_list

/-- The caller's result vector, a `std::vector<T>` (`o_vector` in the source): its elements
and its capacity. -/
structure o_vector (T : Type) where
  elems : List T
  capacity : Nat

/-- The call `objects.insert(objects.end(), first, last)` of `std::vector`. An empty range
changes nothing. When the new size fits the capacity, the new elements are copy-constructed
behind the old ones. Otherwise the vector reallocates: the old elements are copy-constructed
into the new storage, then the new ones, and the capacity grows (to
`size + max(size, n)`, the choice of libstdc++; the language standard asks for at least the
new size). -/
def vector_insert_end (objects : o_vector T) (range : List T) : o_vector T :=
  if range.length = 0 then objects
  else if objects.elems.length + range.length ≤ objects.capacity then
    ⟨objects.elems ++ range.map copy, objects.capacity⟩
  else
    ⟨objects.elems.map copy ++ range.map copy,
      objects.elems.length + max objects.elems.length range.length⟩

/-- The method `rz_quadtree::intersect_tree_with_aabb` on a non-null node, for a caller's
vector with prior content: `objects.insert` may reallocate, which copy-constructs the
elements that were in the vector before the call. -/
def intersect_tree_with_aabb_vec (min_ max_ : rz_point_2d) (aabb : rz_aabb) :
    o_vector T → rz_quadtree_node T → Except String (o_vector T)
  | objects, bare l f o s =>
    if intersect_2d_aabb_aabb ⟨min_, max_⟩ aabb = false then .ok objects
    else if intersect_2d_aabb_aabb (bare l f o s).cell aabb then
      if f then .ok (vector_insert_end objects l)
      else .error "rz_quadtree intersect_node_with_aabb received null node!"
    else .ok objects
  | objects, branch l f o s a b c d =>
    if intersect_2d_aabb_aabb ⟨min_, max_⟩ aabb = false then .ok objects
    else if intersect_2d_aabb_aabb (branch l f o s a b c d).cell aabb then
      if f then .ok (vector_insert_end objects l)
      else
        match (if intersect_2d_aabb_aabb a.cell aabb then
            intersect_tree_with_aabb_vec min_ max_ aabb objects a else .ok objects) with
        | .error e => .error e
        | .ok objects =>
        match (if intersect_2d_aabb_aabb b.cell aabb then
            intersect_tree_with_aabb_vec min_ max_ aabb objects b else .ok objects) with
        | .error e => .error e
        | .ok objects =>
        match (if intersect_2d_aabb_aabb c.cell aabb then
            intersect_tree_with_aabb_vec min_ max_ aabb objects c else .ok objects) with
        | .error e => .error e
        | .ok objects =>
        if intersect_2d_aabb_aabb d.cell aabb then
          intersect_tree_with_aabb_vec min_ max_ aabb objects d else .ok objects
    else .ok objects

/-- The method `rz_quadtree::get_objects_from_aabb` for a caller's vector with prior
content. -/
def get_objects_from_aabb_vec (t : rz_quadtree T) (aabb : rz_aabb) (objects : o_vector T) :
    Except String (o_vector T) :=
  match t.root_ with
  | none => .error "rz_quadtree get_objects_from_aabb received null node!"
  | some node => intersect_tree_with_aabb_vec t.min_ t.max_ aabb objects node

/-! ## Double arithmetic

The definitions above compute with exact rationals. The definitions of this part carry the
suffix `_d` and follow the same source lines with `double` arithmetic: a `double` is the
rational it denotes, and the result of every addition, subtraction, multiplication and
division is rounded to binary64 by `fl`. `fabs`, `fmin`, `fmax` and the comparisons are
exact on doubles. Overflow to infinity is not modelled. -/

/-- Rounding of an exact result to a `double` (IEEE 754 binary64), to nearest, ties to
even: for `2^k ≤ |q| < 2^(k+1)` the spacing of the doubles is `2^(k-52)`, and `2^(-1074)`
below `2^(-1022)`. -/
@[irreducible] def fl (q : ℚ) : ℚ :=
  if q = 0 then 0
  else
    let e : ℤ := max (Int.log 2 |q| - 52) (-1074)
    let m : ℚ := q / 2 ^ e
    let f : ℤ := ⌊m⌋
    let r : ℚ := m - f
    (if r < 1 / 2 then (f : ℚ) else if 1 / 2 < r then (f : ℚ) + 1
      else if f % 2 = 0 then (f : ℚ) else (f : ℚ) + 1) * 2 ^ e

/-- The constant `EPS = 0.0000000001` as a `double`: the binary64 value nearest to 10^-10,
7737125245533627 * 2^-86. -/
def EPS_d : ℚ := 7737125245533627 / 77371252455336267181195264

/-- The operator `rz_point_2d::operator ==` in double arithmetic. -/
def rz_point_2d.op_eq_d (p rhs : rz_point_2d) : Bool :=
  decide (|fl (p.x - rhs.x)| < EPS_d) && decide (|fl (p.y - rhs.y)| < EPS_d)

def rz_aabb.width_d (b : rz_aabb) : ℚ := |fl (b.max.x - b.min.x)|

def rz_aabb.height_d (b : rz_aabb) : ℚ := |fl (b.max.y - b.min.y)|

/-- The operator `rz_aabb::operator ==` in double arithmetic. -/
def rz_aabb.op_eq_d (b rhs : rz_aabb) : Bool :=
  b.min.op_eq_d rhs.min && b.max.op_eq_d rhs.max

/-- The overload `intersect_2d(const rz_line&, const rz_line&)` in double arithmetic. -/
@[irreducible] def intersect_2d_line_line_d (line_a line_b : rz_line) : Bool :=
  let a1 := line_a.begin
  let a2 := line_a.end_
  let b1 := line_b.begin
  let b2 := line_b.end_
  let denom := fl (fl (fl (b2.y - b1.y) * fl (a2.x - a1.x)) -
    fl (fl (b2.x - b1.x) * fl (a2.y - a1.y)))
  let numera := fl (fl (fl (b2.x - b1.x) * fl (a1.y - b1.y)) -
    fl (fl (b2.y - b1.y) * fl (a1.x - b1.x)))
  let numerb := fl (fl (fl (a2.x - a1.x) * fl (a1.y - b1.y)) -
    fl (fl (a2.y - a1.y) * fl (a1.x - b1.x)))
  if |numera| < EPS_d ∧ |numerb| < EPS_d ∧ |denom| < EPS_d then true
  else if |denom| < EPS_d then false
  else
    let mua := fl (numera / denom)
    let mub := fl (numerb / denom)
    if mua < 0 ∨ mua > 1 ∨ mub < 0 ∨ mub > 1 then false
    else true

/-- The overload `intersect_2d(const rz_aabb&, const rz_aabb&)` in double arithmetic. -/
@[irreducible] def intersect_2d_aabb_aabb_d (aabb aabb_b : rz_aabb) : Bool :=
  if aabb.op_eq_d aabb_b then true
  else
    let total_boxes_x_len :=
      |fl (max aabb.max.x aabb_b.max.x - min aabb.min.x aabb_b.min.x)|
    let total_boxes_y_len :=
      |fl (max aabb.max.y aabb_b.max.y - min aabb.min.y aabb_b.min.y)|
    if total_boxes_x_len < fl (aabb.width_d + aabb_b.width_d) ∧
        total_boxes_y_len < fl (aabb.height_d + aabb_b.height_d) then true
    else false

/-- The overload `intersect_2d(const rz_aabb&, const rz_line&)` in double arithmetic: the
corner tests are comparisons, the edge tests use the segment test in double arithmetic. -/
@[irreducible] def intersect_2d_aabb_line_d (aabb : rz_aabb) (line : rz_line) : Bool :=
  if line.begin.x > aabb.min.x ∧ line.begin.x < aabb.max.x ∧
      line.begin.y > aabb.min.y ∧ line.begin.y < aabb.max.y then true
  else if line.end_.x > aabb.min.x ∧ line.end_.x < aabb.max.x ∧
      line.end_.y > aabb.min.y ∧ line.end_.y < aabb.max.y then true
  else (aabb_edges aabb).any (fun aabb_line => intersect_2d_line_line_d line aabb_line)

/-- The box `aabb2d box(origin, point2d(origin.x + size, origin.y + size))` of a node in
double arithmetic, as `intersect_node_with_point` and `intersect_node_with_aabb` build it. -/
def rz_quadtree_node.cell_d (node : rz_quadtree_node T) : rz_aabb :=
  let os := node.get_dimentions
  ⟨os.1, ⟨fl (os.1.x + os.2), fl (os.1.y + os.2)⟩⟩

/-- The box `cell_box(box_origin, box_max)` with
`box_max(box_origin.x + box_size, box_origin.y + box_size)` in double arithmetic. -/
def cell_box_d (o : rz_point_2d) (s : ℚ) : rz_aabb := ⟨o, ⟨fl (o.x + s), fl (o.y + s)⟩⟩

/-- The method `rz_quadtree::intersect_objects_with_cell` in double arithmetic. The overload
`intersect_2d(cell_box, objects_list[i])` that the object type selects is the argument
`hit` (`intersect_2d_aabb_line_d` for segments, `intersect_2d_aabb_aabb_d` for boxes). -/
def intersect_objects_with_cell_d (hit : rz_aabb → T → Bool) (objects_list : List T)
    (box_origin : rz_point_2d) (box_size : ℚ) : List T :=
  let box_max : rz_point_2d := ⟨fl (box_origin.x + box_size), fl (box_origin.y + box_size)⟩
  let cell_box : rz_aabb := ⟨box_origin, box_max⟩
  (objects_list.filter (fun o => hit cell_box o)).map copy

/-- The method `rz_quadtree::build_sub_tree` in double arithmetic, with the recursion made
structural as in `build_sub_tree_fuel`. -/
def build_sub_tree_fuel_d (hit : rz_aabb → T → Bool) (min_ max_ : rz_point_2d)
    (objects_threshold_ depth_threshold_ : Nat) :
    Nat → Option (rz_quadtree_node T) → List T → rz_point_2d → ℚ → Nat →
      Except String (rz_quadtree_node T)
  | 0, _, _, _, _, _ => .error "build_sub_tree: nesting bound exceeded"
  | _ + 1, none, _, _, _, _ => .error "rz_quadtree build_sub_tree received null node!"
  | fuel + 1, some node, objects_list, box_origin, box_size, depth =>
    let box_max : rz_point_2d := ⟨fl (box_origin.x + box_size), fl (box_origin.y + box_size)⟩
    let cell_box : rz_aabb := ⟨box_origin, box_max⟩
    let data_box : rz_aabb := ⟨min_, max_⟩
    if intersect_2d_aabb_aabb_d cell_box data_box = false then
      .ok (node.set_leaf true)
    else
      let node := node.set_objects_list (objects_list.map copy)
      if objects_list.length ≤ objects_threshold_ then
        .ok (node.set_leaf true)
      else if depth ≥ depth_threshold_ then
        .ok (node.set_leaf true)
      else
        let node := node.create_children
        let sub_box_size := fl (box_size / 2)
        let sub_box_origin_a : rz_point_2d := ⟨box_origin.x, fl (box_origin.y + sub_box_size)⟩
        let sub_box_origin_b : rz_point_2d :=
          ⟨fl (box_origin.x + sub_box_size), fl (box_origin.y + sub_box_size)⟩
        let sub_box_origin_c : rz_point_2d := ⟨box_origin.x, box_origin.y⟩
        let sub_box_origin_d : rz_point_2d := ⟨fl (box_origin.x + sub_box_size), box_origin.y⟩
        match build_sub_tree_fuel_d hit min_ max_ objects_threshold_ depth_threshold_ fuel
            (node.child_a.map (set_dimentions sub_box_origin_a sub_box_size))
            (intersect_objects_with_cell_d hit objects_list sub_box_origin_a sub_box_size)
            sub_box_origin_a sub_box_size (depth + 1) with
        | .error e => .error e
        | .ok a =>
        match build_sub_tree_fuel_d hit min_ max_ objects_threshold_ depth_threshold_ fuel
            (node.child_b.map (set_dimentions sub_box_origin_b sub_box_size))
            (intersect_objects_with_cell_d hit objects_list sub_box_origin_b sub_box_size)
            sub_box_origin_b sub_box_size (depth + 1) with
        | .error e => .error e
        | .ok b =>
        match build_sub_tree_fuel_d hit min_ max_ objects_threshold_ depth_threshold_ fuel
            (node.child_c.map (set_dimentions sub_box_origin_c sub_box_size))
            (intersect_objects_with_cell_d hit objects_list sub_box_origin_c sub_box_size)
            sub_box_origin_c sub_box_size (depth + 1) with
        | .error e => .error e
        | .ok c =>
        match build_sub_tree_fuel_d hit min_ max_ objects_threshold_ depth_threshold_ fuel
            (node.child_d.map (set_dimentions sub_box_origin_d sub_box_size))
            (intersect_objects_with_cell_d hit objects_list sub_box_origin_d sub_box_size)
            sub_box_origin_d sub_box_size (depth + 1) with
        | .error e => .error e
        | .ok d => .ok (node.set_children a b c d)

/-- The method `rz_quadtree::build_sub_tree` in double arithmetic. -/
def build_sub_tree_d (hit : rz_aabb → T → Bool) (min_ max_ : rz_point_2d)
    (objects_threshold_ depth_threshold_ : Nat) (node : Option (rz_quadtree_node T))
    (objects_list : List T) (box_origin : rz_point_2d) (box_size : ℚ) (depth : Nat) :
    Except String (rz_quadtree_node T) :=
  build_sub_tree_fuel_d hit min_ max_ objects_threshold_ depth_threshold_
    (depth_threshold_ - depth + 1) node objects_list box_origin box_size depth

/-- The edge length `box_size_` that `build_tree` computes in double arithmetic:
`size_x = fabs(max_.x - min_.x)`, `size_y = fabs(max_.y - min_.y)`, the larger of the
two. -/
def root_size_d (min_ max_ : rz_point_2d) : ℚ :=
  if |fl (max_.x - min_.x)| > |fl (max_.y - min_.y)| then |fl (max_.x - min_.x)|
  else |fl (max_.y - min_.y)|

/-- The method `rz_quadtree::build_tree` in double arithmetic. -/
def build_tree_d (hit : rz_aabb → T → Bool) (objects_threshold_ depth_threshold_ : Nat)
    (objects_list : List T) : Except String (rz_quadtree T) :=
  let mm := get_min_max objects_list
  let min_ := mm.1
  let max_ := mm.2
  let size_x := |fl (max_.x - min_.x)|
  let size_y := |fl (max_.y - min_.y)|
  let box_size_ := if size_x > size_y then size_x else size_y
  let root_ : Option (rz_quadtree_node T) := some (new_node.set_dimentions min_ box_size_)
  match build_sub_tree_d hit min_ max_ objects_threshold_ depth_threshold_ root_ objects_list
      min_ box_size_ 0 with
  | .error e => .error e
  | .ok r => .ok ⟨min_, max_, box_size_, some r, objects_threshold_, depth_threshold_⟩

/-- The constructor `rz_quadtree(objects_list, objects_threshold, depth_threshold)` in double
arithmetic. -/
def rz_quadtree.new_d (hit : rz_aabb → T → Bool) (objects_list : List T)
    (objects_threshold depth_threshold : Nat) : Except String (rz_quadtree T) :=
  build_tree_d hit objects_threshold depth_threshold objects_list

/-- The tree that `build_sub_tree_d` returns for a fresh node with dimensions `(o, s)`, list
`L` and depth `d`, as a relation. -/
inductive BuildsTo_d (hit : rz_aabb → T → Bool) (min_ max_ : rz_point_2d) (ot dt : Nat) :
    List T → rz_point_2d → ℚ → Nat → rz_quadtree_node T → Prop
  | outside {L o s d} :
      intersect_2d_aabb_aabb_d (cell_box_d o s) ⟨min_, max_⟩ = false →
      BuildsTo_d hit min_ max_ ot dt L o s d (bare [] true o s)
  | stop {L o s d} :
      intersect_2d_aabb_aabb_d (cell_box_d o s) ⟨min_, max_⟩ = true →
      (L.length ≤ ot ∨ dt ≤ d) →
      BuildsTo_d hit min_ max_ ot dt L o s d (bare (L.map copy) true o s)
  | split {L o s d a b c e} :
      intersect_2d_aabb_aabb_d (cell_box_d o s) ⟨min_, max_⟩ = true →
      ot < L.length → d < dt →
      BuildsTo_d hit min_ max_ ot dt
        (intersect_objects_with_cell_d hit L ⟨o.x, fl (o.y + fl (s / 2))⟩ (fl (s / 2)))
        ⟨o.x, fl (o.y + fl (s / 2))⟩ (fl (s / 2)) (d + 1) a →
      BuildsTo_d hit min_ max_ ot dt
        (intersect_objects_with_cell_d hit L
          ⟨fl (o.x + fl (s / 2)), fl (o.y + fl (s / 2))⟩ (fl (s / 2)))
        ⟨fl (o.x + fl (s / 2)), fl (o.y + fl (s / 2))⟩ (fl (s / 2)) (d + 1) b →
      BuildsTo_d hit min_ max_ ot dt
        (intersect_objects_with_cell_d hit L ⟨o.x, o.y⟩ (fl (s / 2)))
        ⟨o.x, o.y⟩ (fl (s / 2)) (d + 1) c →
      BuildsTo_d hit min_ max_ ot dt
        (intersect_objects_with_cell_d hit L ⟨fl (o.x + fl (s / 2)), o.y⟩ (fl (s / 2)))
        ⟨fl (o.x + fl (s / 2)), o.y⟩ (fl (s / 2)) (d + 1) e →
      BuildsTo_d hit min_ max_ ot dt L o s d (branch (L.map copy) false o s a b c e)

/-- The method `rz_quadtree::intersect_tree_with_point` in double arithmetic: the cell of a
node is `cell_d`; the point tests are comparisons. -/
def intersect_tree_with_point_d (min_ max_ : rz_point_2d) (pt : rz_point_2d)
    (objects : List T) : rz_quadtree_node T → Except String (List T)
  | bare l f o s =>
    if intersect_2d_aabb_point ⟨min_, max_⟩ pt = false then .ok objects
    else if intersect_2d_aabb_point (bare l f o s).cell_d pt then
      if f then .ok (l.map copy)
      else .error "rz_quadtree intersect_node_with_point received null node!"
    else .ok objects
  | branch l f o s a b c d =>
    if intersect_2d_aabb_point ⟨min_, max_⟩ pt = false then .ok objects
    else if intersect_2d_aabb_point (branch l f o s a b c d).cell_d pt then
      if f then .ok (l.map copy)
      else if intersect_2d_aabb_point a.cell_d pt then
        intersect_tree_with_point_d min_ max_ pt objects a
      else if intersect_2d_aabb_point b.cell_d pt then
        intersect_tree_with_point_d min_ max_ pt objects b
      else if intersect_2d_aabb_point c.cell_d pt then
        intersect_tree_with_point_d min_ max_ pt objects c
      else if intersect_2d_aabb_point d.cell_d pt then
        intersect_tree_with_point_d min_ max_ pt objects d
      else .ok objects
    else .ok objects

/-- The method `rz_quadtree::intersect_tree_with_aabb` in double arithmetic, for a caller's
vector whose elements are unchanged by copying: the cell of a node is `cell_d`, the box
test is `intersect_2d_aabb_aabb_d`. -/
def intersect_tree_with_aabb_d (min_ max_ : rz_point_2d) (aabb : rz_aabb) :
    List T → rz_quadtree_node T → Except String (List T)
  | objects, bare l f o s =>
    if intersect_2d_aabb_aabb_d ⟨min_, max_⟩ aabb = false then .ok objects
    else if intersect_2d_aabb_aabb_d (bare l f o s).cell_d aabb then
      if f then .ok (objects ++ l.map copy)
      else .error "rz_quadtree intersect_node_with_aabb received null node!"
    else .ok objects
  | objects, branch l f o s a b c d =>
    if intersect_2d_aabb_aabb_d ⟨min_, max_⟩ aabb = false then .ok objects
    else if intersect_2d_aabb_aabb_d (branch l f o s a b c d).cell_d aabb then
      if f then .ok (objects ++ l.map copy)
      else
        match (if intersect_2d_aabb_aabb_d a.cell_d aabb then
            intersect_tree_with_aabb_d min_ max_ aabb objects a else .ok objects) with
        | .error e => .error e
        | .ok objects =>
        match (if intersect_2d_aabb_aabb_d b.cell_d aabb then
            intersect_tree_with_aabb_d min_ max_ aabb objects b else .ok objects) with
        | .error e => .error e
        | .ok objects =>
        match (if intersect_2d_aabb_aabb_d c.cell_d aabb then
            intersect_tree_with_aabb_d min_ max_ aabb objects c else .ok objects) with
        | .error e => .error e
        | .ok objects =>
        if intersect_2d_aabb_aabb_d d.cell_d aabb then
          intersect_tree_with_aabb_d min_ max_ aabb objects d else .ok objects
    else .ok objects

/-- The method `rz_quadtree::get_objects_from_point` in double arithmetic. -/
def get_objects_from_point_d (t : rz_quadtree T) (pt : rz_point_2d) (objects : List T) :
    Except String (List T) :=
  match t.root_ with
  | none => .error "rz_quadtree get_objects_from_point received null node!"
  | some node => intersect_tree_with_point_d t.min_ t.max_ pt objects node

/-- The method `rz_quadtree::get_objects_from_aabb` in double arithmetic. -/
def get_objects_from_aabb_d (t : rz_quadtree T) (aabb : rz_aabb) (objects : List T) :
    Except String (List T) :=
  match t.root_ with
  | none => .error "rz_quadtree get_objects_from_aabb received null node!"
  | some node => intersect_tree_with_aabb_d t.min_ t.max_ aabb objects node

/-- The shape of a subtree built in double arithmetic: a leaf without children, or a non-leaf
whose four children have the edge length and the origins that `build_sub_tree` computes;
every stored list is a list of copies. -/
inductive WellShaped_d : rz_quadtree_node T → Prop
  | leaf (l : List T) (o : rz_point_2d) (s : ℚ) :
      l.map copy = l → WellShaped_d (bare l true o s)
  | inner (l : List T) (o : rz_point_2d) (s : ℚ) (a b c d : rz_quadtree_node T) :
      l.map copy = l →
      a.get_dimentions = (⟨o.x, fl (o.y + fl (s / 2))⟩, fl (s / 2)) →
      b.get_dimentions = (⟨fl (o.x + fl (s / 2)), fl (o.y + fl (s / 2))⟩, fl (s / 2)) →
      c.get_dimentions = (⟨o.x, o.y⟩, fl (s / 2)) →
      d.get_dimentions = (⟨fl (o.x + fl (s / 2)), o.y⟩, fl (s / 2)) →
      WellShaped_d a → WellShaped_d b → WellShaped_d c → WellShaped_d d →
      WellShaped_d (branch l false o s a b c d)

/-- One of the four steps of `intersect_tree_with_aabb` at an inner node, in double
arithmetic. -/
def aabb_step_d (min_ max_ : rz_point_2d) (aabb : rz_aabb) (child : rz_quadtree_node T)
    (objects : List T) : Except String (List T) :=
  if intersect_2d_aabb_aabb_d child.cell_d aabb then
    intersect_tree_with_aabb_d min_ max_ aabb objects child
  else .ok objects

/-- The leaf that a downward path `p` contributes to a region query with box `q` in double
arithmetic: the last node of `p` when it is a leaf and every node of `p` passes
`intersect_2d(cell, q)`. -/
def region_leaf_of_path_d (q : rz_aabb) (p : List (rz_quadtree_node T)) :
    Option (rz_quadtree_node T) :=
  match p.getLast? with
  | some l =>
    if l.is_leaf && p.all (fun n => intersect_2d_aabb_aabb_d n.cell_d q) then some l else none
  | none => none

/-- The leaves below `r` whose own cell and all of whose ancestors' cells pass
`intersect_2d(cell, q)` in double arithmetic, in depth-first A, B, C, D order. -/
def region_leaves_d (q : rz_aabb) (r : rz_quadtree_node T) : List (rz_quadtree_node T) :=
  (paths r).filterMap (region_leaf_of_path_d q)

/-- The leaf that a downward path `p` contributes to a point query in double arithmetic:
the last node of `p` when it is a leaf and every cell on `p` contains `pt`. -/
def point_leaf_of_path_d (pt : rz_point_2d) (p : List (rz_quadtree_node T)) :
    Option (rz_quadtree_node T) :=
  match p.getLast? with
  | some l =>
    if l.is_leaf && p.all (fun n => intersect_2d_aabb_point n.cell_d pt) then some l else none
  | none => none

/-- The leaves below `r` whose own cell and all of whose ancestors' cells contain `pt` in
double arithmetic, found by enumerating all downward paths. -/
def point_leaves_d (pt : rz_point_2d) (r : rz_quadtree_node T) : List (rz_quadtree_node T) :=
  (paths r).filterMap (point_leaf_of_path_d pt)

/-- Search over all downward paths in double arithmetic: the object list of the first
enumerated leaf whose own cell and all of whose ancestors' cells contain `pt`, the empty
list when there is none. -/
def path_leaf_search_d (r : rz_quadtree_node T) (pt : rz_point_2d) : List T :=
  match point_leaves_d pt r with
  | [] => []
  | l :: _ => l.objects_list

/-- All nodes of a subtree built in double arithmetic, each with its depth and the object
list that `build_sub_tree` received for it: the subtree root received `incoming`, a child
received `intersect_objects_with_cell(objects_list, sub_box_origin, sub_box_size)` computed
from the list its parent received and the child's own origin and edge length. -/
def nodes_with_input_d (hit : rz_aabb → T → Bool) : rz_quadtree_node T → Nat → List T →
    List (rz_quadtree_node T × Nat × List T)
  | bare l f o s, k, incoming => [(bare l f o s, k, incoming)]
  | branch l f o s a b c d, k, incoming =>
    (branch l f o s a b c d, k, incoming) ::
      (nodes_with_input_d hit a (k + 1)
          (intersect_objects_with_cell_d hit incoming a.get_dimentions.1 a.get_dimentions.2) ++
        nodes_with_input_d hit b (k + 1)
          (intersect_objects_with_cell_d hit incoming b.get_dimentions.1 b.get_dimentions.2) ++
        nodes_with_input_d hit c (k + 1)
          (intersect_objects_with_cell_d hit incoming c.get_dimentions.1 c.get_dimentions.2) ++
        nodes_with_input_d hit d (k + 1)
          (intersect_objects_with_cell_d hit incoming d.get_dimentions.1 d.get_dimentions.2))

/-- The method `rz_quadtree::intersect_tree_with_point` in double arithmetic, with the node
as part of the state:
it returns the node after the call together with the vector `objects` after the call. The
node is rebuilt from what each statement of the source leaves behind: `get_dimentions`
copies `origin_` and `size_` out, `is_leaf()` and `child_a()` … `child_d()` return a member,
`objects.assign` reads the node's list through `begin()` and `end()`; after a recursive call
on a child the node holds that child as the call left it. -/
def intersect_tree_with_point_st_d (min_ max_ : rz_point_2d) (pt : rz_point_2d)
    (objects : List T) : rz_quadtree_node T → Except String (rz_quadtree_node T × List T)
  | bare l f o s =>
    if intersect_2d_aabb_point ⟨min_, max_⟩ pt = false then .ok (bare l f o s, objects)
    else if intersect_2d_aabb_point (bare l f o s).cell_d pt then
      if f then .ok (bare l f o s, l.map copy)
      else .error "rz_quadtree intersect_node_with_point received null node!"
    else .ok (bare l f o s, objects)
  | branch l f o s a b c d =>
    if intersect_2d_aabb_point ⟨min_, max_⟩ pt = false then
      .ok (branch l f o s a b c d, objects)
    else if intersect_2d_aabb_point (branch l f o s a b c d).cell_d pt then
      if f then .ok (branch l f o s a b c d, l.map copy)
      else if intersect_2d_aabb_point a.cell_d pt then
        match intersect_tree_with_point_st_d min_ max_ pt objects a with
        | .error e => .error e
        | .ok (a1, objects) => .ok (branch l f o s a1 b c d, objects)
      else if intersect_2d_aabb_point b.cell_d pt then
        match intersect_tree_with_point_st_d min_ max_ pt objects b with
        | .error e => .error e
        | .ok (b1, objects) => .ok (branch l f o s a b1 c d, objects)
      else if intersect_2d_aabb_point c.cell_d pt then
        match intersect_tree_with_point_st_d min_ max_ pt objects c with
        | .error e => .error e
        | .ok (c1, objects) => .ok (branch l f o s a b c1 d, objects)
      else if intersect_2d_aabb_point d.cell_d pt then
        match intersect_tree_with_point_st_d min_ max_ pt objects d with
        | .error e => .error e
        | .ok (d1, objects) => .ok (branch l f o s a b c d1, objects)
      else .ok (branch l f o s a b c d, objects)
    else .ok (branch l f o s a b c d, objects)

/-- The method `rz_quadtree::intersect_tree_with_aabb` in double arithmetic, with the node
as part of the state:
it returns the node after the call together with the vector `objects` after the call; the
node after the four conditional recursive calls holds the four children as the calls left
them. -/
def intersect_tree_with_aabb_st_d (min_ max_ : rz_point_2d) (aabb : rz_aabb) :
    List T → rz_quadtree_node T → Except String (rz_quadtree_node T × List T)
  | objects, bare l f o s =>
    if intersect_2d_aabb_aabb_d ⟨min_, max_⟩ aabb = false then .ok (bare l f o s, objects)
    else if intersect_2d_aabb_aabb_d (bare l f o s).cell_d aabb then
      if f then .ok (bare l f o s, objects ++ l.map copy)
      else .error "rz_quadtree intersect_node_with_aabb received null node!"
    else .ok (bare l f o s, objects)
  | objects, branch l f o s a b c d =>
    if intersect_2d_aabb_aabb_d ⟨min_, max_⟩ aabb = false then
      .ok (branch l f o s a b c d, objects)
    else if intersect_2d_aabb_aabb_d (branch l f o s a b c d).cell_d aabb then
      if f then .ok (branch l f o s a b c d, objects ++ l.map copy)
      else
        match (if intersect_2d_aabb_aabb_d a.cell_d aabb then
            intersect_tree_with_aabb_st_d min_ max_ aabb objects a else .ok (a, objects)) with
        | .error e => .error e
        | .ok (a1, objects) =>
        match (if intersect_2d_aabb_aabb_d b.cell_d aabb then
            intersect_tree_with_aabb_st_d min_ max_ aabb objects b else .ok (b, objects)) with
        | .error e => .error e
        | .ok (b1, objects) =>
        match (if intersect_2d_aabb_aabb_d c.cell_d aabb then
            intersect_tree_with_aabb_st_d min_ max_ aabb objects c else .ok (c, objects)) with
        | .error e => .error e
        | .ok (c1, objects) =>
        match (if intersect_2d_aabb_aabb_d d.cell_d aabb then
            intersect_tree_with_aabb_st_d min_ max_ aabb objects d else .ok (d, objects)) with
        | .error e => .error e
        | .ok (d1, objects) => .ok (branch l f o s a1 b1 c1 d1, objects)
    else .ok (branch l f o s a b c d, objects)

/-- The method `rz_quadtree::get_objects_from_point` in double arithmetic as a transition of
the tree object: the
tree after the call (its root replaced by the root node the traversal left behind; no other
member is touched by the method) and the vector after the call. -/
def get_objects_from_point_st_d (t : rz_quadtree T) (pt : rz_point_2d) (objects : List T) :
    Except String (rz_quadtree T × List T) :=
  match t.root_ with
  | none => .error "rz_quadtree get_objects_from_point_d received null node!"
  | some node =>
    match intersect_tree_with_point_st_d t.min_ t.max_ pt objects node with
    | .error e => .error e
    | .ok (node1, objects) =>
      .ok (⟨t.min_, t.max_, t.box_size_, some node1, t.objects_threshold_,
        t.depth_threshold_⟩, objects)

/-- The method `rz_quadtree::get_objects_from_aabb` in double arithmetic as a transition of
the tree object. -/
def get_objects_from_aabb_st_d (t : rz_quadtree T) (aabb : rz_aabb) (objects : List T) :
    Except String (rz_quadtree T × List T) :=
  match t.root_ with
  | none => .error "rz_quadtree get_objects_from_aabb_d received null node!"
  | some node =>
    match intersect_tree_with_aabb_st_d t.min_ t.max_ aabb objects node with
    | .error e => .error e
    | .ok (node1, objects) =>
      .ok (⟨t.min_, t.max_, t.box_size_, some node1, t.objects_threshold_,
        t.depth_threshold_⟩, objects)

/-! ## Construction returns a tree -/

theorem build_sub_tree_fuel_builds (min_ max_ : rz_point_2d) (ot dt : Nat) :
    ∀ (n : Nat) (L : List T) (o : rz_point_2d) (s : ℚ) (d : Nat), dt - d < n →
      ∃ r, build_sub_tree_fuel min_ max_ ot dt n (some (bare [] false o s)) L o s d = .ok r ∧
        BuildsTo min_ max_ ot dt L o s d r := by
  intro n
  induction n with
  | zero => intro L o s d hn; omega
  | succ n ih =>
    intro L o s d hn
    rw [build_sub_tree_fuel]
    by_cases h1 : intersect_2d_aabb_aabb (cell_box o s) ⟨min_, max_⟩ = false
    · refine ⟨bare [] true o s, ?_, BuildsTo.outside h1⟩
      simp only [cell_box] at h1
      simp [h1, set_leaf]
    · have h1t : intersect_2d_aabb_aabb (cell_box o s) ⟨min_, max_⟩ = true := by simpa using h1
      by_cases h2 : L.length ≤ ot
      · refine ⟨bare (L.map copy) true o s, ?_, BuildsTo.stop h1t (Or.inl h2)⟩
        simp only [cell_box] at h1t
        simp [h1t, set_leaf, set_objects_list, h2]
      · by_cases h3 : d ≥ dt
        · refine ⟨bare (L.map copy) true o s, ?_, BuildsTo.stop h1t (Or.inr h3)⟩
          simp only [cell_box] at h1t
          simp [h1t, set_leaf, set_objects_list, h3]
        · obtain ⟨a, ha, hA⟩ := ih (intersect_objects_with_cell L ⟨o.x, o.y + s / 2⟩ (s / 2))
            ⟨o.x, o.y + s / 2⟩ (s / 2) (d + 1) (by omega)
          obtain ⟨b, hb, hB⟩ := ih
            (intersect_objects_with_cell L ⟨o.x + s / 2, o.y + s / 2⟩ (s / 2))
            ⟨o.x + s / 2, o.y + s / 2⟩ (s / 2) (d + 1) (by omega)
          obtain ⟨c, hc, hC⟩ := ih (intersect_objects_with_cell L ⟨o.x, o.y⟩ (s / 2))
            ⟨o.x, o.y⟩ (s / 2) (d + 1) (by omega)
          obtain ⟨e, he, hE⟩ := ih (intersect_objects_with_cell L ⟨o.x + s / 2, o.y⟩ (s / 2))
            ⟨o.x + s / 2, o.y⟩ (s / 2) (d + 1) (by omega)
          refine ⟨branch (L.map copy) false o s a b c e, ?_,
            BuildsTo.split h1t (by omega) (by omega) hA hB hC hE⟩
          simp only [cell_box] at h1t
          simp [h1t, h2, h3, set_objects_list, create_children, child_a, child_b, child_c,
            child_d, new_node, set_dimentions, ha, hb, hc, he, set_children]

theorem build_sub_tree_builds (min_ max_ : rz_point_2d) (ot dt : Nat)
    (L : List T) (o : rz_point_2d) (s : ℚ) (d : Nat) :
    ∃ r, build_sub_tree min_ max_ ot dt (some (bare [] false o s)) L o s d = .ok r ∧
      BuildsTo min_ max_ ot dt L o s d r :=
  build_sub_tree_fuel_builds min_ max_ ot dt (dt - d + 1) L o s d (by omega)

/-- The constructor returns a tree: its bounds are those of `get_min_max`, its root is the
subtree built for the whole list at depth 0 on the square `(min_, root_size)`. -/
theorem rz_quadtree_new_builds (L : List T) (ot dt : Nat) :
    ∃ r, rz_quadtree.new L ot dt =
        .ok ⟨(get_min_max L).1, (get_min_max L).2,
          root_size (get_min_max L).1 (get_min_max L).2, some r, ot, dt⟩ ∧
      BuildsTo (get_min_max L).1 (get_min_max L).2 ot dt L (get_min_max L).1
        (root_size (get_min_max L).1 (get_min_max L).2) 0 r := by
  obtain ⟨r, hr, hB⟩ := build_sub_tree_builds (get_min_max L).1 (get_min_max L).2 ot dt L
    (get_min_max L).1 (root_size (get_min_max L).1 (get_min_max L).2) 0
  refine ⟨r, ?_, hB⟩
  unfold rz_quadtree.new build_tree
  simp only [new_node, set_dimentions, root_size] at hr ⊢
  all_goals simp only [hr]

/-! ## Basic facts about cells and built subtrees -/

theorem mem_cell_box_iff (o : rz_point_2d) (s : ℚ) (p : rz_point_2d) :
    intersect_2d_aabb_point (cell_box o s) p = true ↔
      o.x < p.x ∧ p.x ≤ o.x + s ∧ o.y < p.y ∧ p.y ≤ o.y + s := by
  unfold intersect_2d_aabb_point cell_box
  simp only [decide_eq_true_eq, gt_iff_lt]

theorem cell_of_dims {n : rz_quadtree_node T} {o : rz_point_2d} {s : ℚ}
    (h : n.get_dimentions = (o, s)) : n.cell = cell_box o s := by
  unfold cell cell_box
  rw [h]

theorem map_copy_map_copy (L : List T) : (L.map copy).map copy = L.map copy := by
  rw [List.map_map]
  apply List.map_congr_left
  intro o _
  exact copy_idem o

theorem BuildsTo.dims {min_ max_ : rz_point_2d} {ot dt : Nat} {L : List T} {o : rz_point_2d}
    {s : ℚ} {d : Nat} {r : rz_quadtree_node T} (h : BuildsTo min_ max_ ot dt L o s d r) :
    r.get_dimentions = (o, s) := by
  cases h <;> rfl

theorem BuildsTo.wellShaped {min_ max_ : rz_point_2d} {ot dt : Nat} {L : List T}
    {o : rz_point_2d} {s : ℚ} {d : Nat} {r : rz_quadtree_node T}
    (h : BuildsTo min_ max_ ot dt L o s d r) (hs : 0 ≤ s) : WellShaped r := by
  induction h with
  | outside _ => exact WellShaped.leaf _ _ _ rfl hs
  | stop _ _ => exact WellShaped.leaf _ _ _ (map_copy_map_copy _) hs
  | split _ _ _ hA hB hC hE ihA ihB ihC ihE =>
    have hs2 := div_nonneg hs (by norm_num : (0 : ℚ) ≤ 2)
    exact WellShaped.inner _ _ _ _ _ _ _ (map_copy_map_copy _) hs hA.dims hB.dims hC.dims
      hE.dims (ihA hs2) (ihB hs2) (ihC hs2) (ihE hs2)

theorem root_size_nonneg (mn mx : rz_point_2d) : 0 ≤ root_size mn mx := by
  unfold root_size
  split_ifs <;> exact abs_nonneg _

/-- Every tree the constructor returns: bounds from `get_min_max`, a well-shaped root. -/
theorem rz_quadtree_new_wellShaped (L : List T) (ot dt : Nat) :
    ∃ r, rz_quadtree.new L ot dt =
        .ok ⟨(get_min_max L).1, (get_min_max L).2,
          root_size (get_min_max L).1 (get_min_max L).2, some r, ot, dt⟩ ∧
      r.get_dimentions = ((get_min_max L).1, root_size (get_min_max L).1 (get_min_max L).2) ∧
      WellShaped r := by
  obtain ⟨r, hr, hB⟩ := rz_quadtree_new_builds L ot dt
  exact ⟨r, hr, hB.dims, hB.wellShaped (root_size_nonneg _ _)⟩

/-! ## The point query on a well-shaped tree -/

theorem cell_bare (l : List T) (f : Bool) (o : rz_point_2d) (s : ℚ) :
    (bare l f o s).cell = cell_box o s := rfl

theorem cell_branch (l : List T) (f : Bool) (o : rz_point_2d) (s : ℚ)
    (a b c d : rz_quadtree_node T) : (branch l f o s a b c d).cell = cell_box o s := rfl

theorem leaves_containing_bare (l : List T) (o : rz_point_2d) (s : ℚ) (pt : rz_point_2d) :
    leaves_containing (bare l true o s) pt =
      if intersect_2d_aabb_point (cell_box o s) pt then [bare l true o s] else [] := by
  simp only [leaves_containing, leaves, nodes, List.filter, is_leaf, cell_bare]
  split <;> simp_all

theorem leaves_containing_branch (l : List T) (o : rz_point_2d) (s : ℚ)
    (a b c d : rz_quadtree_node T) (pt : rz_point_2d) :
    leaves_containing (branch l false o s a b c d) pt =
      leaves_containing a pt ++ leaves_containing b pt ++ leaves_containing c pt ++
        leaves_containing d pt := by
  simp only [leaves_containing, leaves, nodes, List.filter, is_leaf, List.filter_append]

theorem point_query_wellShaped (mn mx pt : rz_point_2d)
    (hD : intersect_2d_aabb_point ⟨mn, mx⟩ pt = true) :
    ∀ r : rz_quadtree_node T, WellShaped r →
      (intersect_2d_aabb_point r.cell pt = false →
        leaves_containing r pt = [] ∧
          ∀ objs, intersect_tree_with_point mn mx pt objs r = .ok objs) ∧
      (intersect_2d_aabb_point r.cell pt = true →
        ∃ l, leaves_containing r pt = [l] ∧
          ∀ objs, intersect_tree_with_point mn mx pt objs r = .ok l.objects_list) := by
  intro r hr
  induction hr with
  | leaf l o s hl hs =>
    rw [cell_bare, leaves_containing_bare]
    constructor
    · intro h
      refine ⟨by simp [h], fun objs => ?_⟩
      simp [intersect_tree_with_point, hD, cell_bare, h]
    · intro h
      refine ⟨bare l true o s, by simp [h], fun objs => ?_⟩
      simp [intersect_tree_with_point, hD, cell_bare, h, objects_list, hl]
  | inner l o s a b c d hl hs ha hb hc hd wa wb wc wd iha ihb ihc ihd =>
    rw [cell_branch, leaves_containing_branch]
    rw [cell_of_dims ha] at iha
    rw [cell_of_dims hb] at ihb
    rw [cell_of_dims hc] at ihc
    rw [cell_of_dims hd] at ihd
    have ea := mem_cell_box_iff ⟨o.x, o.y + s / 2⟩ (s / 2) pt
    have eb := mem_cell_box_iff ⟨o.x + s / 2, o.y + s / 2⟩ (s / 2) pt
    have ec := mem_cell_box_iff ⟨o.x, o.y⟩ (s / 2) pt
    have ed := mem_cell_box_iff ⟨o.x + s / 2, o.y⟩ (s / 2) pt
    have er := mem_cell_box_iff o s pt
    simp only at ea eb ec ed
    constructor
    · intro h
      have hn : ¬ (o.x < pt.x ∧ pt.x ≤ o.x + s ∧ o.y < pt.y ∧ pt.y ≤ o.y + s) := by
        rw [← er, h]; simp
      have fa : intersect_2d_aabb_point (cell_box ⟨o.x, o.y + s / 2⟩ (s / 2)) pt = false := by
        rw [Bool.eq_false_iff, Ne, ea]; intro ⟨h1, h2, h3, h4⟩
        exact hn ⟨h1, by linarith, by linarith, by linarith⟩
      have fb : intersect_2d_aabb_point (cell_box ⟨o.x + s / 2, o.y + s / 2⟩ (s / 2)) pt
          = false := by
        rw [Bool.eq_false_iff, Ne, eb]; intro ⟨h1, h2, h3, h4⟩
        exact hn ⟨by linarith, by linarith, by linarith, by linarith⟩
      have fc : intersect_2d_aabb_point (cell_box ⟨o.x, o.y⟩ (s / 2)) pt = false := by
        rw [Bool.eq_false_iff, Ne, ec]; intro ⟨h1, h2, h3, h4⟩
        exact hn ⟨h1, by linarith, h3, by linarith⟩
      have fd : intersect_2d_aabb_point (cell_box ⟨o.x + s / 2, o.y⟩ (s / 2)) pt = false := by
        rw [Bool.eq_false_iff, Ne, ed]; intro ⟨h1, h2, h3, h4⟩
        exact hn ⟨by linarith, by linarith, h3, by linarith⟩
      refine ⟨?_, fun objs => ?_⟩
      · rw [(iha.1 fa).1, (ihb.1 fb).1, (ihc.1 fc).1, (ihd.1 fd).1]; rfl
      · simp [intersect_tree_with_point, hD, cell_branch, h]
    · intro h
      obtain ⟨h1, h2, h3, h4⟩ := er.1 h
      by_cases hx : pt.x ≤ o.x + s / 2 <;> by_cases hy : pt.y ≤ o.y + s / 2
      · -- lower left: C
        have fa : intersect_2d_aabb_point (cell_box ⟨o.x, o.y + s / 2⟩ (s / 2)) pt = false := by
          rw [Bool.eq_false_iff, Ne, ea]; intro ⟨_, _, _, _⟩; linarith
        have fb : intersect_2d_aabb_point (cell_box ⟨o.x + s / 2, o.y + s / 2⟩ (s / 2)) pt
            = false := by
          rw [Bool.eq_false_iff, Ne, eb]; intro ⟨_, _, _, _⟩; linarith
        have fc : intersect_2d_aabb_point (cell_box ⟨o.x, o.y⟩ (s / 2)) pt = true :=
          ec.2 ⟨h1, hx, h3, hy⟩
        have fd : intersect_2d_aabb_point (cell_box ⟨o.x + s / 2, o.y⟩ (s / 2)) pt = false := by
          rw [Bool.eq_false_iff, Ne, ed]; intro ⟨_, _, _, _⟩; linarith
        obtain ⟨lf, hlf, hq⟩ := ihc.2 fc
        refine ⟨lf, ?_, fun objs => ?_⟩
        · rw [(iha.1 fa).1, (ihb.1 fb).1, hlf, (ihd.1 fd).1]; rfl
        · simp [intersect_tree_with_point, hD, cell_branch, h, cell_of_dims ha,
            cell_of_dims hb, cell_of_dims hc, cell_of_dims hd, fa, fb, fc, fd, hq]
      · -- upper left: A
        have fa : intersect_2d_aabb_point (cell_box ⟨o.x, o.y + s / 2⟩ (s / 2)) pt = true :=
          ea.2 ⟨h1, hx, by linarith, by linarith⟩
        have fb : intersect_2d_aabb_point (cell_box ⟨o.x + s / 2, o.y + s / 2⟩ (s / 2)) pt
            = false := by
          rw [Bool.eq_false_iff, Ne, eb]; intro ⟨_, _, _, _⟩; linarith
        have fc : intersect_2d_aabb_point (cell_box ⟨o.x, o.y⟩ (s / 2)) pt = false := by
          rw [Bool.eq_false_iff, Ne, ec]; intro ⟨_, _, _, _⟩; linarith
        have fd : intersect_2d_aabb_point (cell_box ⟨o.x + s / 2, o.y⟩ (s / 2)) pt = false := by
          rw [Bool.eq_false_iff, Ne, ed]; intro ⟨_, _, _, _⟩; linarith
        obtain ⟨lf, hlf, hq⟩ := iha.2 fa
        refine ⟨lf, ?_, fun objs => ?_⟩
        · rw [hlf, (ihb.1 fb).1, (ihc.1 fc).1, (ihd.1 fd).1]; rfl
        · simp [intersect_tree_with_point, hD, cell_branch, h, cell_of_dims ha,
            cell_of_dims hb, cell_of_dims hc, cell_of_dims hd, fa, fb, fc, fd, hq]
      · -- lower right: D
        have fa : intersect_2d_aabb_point (cell_box ⟨o.x, o.y + s / 2⟩ (s / 2)) pt = false := by
          rw [Bool.eq_false_iff, Ne, ea]; intro ⟨_, _, _, _⟩; linarith
        have fb : intersect_2d_aabb_point (cell_box ⟨o.x + s / 2, o.y + s / 2⟩ (s / 2)) pt
            = false := by
          rw [Bool.eq_false_iff, Ne, eb]; intro ⟨_, _, _, _⟩; linarith
        have fc : intersect_2d_aabb_point (cell_box ⟨o.x, o.y⟩ (s / 2)) pt = false := by
          rw [Bool.eq_false_iff, Ne, ec]; intro ⟨_, _, _, _⟩; linarith
        have fd : intersect_2d_aabb_point (cell_box ⟨o.x + s / 2, o.y⟩ (s / 2)) pt = true :=
          ed.2 ⟨by linarith, by linarith, h3, hy⟩
        obtain ⟨lf, hlf, hq⟩ := ihd.2 fd
        refine ⟨lf, ?_, fun objs => ?_⟩
        · rw [(iha.1 fa).1, (ihb.1 fb).1, (ihc.1 fc).1, hlf]; rfl
        · simp [intersect_tree_with_point, hD, cell_branch, h, cell_of_dims ha,
            cell_of_dims hb, cell_of_dims hc, cell_of_dims hd, fa, fb, fc, fd, hq]
      · -- upper right: B
        have fa : intersect_2d_aabb_point (cell_box ⟨o.x, o.y + s / 2⟩ (s / 2)) pt = false := by
          rw [Bool.eq_false_iff, Ne, ea]; intro ⟨_, _, _, _⟩; linarith
        have fb : intersect_2d_aabb_point (cell_box ⟨o.x + s / 2, o.y + s / 2⟩ (s / 2)) pt
            = true := eb.2 ⟨by linarith, by linarith, by linarith, by linarith⟩
        have fc : intersect_2d_aabb_point (cell_box ⟨o.x, o.y⟩ (s / 2)) pt = false := by
          rw [Bool.eq_false_iff, Ne, ec]; intro ⟨_, _, _, _⟩; linarith
        have fd : intersect_2d_aabb_point (cell_box ⟨o.x + s / 2, o.y⟩ (s / 2)) pt = false := by
          rw [Bool.eq_false_iff, Ne, ed]; intro ⟨_, _, _, _⟩; linarith
        obtain ⟨lf, hlf, hq⟩ := ihb.2 fb
        refine ⟨lf, ?_, fun objs => ?_⟩
        · rw [(iha.1 fa).1, hlf, (ihc.1 fc).1, (ihd.1 fd).1]; rfl
        · simp [intersect_tree_with_point, hD, cell_branch, h, cell_of_dims ha,
            cell_of_dims hb, cell_of_dims hc, cell_of_dims hd, fa, fb, fc, fd, hq]

/-! ## The built tree is determined by the relation -/

theorem BuildsTo.unique {min_ max_ : rz_point_2d} {ot dt : Nat} {L : List T}
    {o : rz_point_2d} {s : ℚ} {d : Nat} {r r' : rz_quadtree_node T}
    (h : BuildsTo min_ max_ ot dt L o s d r) (h' : BuildsTo min_ max_ ot dt L o s d r') :
    r = r' := by
  induction h generalizing r' with
  | outside h1 =>
    cases h' with
    | outside _ => rfl
    | stop h2 _ => rw [h1] at h2; cases h2
    | split h2 _ _ _ _ _ _ => rw [h1] at h2; cases h2
  | stop h1 h3 =>
    cases h' with
    | outside h2 => rw [h1] at h2; cases h2
    | stop _ _ => rfl
    | split _ h4 h5 _ _ _ _ => omega
  | split h1 h3 h4 _ _ _ _ ihA ihB ihC ihE =>
    cases h' with
    | outside h2 => rw [h1] at h2; cases h2
    | stop _ h5 => omega
    | split _ _ _ hA hB hC hE => rw [ihA hA, ihB hB, ihC hC, ihE hE]

/-- Evaluating the constructor: once the bounds and the root edge length are known, the
tree is the one the relation describes. -/
theorem rz_quadtree_new_eq_of_builds (L : List T) (ot dt : Nat) (mn mx : rz_point_2d) (sz : ℚ)
    (r : rz_quadtree_node T) (hmm : get_min_max L = (mn, mx)) (hsz : root_size mn mx = sz)
    (hB : BuildsTo mn mx ot dt L mn sz 0 r) :
    rz_quadtree.new L ot dt = .ok ⟨mn, mx, sz, some r, ot, dt⟩ := by
  obtain ⟨r', hr', hB'⟩ := rz_quadtree_new_builds L ot dt
  rw [hmm] at hr' hB'
  simp only [hsz] at hr' hB'
  rw [hr', hB'.unique hB]

theorem point_query_outside (mn mx pt : rz_point_2d)
    (hD : intersect_2d_aabb_point ⟨mn, mx⟩ pt = false) (objs : List T)
    (r : rz_quadtree_node T) : intersect_tree_with_point mn mx pt objs r = .ok objs := by
  cases r <;> simp [intersect_tree_with_point, hD]

theorem leaves_containing_wellShaped (pt : rz_point_2d) (r : rz_quadtree_node T)
    (hr : WellShaped r) :
    (intersect_2d_aabb_point r.cell pt = false → leaves_containing r pt = []) ∧
    (intersect_2d_aabb_point r.cell pt = true → ∃ l, leaves_containing r pt = [l]) := by
  have hD : intersect_2d_aabb_point ⟨⟨pt.x - 1, pt.y - 1⟩, pt⟩ pt = true := by
    unfold intersect_2d_aabb_point
    simp
  have h := point_query_wellShaped ⟨pt.x - 1, pt.y - 1⟩ pt pt hD r hr
  refine ⟨fun hc => (h.1 hc).1, fun hc => ?_⟩
  obtain ⟨l, hl, _⟩ := h.2 hc
  exact ⟨l, hl⟩

/-! ## C1: the point query against linear search over the leaves -/

/-- C1, as stated, fails: for the tree built with the default thresholds from the single
segment (0,0)-(2,1), the root is a leaf with cell (0,2]x(0,2] that contains the point
(1, 3/2), so linear search over the leaves yields the segment, while
`get_objects_from_point` yields nothing, because the point is outside the data box
(0,2]x(0,1]. -/
theorem C1_counterexample :
    ∃ (t : rz_quadtree rz_line) (r : rz_quadtree_node rz_line),
      rz_quadtree.new_default [(⟨⟨0, 0⟩, ⟨2, 1⟩⟩ : rz_line)] = .ok t ∧ t.root_ = some r ∧
      get_objects_from_point t ⟨1, 3 / 2⟩ [] = .ok [] ∧
      linear_leaf_search r ⟨1, 3 / 2⟩ = [⟨⟨0, 0⟩, ⟨2, 1⟩⟩] := by
  have hmm : get_min_max [(⟨⟨0, 0⟩, ⟨2, 1⟩⟩ : rz_line)] = (⟨0, 0⟩, ⟨2, 1⟩) := by
    simp only [get_min_max, get_min_max_step, List.foldl, min_2d, max_2d, min_2d_line, max_2d_line, MAXF, MINF]
    norm_num
  have hsz : root_size ⟨0, 0⟩ ⟨2, 1⟩ = 2 := by
    simp only [root_size]
    norm_num
  have hi : intersect_2d_aabb_aabb (cell_box ⟨0, 0⟩ 2) ⟨⟨0, 0⟩, ⟨2, 1⟩⟩ = true := by
    simp only [intersect_2d_aabb_aabb, cell_box, rz_aabb.op_eq, rz_point_2d.op_eq,
      rz_aabb.width, rz_aabb.height, EPS]
    norm_num
  have hB : BuildsTo (⟨0, 0⟩ : rz_point_2d) ⟨2, 1⟩ 10 12 [(⟨⟨0, 0⟩, ⟨2, 1⟩⟩ : rz_line)]
      ⟨0, 0⟩ 2 0 (bare [⟨⟨0, 0⟩, ⟨2, 1⟩⟩] true ⟨0, 0⟩ 2) :=
    BuildsTo.stop hi (Or.inl (by simp))
  refine ⟨⟨⟨0, 0⟩, ⟨2, 1⟩, 2, some (bare [⟨⟨0, 0⟩, ⟨2, 1⟩⟩] true ⟨0, 0⟩ 2), 10, 12⟩, _,
    rz_quadtree_new_eq_of_builds _ 10 12 _ _ _ _ hmm hsz hB, rfl, ?_, ?_⟩
  · simp only [get_objects_from_point, intersect_tree_with_point, intersect_2d_aabb_point]
    norm_num
  · simp only [linear_leaf_search, leaves_containing, leaves, nodes, List.filter, is_leaf,
      cell, get_dimentions, intersect_2d_aabb_point]
    norm_num [objects_list]

/-! ## C7, C8: points outside the data box and on its lower-left boundary -/

/-- C7: for every tree the constructor returns and every query point outside the closed
data box [min, max] computed by `get_min_max`, `get_objects_from_point`, started on an
empty vector, returns the empty sequence. -/
theorem C7_point_outside_data_box (L : List T) (ot dt : Nat) (pt : rz_point_2d)
    (hout : ¬ in_box ⟨(get_min_max L).1, (get_min_max L).2⟩ pt) :
    ∃ t : rz_quadtree T, rz_quadtree.new L ot dt = .ok t ∧
      t.min_ = (get_min_max L).1 ∧ t.max_ = (get_min_max L).2 ∧
      get_objects_from_point t pt [] = .ok [] := by
  obtain ⟨r, hnew, _, _⟩ := rz_quadtree_new_wellShaped L ot dt
  refine ⟨_, hnew, rfl, rfl, ?_⟩
  have hD : intersect_2d_aabb_point ⟨(get_min_max L).1, (get_min_max L).2⟩ pt = false := by
    rw [Bool.eq_false_iff]
    intro h
    unfold intersect_2d_aabb_point at h
    simp only [decide_eq_true_eq, gt_iff_lt] at h
    exact hout ⟨le_of_lt h.1, h.2.1, le_of_lt h.2.2.1, h.2.2.2⟩
  simp only [get_objects_from_point]
  exact point_query_outside _ _ _ hD [] r

/-- C7 at a concrete input: the tree of the segment (0,0)-(2,1) and the point (5,5). -/
theorem C7_point_outside_data_box_witness :
    ∃ t : rz_quadtree rz_line, rz_quadtree.new [(⟨⟨0, 0⟩, ⟨2, 1⟩⟩ : rz_line)] 10 12 = .ok t ∧
      t.min_ = (get_min_max [(⟨⟨0, 0⟩, ⟨2, 1⟩⟩ : rz_line)]).1 ∧
      t.max_ = (get_min_max [(⟨⟨0, 0⟩, ⟨2, 1⟩⟩ : rz_line)]).2 ∧
      get_objects_from_point t ⟨5, 5⟩ [] = .ok [] :=
  C7_point_outside_data_box [(⟨⟨0, 0⟩, ⟨2, 1⟩⟩ : rz_line)] 10 12 ⟨5, 5⟩ (by
    simp only [in_box, get_min_max, get_min_max_step, List.foldl, min_2d, max_2d, min_2d_line, max_2d_line,
      MAXF, MINF]
    norm_num)

theorem nodes_origin_ge (r : rz_quadtree_node T) (hr : WellShaped r) :
    ∀ n ∈ nodes r, r.get_dimentions.1.x ≤ n.get_dimentions.1.x ∧
      r.get_dimentions.1.y ≤ n.get_dimentions.1.y := by
  induction hr with
  | leaf l o s hl hs =>
    intro n hn
    simp only [nodes, List.mem_singleton] at hn
    subst hn
    exact ⟨le_refl _, le_refl _⟩
  | inner l o s a b c d hl hs ha hb hc hd wa wb wc wd iha ihb ihc ihd =>
    intro n hn
    simp only [nodes, List.mem_cons, List.mem_append] at hn
    have hs2 := div_nonneg hs (by norm_num : (0 : ℚ) ≤ 2)
    rw [ha] at iha
    rw [hb] at ihb
    rw [hc] at ihc
    rw [hd] at ihd
    simp only [get_dimentions] at iha ihb ihc ihd ⊢
    rcases hn with hn | ((hn | hn) | hn) | hn
    · subst hn
      exact ⟨le_refl _, le_refl _⟩
    · have := iha n hn
      exact ⟨this.1, by linarith⟩
    · have := ihb n hn
      exact ⟨by linarith, by linarith⟩
    · exact ihc n hn
    · have := ihd n hn
      exact ⟨by linarith, this.2⟩

/-- C8: point-in-cell membership is `min.x < p.x <= max.x` and `min.y < p.y <= max.y`; and
for every tree the constructor returns, a query point with `x = min_.x` or `y = min_.y`
(in particular the lower-left corner `min_` of the data box) lies in the cell of no node of
the tree, and `get_objects_from_point`, started on an empty vector, returns no objects. -/
theorem C8_lower_left_boundary_never_matches (L : List T) (ot dt : Nat) (pt : rz_point_2d)
    (hpt : pt.x = (get_min_max L).1.x ∨ pt.y = (get_min_max L).1.y) :
    (∀ (b : rz_aabb) (p : rz_point_2d), intersect_2d_aabb_point b p = true ↔
        b.min.x < p.x ∧ p.x ≤ b.max.x ∧ b.min.y < p.y ∧ p.y ≤ b.max.y) ∧
    ∃ (t : rz_quadtree T) (r : rz_quadtree_node T),
      rz_quadtree.new L ot dt = .ok t ∧ t.root_ = some r ∧ t.min_ = (get_min_max L).1 ∧
      (∀ n ∈ nodes r, intersect_2d_aabb_point n.cell pt = false) ∧
      get_objects_from_point t pt [] = .ok [] := by
  constructor
  · intro b p
    unfold intersect_2d_aabb_point
    simp only [decide_eq_true_eq, gt_iff_lt]
  · obtain ⟨r, hnew, hdim, hw⟩ := rz_quadtree_new_wellShaped L ot dt
    refine ⟨_, r, hnew, rfl, rfl, ?_, ?_⟩
    · intro n hn
      have hge := nodes_origin_ge r hw n hn
      rw [hdim] at hge
      rw [Bool.eq_false_iff]
      intro h
      unfold intersect_2d_aabb_point cell at h
      simp only [decide_eq_true_eq, gt_iff_lt] at h
      rcases hpt with hx | hy
      · have := h.1; linarith [hge.1]
      · have := h.2.2.1; linarith [hge.2]
    · have hD : intersect_2d_aabb_point ⟨(get_min_max L).1, (get_min_max L).2⟩ pt = false := by
        rw [Bool.eq_false_iff]
        intro h
        unfold intersect_2d_aabb_point at h
        simp only [decide_eq_true_eq, gt_iff_lt] at h
        rcases hpt with hx | hy
        · have := h.1; linarith
        · have := h.2.2.1; linarith
      simp only [get_objects_from_point]
      exact point_query_outside _ _ _ hD [] r

/-- C8 at a concrete input: the two crossing segments (0,0)-(1,1) and (0,1)-(1,0), which
both touch the boundary x = 0, and the query at the lower-left corner (0,0). -/
theorem C8_lower_left_boundary_never_matches_witness :
    (∀ (b : rz_aabb) (p : rz_point_2d), intersect_2d_aabb_point b p = true ↔
        b.min.x < p.x ∧ p.x ≤ b.max.x ∧ b.min.y < p.y ∧ p.y ≤ b.max.y) ∧
    ∃ (t : rz_quadtree rz_line) (r : rz_quadtree_node rz_line),
      rz_quadtree.new [(⟨⟨0, 0⟩, ⟨1, 1⟩⟩ : rz_line), ⟨⟨0, 1⟩, ⟨1, 0⟩⟩] 10 12 = .ok t ∧
      t.root_ = some r ∧
      t.min_ = (get_min_max [(⟨⟨0, 0⟩, ⟨1, 1⟩⟩ : rz_line), ⟨⟨0, 1⟩, ⟨1, 0⟩⟩]).1 ∧
      (∀ n ∈ nodes r, intersect_2d_aabb_point n.cell ⟨0, 0⟩ = false) ∧
      get_objects_from_point t ⟨0, 0⟩ [] = .ok [] :=
  C8_lower_left_boundary_never_matches [(⟨⟨0, 0⟩, ⟨1, 1⟩⟩ : rz_line), ⟨⟨0, 1⟩, ⟨1, 0⟩⟩] 10 12
    ⟨0, 0⟩ (by
      left
      simp only [get_min_max, get_min_max_step, List.foldl, min_2d, max_2d, min_2d_line, max_2d_line, MAXF, MINF]
      norm_num)

/-! ## C9, C10: the empty list and a zero depth threshold -/

theorem rz_quadtree_new_nil (ot dt : Nat) :
    rz_quadtree.new ([] : List T) ot dt =
      .ok ⟨⟨MAXF, MAXF⟩, ⟨MINF, MINF⟩, 1999999998,
        some (bare [] true ⟨MAXF, MAXF⟩ 1999999998), ot, dt⟩ := by
  have hsz : root_size ⟨MAXF, MAXF⟩ ⟨MINF, MINF⟩ = 1999999998 := by
    simp only [root_size, MAXF, MINF]
    norm_num
  have hi : intersect_2d_aabb_aabb (cell_box ⟨MAXF, MAXF⟩ 1999999998)
      ⟨⟨MAXF, MAXF⟩, ⟨MINF, MINF⟩⟩ = true := by
    simp only [intersect_2d_aabb_aabb, cell_box, rz_aabb.op_eq, rz_point_2d.op_eq,
      rz_aabb.width, rz_aabb.height, EPS, MAXF, MINF]
    norm_num
  have hB : BuildsTo (⟨MAXF, MAXF⟩ : rz_point_2d) ⟨MINF, MINF⟩ ot dt ([] : List T)
      ⟨MAXF, MAXF⟩ 1999999998 0 (bare [] true ⟨MAXF, MAXF⟩ 1999999998) :=
    BuildsTo.stop hi (Or.inl (Nat.zero_le _))
  exact rz_quadtree_new_eq_of_builds [] ot dt _ _ _ _ rfl hsz hB

/-- C9, as stated, fails: constructing a tree of segments from the empty list with the
default thresholds is not rejected; the constructor returns a tree and raises no error. -/
theorem C9_counterexample :
    (∃ t : rz_quadtree rz_line, rz_quadtree.new_default ([] : List rz_line) = .ok t) ∧
    ∀ e : String, rz_quadtree.new_default ([] : List rz_line) ≠ .error e := by
  have h : rz_quadtree.new_default ([] : List rz_line) = _ := rz_quadtree_new_nil 10 12
  refine ⟨⟨_, h⟩, fun e he => ?_⟩
  rw [h] at he
  cases he

/-- C9 (amended): constructing an `rz_quadtree` from an empty object list is not rejected:
for every pair of thresholds the constructor returns a tree whose bounds are the sentinels
min = (MAXF, MAXF), max = (MINF, MINF), whose root edge length is 1999999998, and whose
root is a leaf without children that stores no objects. -/
theorem C9_empty_list_builds_sentinel_tree (ot dt : Nat) :
    rz_quadtree.new ([] : List T) ot dt =
      .ok ⟨⟨MAXF, MAXF⟩, ⟨MINF, MINF⟩, 1999999998,
        some (bare [] true ⟨MAXF, MAXF⟩ 1999999998), ot, dt⟩ :=
  rz_quadtree_new_nil ot dt

/-- C10: for every object list and every `objects_threshold`, the constructor called with
`depth_threshold = 0` returns a tree whose root is a leaf (`is_leaf` is true) and has no
children. -/
theorem C10_depth_threshold_zero_single_leaf (L : List T) (ot : Nat) :
    ∃ (t : rz_quadtree T) (r : rz_quadtree_node T),
      rz_quadtree.new L ot 0 = .ok t ∧ t.root_ = some r ∧ r.is_leaf = true ∧
      r.child_a = none ∧ r.child_b = none ∧ r.child_c = none ∧ r.child_d = none := by
  obtain ⟨r, hnew, hB⟩ := rz_quadtree_new_builds L ot 0
  refine ⟨_, r, hnew, rfl, ?_⟩
  cases hB with
  | outside _ => exact ⟨rfl, rfl, rfl, rfl, rfl⟩
  | stop _ _ => exact ⟨rfl, rfl, rfl, rfl, rfl⟩
  | split _ _ h _ _ _ _ => omega

/-! ## C5: the data box -/

theorem minFold_cons {r acc : ℚ} {f : T → ℚ} {L : List T} (o : T)
    (h : MinFold r (if f o < acc then f o else acc) f L) : MinFold r acc f (o :: L) := by
  obtain ⟨h1, h2, h3⟩ := h
  split_ifs at h1 h3 with hc
  · refine ⟨by linarith, ?_, ?_⟩
    · intro o' ho'
      rcases List.mem_cons.1 ho' with rfl | ho'
      · exact h1
      · exact h2 o' ho'
    · rcases h3 with h3 | ⟨o', ho', h3⟩
      · exact Or.inr ⟨o, List.mem_cons_self _ _, h3.symm⟩
      · exact Or.inr ⟨o', List.mem_cons_of_mem _ ho', h3⟩
  · refine ⟨h1, ?_, ?_⟩
    · intro o' ho'
      rcases List.mem_cons.1 ho' with rfl | ho'
      · linarith [not_lt.1 hc]
      · exact h2 o' ho'
    · rcases h3 with h3 | ⟨o', ho', h3⟩
      · exact Or.inl h3
      · exact Or.inr ⟨o', List.mem_cons_of_mem _ ho', h3⟩

theorem maxFold_cons {r acc : ℚ} {f : T → ℚ} {L : List T} (o : T)
    (h : MaxFold r (if f o > acc then f o else acc) f L) : MaxFold r acc f (o :: L) := by
  obtain ⟨h1, h2, h3⟩ := h
  split_ifs at h1 h3 with hc
  · refine ⟨by linarith, ?_, ?_⟩
    · intro o' ho'
      rcases List.mem_cons.1 ho' with rfl | ho'
      · exact h1
      · exact h2 o' ho'
    · rcases h3 with h3 | ⟨o', ho', h3⟩
      · exact Or.inr ⟨o, List.mem_cons_self _ _, h3.symm⟩
      · exact Or.inr ⟨o', List.mem_cons_of_mem _ ho', h3⟩
  · refine ⟨h1, ?_, ?_⟩
    · intro o' ho'
      rcases List.mem_cons.1 ho' with rfl | ho'
      · linarith [not_lt.1 hc]
      · exact h2 o' ho'
    · rcases h3 with h3 | ⟨o', ho', h3⟩
      · exact Or.inl h3
      · exact Or.inr ⟨o', List.mem_cons_of_mem _ ho', h3⟩

theorem get_min_max_fold (L : List T) : ∀ acc : rz_point_2d × rz_point_2d,
    MinFold (L.foldl get_min_max_step acc).1.x acc.1.x (fun o => (min_2d o).x) L ∧
    MinFold (L.foldl get_min_max_step acc).1.y acc.1.y (fun o => (min_2d o).y) L ∧
    MaxFold (L.foldl get_min_max_step acc).2.x acc.2.x (fun o => (max_2d o).x) L ∧
    MaxFold (L.foldl get_min_max_step acc).2.y acc.2.y (fun o => (max_2d o).y) L := by
  induction L with
  | nil =>
    intro acc
    simp [MinFold, MaxFold]
  | cons o L ih =>
    intro acc
    obtain ⟨h1, h2, h3, h4⟩ := ih (get_min_max_step acc o)
    rw [List.foldl_cons]
    exact ⟨minFold_cons o h1, minFold_cons o h2, maxFold_cons o h3, maxFold_cons o h4⟩

/-- For all coordinate values the box of `get_min_max` encloses every object's own
bounding box. -/
theorem get_min_max_encloses (L : List T) : ∀ o ∈ L,
    (get_min_max L).1.x ≤ (min_2d o).x ∧ (get_min_max L).1.y ≤ (min_2d o).y ∧
    (max_2d o).x ≤ (get_min_max L).2.x ∧ (max_2d o).y ≤ (get_min_max L).2.y := by
  intro o ho
  obtain ⟨h1, h2, h3, h4⟩ := get_min_max_fold L (⟨MAXF, MAXF⟩, ⟨MINF, MINF⟩)
  exact ⟨h1.2.1 o ho, h2.2.1 o ho, h3.2.1 o ho, h4.2.1 o ho⟩

/-- C5, as stated, fails: for the single segment (2000000000,0)-(2000000001,1) the value
`min_.x` computed by `get_min_max` is the sentinel MAXF = 999999999, which is not the
minimum of `min_2d(o).x` over the objects (that minimum is 2000000000). -/
theorem C5_counterexample :
    ¬ is_least_of (get_min_max [(⟨⟨2000000000, 0⟩, ⟨2000000001, 1⟩⟩ : rz_line)]).1.x
      (fun o => (min_2d o).x) [(⟨⟨2000000000, 0⟩, ⟨2000000001, 1⟩⟩ : rz_line)] := by
  rintro ⟨_, o, ho, h⟩
  rw [List.mem_singleton] at ho
  subst ho
  simp only [get_min_max, get_min_max_step, List.foldl, min_2d, max_2d, min_2d_line,
    max_2d_line, MAXF, MINF] at h
  norm_num at h

/-- C5 (amended): for every non-empty object list and all coordinate values the data box
of `get_min_max` encloses every object's own bounding box; and when no object's `min_2d`
coordinate exceeds MAXF = 999999999 and no object's `max_2d` coordinate is below
MINF = -999999999, `min_.x`, `min_.y` equal the minimum of `min_2d(o).x`, `min_2d(o).y`
over the objects and `max_.x`, `max_.y` equal the maximum of `max_2d(o).x`, `max_2d(o).y`,
with no padding. -/
theorem C5_data_box_is_componentwise_min_max (L : List T) (hne : L ≠ []) :
    (∀ o ∈ L, (get_min_max L).1.x ≤ (min_2d o).x ∧ (get_min_max L).1.y ≤ (min_2d o).y ∧
      (max_2d o).x ≤ (get_min_max L).2.x ∧ (max_2d o).y ≤ (get_min_max L).2.y) ∧
    ((∀ o ∈ L, (min_2d o).x ≤ MAXF ∧ (min_2d o).y ≤ MAXF ∧
        MINF ≤ (max_2d o).x ∧ MINF ≤ (max_2d o).y) →
      is_least_of (get_min_max L).1.x (fun o => (min_2d o).x) L ∧
      is_least_of (get_min_max L).1.y (fun o => (min_2d o).y) L ∧
      is_greatest_of (get_min_max L).2.x (fun o => (max_2d o).x) L ∧
      is_greatest_of (get_min_max L).2.y (fun o => (max_2d o).y) L) := by
  refine ⟨get_min_max_encloses L, fun hr => ?_⟩
  obtain ⟨o0, ho0⟩ := List.exists_mem_of_ne_nil L hne
  obtain ⟨h1, h2, h3, h4⟩ := get_min_max_fold L (⟨MAXF, MAXF⟩, ⟨MINF, MINF⟩)
  obtain ⟨r1, r2, r3, r4⟩ := hr o0 ho0
  refine ⟨⟨h1.2.1, ?_⟩, ⟨h2.2.1, ?_⟩, ⟨h3.2.1, ?_⟩, ⟨h4.2.1, ?_⟩⟩
  · rcases h1.2.2 with h | h
    · exact ⟨o0, ho0, le_antisymm (by rw [get_min_max, h]; exact r1) (h1.2.1 o0 ho0)⟩
    · exact h
  · rcases h2.2.2 with h | h
    · exact ⟨o0, ho0, le_antisymm (by rw [get_min_max, h]; exact r2) (h2.2.1 o0 ho0)⟩
    · exact h
  · rcases h3.2.2 with h | h
    · exact ⟨o0, ho0, le_antisymm (h3.2.1 o0 ho0) (by rw [get_min_max, h]; exact r3)⟩
    · exact h
  · rcases h4.2.2 with h | h
    · exact ⟨o0, ho0, le_antisymm (h4.2.1 o0 ho0) (by rw [get_min_max, h]; exact r4)⟩
    · exact h

/-- C5 (amended) at a concrete input: the two segments (0,0)-(1,1) and (0,1)-(1,0). -/
theorem C5_data_box_is_componentwise_min_max_witness :
    is_least_of (get_min_max [(⟨⟨0, 0⟩, ⟨1, 1⟩⟩ : rz_line), ⟨⟨0, 1⟩, ⟨1, 0⟩⟩]).1.x
      (fun o => (min_2d o).x) [(⟨⟨0, 0⟩, ⟨1, 1⟩⟩ : rz_line), ⟨⟨0, 1⟩, ⟨1, 0⟩⟩] ∧
    is_least_of (get_min_max [(⟨⟨0, 0⟩, ⟨1, 1⟩⟩ : rz_line), ⟨⟨0, 1⟩, ⟨1, 0⟩⟩]).1.y
      (fun o => (min_2d o).y) [(⟨⟨0, 0⟩, ⟨1, 1⟩⟩ : rz_line), ⟨⟨0, 1⟩, ⟨1, 0⟩⟩] ∧
    is_greatest_of (get_min_max [(⟨⟨0, 0⟩, ⟨1, 1⟩⟩ : rz_line), ⟨⟨0, 1⟩, ⟨1, 0⟩⟩]).2.x
      (fun o => (max_2d o).x) [(⟨⟨0, 0⟩, ⟨1, 1⟩⟩ : rz_line), ⟨⟨0, 1⟩, ⟨1, 0⟩⟩] ∧
    is_greatest_of (get_min_max [(⟨⟨0, 0⟩, ⟨1, 1⟩⟩ : rz_line), ⟨⟨0, 1⟩, ⟨1, 0⟩⟩]).2.y
      (fun o => (max_2d o).y) [(⟨⟨0, 0⟩, ⟨1, 1⟩⟩ : rz_line), ⟨⟨0, 1⟩, ⟨1, 0⟩⟩] :=
  (C5_data_box_is_componentwise_min_max
    [(⟨⟨0, 0⟩, ⟨1, 1⟩⟩ : rz_line), ⟨⟨0, 1⟩, ⟨1, 0⟩⟩] (by simp)).2 (by
      intro o ho
      simp only [List.mem_cons, List.mem_singleton, List.not_mem_nil, or_false] at ho
      rcases ho with rfl | rfl <;>
      · simp only [min_2d, max_2d, min_2d_line, max_2d_line, MAXF, MINF]
        norm_num)

/-! ## C3: what a leaf stores -/

theorem paths_head (n : rz_quadtree_node T) : ∀ p ∈ paths n, ∃ rest, p = n :: rest := by
  cases n with
  | bare l f o s =>
    intro p hp
    simp only [paths, List.mem_singleton] at hp
    exact ⟨[], hp⟩
  | branch l f o s a b c d =>
    intro p hp
    simp only [paths, List.mem_cons, List.mem_map] at hp
    rcases hp with hp | ⟨q, _, hq⟩
    · exact ⟨[], hp⟩
    · exact ⟨q, hq.symm⟩

theorem map_copy_id (hcopy : ∀ o : T, copy o = o) (L : List T) : L.map copy = L := by
  induction L with
  | nil => rfl
  | cons o L ih => rw [List.map_cons, ih, hcopy]

theorem leaf_lists_of_builds (hcopy : ∀ o : T, copy o = o) {min_ max_ : rz_point_2d}
    {ot dt : Nat} {L : List T} {o : rz_point_2d} {s : ℚ} {d : Nat} {r : rz_quadtree_node T}
    (h : BuildsTo min_ max_ ot dt L o s d r) :
    ∀ p ∈ paths r, ∀ leaf, p.getLast? = some leaf → leaf.is_leaf = true →
      leaf.objects_list =
        if intersect_2d_aabb_aabb leaf.cell ⟨min_, max_⟩ then
          L.filter (fun x => p.tail.all (fun n => intersect_2d n.cell x))
        else [] := by
  induction h with
  | @outside L o s d h1 =>
    intro p hp leaf hl _
    simp only [paths, List.mem_singleton] at hp
    subst hp
    simp only [List.getLast?_singleton, Option.some.injEq] at hl
    subst hl
    rw [cell_bare, h1]
    rfl
  | @stop L o s d h1 _ =>
    intro p hp leaf hl _
    simp only [paths, List.mem_singleton] at hp
    subst hp
    simp only [List.getLast?_singleton, Option.some.injEq] at hl
    subst hl
    rw [cell_bare, h1]
    simp [objects_list, map_copy_id hcopy]
  | @split L o s d a b c e h1 _ _ hA hB hC hE ihA ihB ihC ihE =>
    intro p hp leaf hl hleaf
    simp only [paths, List.mem_cons, List.mem_map, List.mem_append] at hp
    have key : ∀ (ch : rz_quadtree_node T) (oc : rz_point_2d),
        ch.get_dimentions = (oc, s / 2) →
        (∀ q ∈ paths ch, ∀ leaf, q.getLast? = some leaf → leaf.is_leaf = true →
          leaf.objects_list =
            if intersect_2d_aabb_aabb leaf.cell ⟨min_, max_⟩ then
              (intersect_objects_with_cell L oc (s / 2)).filter
                (fun x => q.tail.all (fun n => intersect_2d n.cell x))
            else []) →
        ∀ q ∈ paths ch, branch (L.map copy) false o s a b c e :: q = p →
          leaf.objects_list =
            if intersect_2d_aabb_aabb leaf.cell ⟨min_, max_⟩ then
              L.filter (fun x => p.tail.all (fun n => intersect_2d n.cell x))
            else [] := by
      intro ch oc hdim ih q hq hqp
      obtain ⟨rest, hrest⟩ := paths_head ch q hq
      subst hqp
      subst hrest
      rw [List.getLast?_cons_cons] at hl
      rw [ih _ hq leaf hl hleaf]
      simp only [List.tail_cons, List.all_cons, intersect_objects_with_cell,
        map_copy_id hcopy, List.filter_filter, cell_of_dims hdim, cell_box]
      congr 2
      funext x
      rw [Bool.and_comm]
    rcases hp with hp | ⟨q, hq, hqp⟩
    · subst hp
      simp only [List.getLast?_singleton, Option.some.injEq] at hl
      subst hl
      simp [is_leaf] at hleaf
    · rcases hq with ((hq | hq) | hq) | hq
      · exact key a _ hA.dims ihA q hq hqp
      · exact key b _ hB.dims ihB q hq hqp
      · exact key c _ hC.dims ihC q hq hqp
      · exact key e _ hE.dims ihE q hq hqp

/-- The subdivision rule of `BuildsTo` with the child origins, the child edge length and
the child lists given by equations, for evaluating concrete trees. -/
theorem BuildsTo.split_of_eq {min_ max_ : rz_point_2d} {ot dt : Nat} {L : List T}
    {o : rz_point_2d} {s : ℚ} {d : Nat} {a b c e : rz_quadtree_node T}
    {oa ob oc oe : rz_point_2d} {h : ℚ} {La Lb Lc Le : List T} {Lr : List T}
    (h1 : intersect_2d_aabb_aabb (cell_box o s) ⟨min_, max_⟩ = true)
    (h2 : ot < L.length) (h3 : d < dt) (hh : s / 2 = h)
    (hoa : (⟨o.x, o.y + s / 2⟩ : rz_point_2d) = oa)
    (hob : (⟨o.x + s / 2, o.y + s / 2⟩ : rz_point_2d) = ob)
    (hoc : (⟨o.x, o.y⟩ : rz_point_2d) = oc)
    (hoe : (⟨o.x + s / 2, o.y⟩ : rz_point_2d) = oe)
    (hLa : intersect_objects_with_cell L oa h = La)
    (hLb : intersect_objects_with_cell L ob h = Lb)
    (hLc : intersect_objects_with_cell L oc h = Lc)
    (hLe : intersect_objects_with_cell L oe h = Le)
    (hLr : L.map copy = Lr)
    (hA : BuildsTo min_ max_ ot dt La oa h (d + 1) a)
    (hB : BuildsTo min_ max_ ot dt Lb ob h (d + 1) b)
    (hC : BuildsTo min_ max_ ot dt Lc oc h (d + 1) c)
    (hE : BuildsTo min_ max_ ot dt Le oe h (d + 1) e) :
    BuildsTo min_ max_ ot dt L o s d (branch Lr false o s a b c e) := by
  subst hh hoa hob hoc hoe hLa hLb hLc hLe hLr
  exact BuildsTo.split h1 h2 h3 hA hB hC hE

/-- The leaf rule of `BuildsTo` with the stored list given by an equation. -/
theorem BuildsTo.stop_of_eq {min_ max_ : rz_point_2d} {ot dt : Nat} {L : List T}
    {o : rz_point_2d} {s : ℚ} {d : Nat} {Lr : List T}
    (h1 : intersect_2d_aabb_aabb (cell_box o s) ⟨min_, max_⟩ = true)
    (h2 : L.length ≤ ot ∨ dt ≤ d) (hLr : L.map copy = Lr) :
    BuildsTo min_ max_ ot dt L o s d (bare Lr true o s) := by
  subst hLr
  exact BuildsTo.stop h1 h2

/-- The tree built with thresholds (1, 1) from the segments (1,4)-(4,1) and (0,0)-(1,1): a
root with four leaves; the leaves A, B and D store the first segment, the leaf C the
second. -/
theorem two_segments_tree :
    rz_quadtree.new [(⟨⟨1, 4⟩, ⟨4, 1⟩⟩ : rz_line), ⟨⟨0, 0⟩, ⟨1, 1⟩⟩] 1 1 =
      .ok ⟨⟨0, 0⟩, ⟨4, 4⟩, 4,
        some (branch [⟨⟨1, 4⟩, ⟨4, 1⟩⟩, ⟨⟨0, 0⟩, ⟨1, 1⟩⟩] false ⟨0, 0⟩ 4
          (bare [⟨⟨1, 4⟩, ⟨4, 1⟩⟩] true ⟨0, 2⟩ 2)
          (bare [⟨⟨1, 4⟩, ⟨4, 1⟩⟩] true ⟨2, 2⟩ 2)
          (bare [⟨⟨0, 0⟩, ⟨1, 1⟩⟩] true ⟨0, 0⟩ 2)
          (bare [⟨⟨1, 4⟩, ⟨4, 1⟩⟩] true ⟨2, 0⟩ 2)), 1, 1⟩ := by
  have hmm : get_min_max [(⟨⟨1, 4⟩, ⟨4, 1⟩⟩ : rz_line), ⟨⟨0, 0⟩, ⟨1, 1⟩⟩] =
      (⟨0, 0⟩, ⟨4, 4⟩) := by
    simp only [get_min_max, get_min_max_step, List.foldl, min_2d, max_2d, min_2d_line,
      max_2d_line, MAXF, MINF]
    norm_num
  have hsz : root_size ⟨0, 0⟩ ⟨4, 4⟩ = 4 := by
    simp only [root_size]
    norm_num
  have hB : BuildsTo (⟨0, 0⟩ : rz_point_2d) ⟨4, 4⟩ 1 1
      [(⟨⟨1, 4⟩, ⟨4, 1⟩⟩ : rz_line), ⟨⟨0, 0⟩, ⟨1, 1⟩⟩] ⟨0, 0⟩ 4 0
      (branch [⟨⟨1, 4⟩, ⟨4, 1⟩⟩, ⟨⟨0, 0⟩, ⟨1, 1⟩⟩] false ⟨0, 0⟩ 4
        (bare [⟨⟨1, 4⟩, ⟨4, 1⟩⟩] true ⟨0, 2⟩ 2)
        (bare [⟨⟨1, 4⟩, ⟨4, 1⟩⟩] true ⟨2, 2⟩ 2)
        (bare [⟨⟨0, 0⟩, ⟨1, 1⟩⟩] true ⟨0, 0⟩ 2)
        (bare [⟨⟨1, 4⟩, ⟨4, 1⟩⟩] true ⟨2, 0⟩ 2)) := by
    refine @BuildsTo.split_of_eq rz_line _ _ _ _ _ _ _ _ _ _ _ _ _ ⟨0, 2⟩ ⟨2, 2⟩ ⟨0, 0⟩ ⟨2, 0⟩ 2
      [⟨⟨1, 4⟩, ⟨4, 1⟩⟩] [⟨⟨1, 4⟩, ⟨4, 1⟩⟩] [⟨⟨0, 0⟩, ⟨1, 1⟩⟩] [⟨⟨1, 4⟩, ⟨4, 1⟩⟩] _ ?_ (by simp) (by simp) (by norm_num) ?_ ?_ ?_ ?_ ?_ ?_ ?_ ?_ rfl
      (BuildsTo.stop_of_eq ?_ (Or.inl (by simp)) rfl)
      (BuildsTo.stop_of_eq ?_ (Or.inl (by simp)) rfl)
      (BuildsTo.stop_of_eq ?_ (Or.inl (by simp)) rfl)
      (BuildsTo.stop_of_eq ?_ (Or.inl (by simp)) rfl)
    · simp only [intersect_2d_aabb_aabb, cell_box, rz_aabb.op_eq, rz_point_2d.op_eq,
        rz_aabb.width, rz_aabb.height, EPS]
      norm_num
    · simp only [rz_point_2d.mk.injEq]; norm_num
    · simp only [rz_point_2d.mk.injEq]; norm_num
    · rfl
    · simp only [rz_point_2d.mk.injEq]; norm_num
    · simp only [intersect_objects_with_cell, List.filter, intersect_2d,
        intersect_2d_aabb_line, aabb_edges, List.any, intersect_2d_line_line, EPS,
        List.map, copy, rz_line.copy]
      norm_num
      rfl
    · simp only [intersect_objects_with_cell, List.filter, intersect_2d,
        intersect_2d_aabb_line, aabb_edges, List.any, intersect_2d_line_line, EPS,
        List.map, copy, rz_line.copy]
      norm_num
      rfl
    · simp only [intersect_objects_with_cell, List.filter, intersect_2d,
        intersect_2d_aabb_line, aabb_edges, List.any, intersect_2d_line_line, EPS,
        List.map, copy, rz_line.copy]
      norm_num
      rfl
    · simp only [intersect_objects_with_cell, List.filter, intersect_2d,
        intersect_2d_aabb_line, aabb_edges, List.any, intersect_2d_line_line, EPS,
        List.map, copy, rz_line.copy]
      norm_num
      rfl
    · simp only [intersect_2d_aabb_aabb, cell_box, rz_aabb.op_eq, rz_point_2d.op_eq,
        rz_aabb.width, rz_aabb.height, EPS]
      norm_num
    · simp only [intersect_2d_aabb_aabb, cell_box, rz_aabb.op_eq, rz_point_2d.op_eq,
        rz_aabb.width, rz_aabb.height, EPS]
      norm_num
    · simp only [intersect_2d_aabb_aabb, cell_box, rz_aabb.op_eq, rz_point_2d.op_eq,
        rz_aabb.width, rz_aabb.height, EPS]
      norm_num
    · simp only [intersect_2d_aabb_aabb, cell_box, rz_aabb.op_eq, rz_point_2d.op_eq,
        rz_aabb.width, rz_aabb.height, EPS]
      norm_num
  exact rz_quadtree_new_eq_of_builds _ 1 1 _ _ _ _ hmm hsz hB

/-- C3, as stated, fails: in the tree built with thresholds (1, 1) from the segments
(1,4)-(4,1) and (0,0)-(1,1), the child C of the root is a leaf with cell [0,2]x[0,2]; the
bounding box [1,4]x[1,4] of the first segment intersects that cell, yet the segment (which
stays on x + y = 5) is not in the leaf's list. -/
theorem C3_counterexample :
    ∃ (t : rz_quadtree rz_line) (r leaf : rz_quadtree_node rz_line),
      rz_quadtree.new [(⟨⟨1, 4⟩, ⟨4, 1⟩⟩ : rz_line), ⟨⟨0, 0⟩, ⟨1, 1⟩⟩] 1 1 = .ok t ∧
      t.root_ = some r ∧ leaf ∈ leaves r ∧
      intersect_2d_aabb_aabb leaf.cell
        ⟨min_2d (⟨⟨1, 4⟩, ⟨4, 1⟩⟩ : rz_line), max_2d (⟨⟨1, 4⟩, ⟨4, 1⟩⟩ : rz_line)⟩ = true ∧
      (⟨⟨1, 4⟩, ⟨4, 1⟩⟩ : rz_line) ∉ leaf.objects_list := by
  refine ⟨_, _, bare [⟨⟨0, 0⟩, ⟨1, 1⟩⟩] true ⟨0, 0⟩ 2, two_segments_tree, rfl, ?_, ?_, ?_⟩
  · simp [leaves, nodes, is_leaf]
  · simp only [intersect_2d_aabb_aabb, cell, get_dimentions, rz_aabb.op_eq, rz_point_2d.op_eq,
      rz_aabb.width, rz_aabb.height, EPS, min_2d, max_2d, min_2d_line, max_2d_line]
    norm_num
  · simp [objects_list]

/-! ## C2: segments that share a point with the query box -/

/-- Two segments with a common point pass `intersect_2d(line, line)`: with the common point
at parameters `s` on `a` and `u` on `b`, `numera = s * denom` and `numerb = u * denom`. -/
theorem intersect_2d_line_line_of_common_point (a b : rz_line) (s u : ℚ)
    (hs0 : 0 ≤ s) (hs1 : s ≤ 1) (hu0 : 0 ≤ u) (hu1 : u ≤ 1)
    (hx : a.begin.x + s * (a.end_.x - a.begin.x) = b.begin.x + u * (b.end_.x - b.begin.x))
    (hy : a.begin.y + s * (a.end_.y - a.begin.y) = b.begin.y + u * (b.end_.y - b.begin.y)) :
    intersect_2d_line_line a b = true := by
  have hna : (b.end_.x - b.begin.x) * (a.begin.y - b.begin.y) -
      (b.end_.y - b.begin.y) * (a.begin.x - b.begin.x) =
      s * ((b.end_.y - b.begin.y) * (a.end_.x - a.begin.x) -
        (b.end_.x - b.begin.x) * (a.end_.y - a.begin.y)) := by
    linear_combination (b.end_.x - b.begin.x) * hy - (b.end_.y - b.begin.y) * hx
  have hnb : (a.end_.x - a.begin.x) * (a.begin.y - b.begin.y) -
      (a.end_.y - a.begin.y) * (a.begin.x - b.begin.x) =
      u * ((b.end_.y - b.begin.y) * (a.end_.x - a.begin.x) -
        (b.end_.x - b.begin.x) * (a.end_.y - a.begin.y)) := by
    linear_combination (a.end_.x - a.begin.x) * hy - (a.end_.y - a.begin.y) * hx
  unfold intersect_2d_line_line
  simp only
  rw [hna, hnb]
  generalize (b.end_.y - b.begin.y) * (a.end_.x - a.begin.x) -
    (b.end_.x - b.begin.x) * (a.end_.y - a.begin.y) = denom
  have hEPS : (0 : ℚ) < EPS := by unfold EPS; norm_num
  by_cases hd : |denom| < EPS
  · have h1 : |s * denom| < EPS := by
      rw [abs_mul, abs_of_nonneg hs0]
      have := mul_le_of_le_one_left (abs_nonneg denom) hs1
      linarith
    have h2 : |u * denom| < EPS := by
      rw [abs_mul, abs_of_nonneg hu0]
      have := mul_le_of_le_one_left (abs_nonneg denom) hu1
      linarith
    simp [h1, h2, hd]
  · have hne : denom ≠ 0 := by
      intro h0
      apply hd
      rw [h0, abs_zero]
      exact hEPS
    have e1 : s * denom / denom = s := by field_simp
    have e2 : u * denom / denom = u := by field_simp
    rw [e1, e2]
    simp [hd, not_lt.2 hs0, not_lt.2 hs1, not_lt.2 hu0, not_lt.2 hu1]

/-- Moving from a point where finitely many affine constraints are strict towards another
point, there is a last parameter up to which all constraints hold; there either the target
is reached or some constraint is tight. A constraint is the pair of its values at the two
points. -/
theorem exit_param (cs : List (ℚ × ℚ)) (h0 : ∀ c ∈ cs, 0 < c.1) :
    ∃ τ : ℚ, 0 < τ ∧ τ ≤ 1 ∧ (∀ c ∈ cs, 0 ≤ c.1 + τ * (c.2 - c.1)) ∧
      (τ = 1 ∨ ∃ c ∈ cs, c.1 + τ * (c.2 - c.1) = 0) := by
  induction cs with
  | nil => exact ⟨1, by norm_num, le_refl _, by simp, Or.inl rfl⟩
  | cons c cs ih =>
    obtain ⟨τ, hτ0, hτ1, hall, hex⟩ := ih (fun c' hc' => h0 c' (List.mem_cons_of_mem _ hc'))
    have hc0 : 0 < c.1 := h0 c (List.mem_cons_self _ _)
    by_cases hc : 0 ≤ c.1 + τ * (c.2 - c.1)
    · refine ⟨τ, hτ0, hτ1, ?_, ?_⟩
      · intro c' hc'
        rcases List.mem_cons.1 hc' with rfl | hc'
        · exact hc
        · exact hall c' hc'
      · rcases hex with h | ⟨c', hc', h⟩
        · exact Or.inl h
        · exact Or.inr ⟨c', List.mem_cons_of_mem _ hc', h⟩
    · have hc' : c.1 + τ * (c.2 - c.1) < 0 := not_le.1 hc
      have hdpos : 0 < c.1 - c.2 := by
        by_contra hcon
        have h1 : 0 ≤ c.2 - c.1 := by linarith
        have := mul_nonneg (le_of_lt hτ0) h1
        linarith
      have hσ0 : 0 < c.1 / (c.1 - c.2) := div_pos hc0 hdpos
      have hσval : c.1 + c.1 / (c.1 - c.2) * (c.2 - c.1) = 0 := by
        field_simp
        ring
      have hσlt : c.1 / (c.1 - c.2) < τ := by
        rw [div_lt_iff₀ hdpos]
        nlinarith
      refine ⟨c.1 / (c.1 - c.2), hσ0, by linarith, ?_, ?_⟩
      · intro c' hc'
        rcases List.mem_cons.1 hc' with rfl | hc'
        · exact le_of_eq hσval.symm
        · have hv := hall c' hc'
          have hp := h0 c' (List.mem_cons_of_mem _ hc')
          have key : 0 ≤ τ * (c'.1 + c.1 / (c.1 - c.2) * (c'.2 - c'.1)) := by
            have e : τ * (c'.1 + c.1 / (c.1 - c.2) * (c'.2 - c'.1)) =
                (τ - c.1 / (c.1 - c.2)) * c'.1 +
                  c.1 / (c.1 - c.2) * (c'.1 + τ * (c'.2 - c'.1)) := by ring
            rw [e]
            have t1 : 0 ≤ (τ - c.1 / (c.1 - c.2)) * c'.1 :=
              mul_nonneg (by linarith) (le_of_lt hp)
            have t2 : 0 ≤ c.1 / (c.1 - c.2) * (c'.1 + τ * (c'.2 - c'.1)) :=
              mul_nonneg (le_of_lt hσ0) hv
            linarith
          exact nonneg_of_mul_nonneg_right key hτ0
      · exact Or.inr ⟨c, List.mem_cons_self _ _, hσval⟩

theorem exists_param (lo hi v : ℚ) (h1 : lo ≤ v) (h2 : v ≤ hi) :
    ∃ u : ℚ, 0 ≤ u ∧ u ≤ 1 ∧ lo + u * (hi - lo) = v := by
  by_cases h : lo = hi
  · exact ⟨0, le_refl _, by norm_num, by linarith⟩
  · have hpos : 0 < hi - lo := lt_of_le_of_ne (by linarith) (fun e => h (by linarith))
    refine ⟨(v - lo) / (hi - lo), div_nonneg (by linarith) (le_of_lt hpos), ?_, ?_⟩
    · rw [div_le_one hpos]; linarith
    · field_simp

/-- A segment through a point of the boundary of a box passes the edge loop of
`intersect_2d(aabb, line)`. -/
theorem edge_hit_of_boundary_point (c : rz_aabb) (l : rz_line) (r : rz_point_2d)
    (hr : on_segment l r) (hb : in_box c r)
    (hbd : r.x = c.min.x ∨ r.x = c.max.x ∨ r.y = c.min.y ∨ r.y = c.max.y) :
    (aabb_edges c).any (fun aabb_line => intersect_2d_line_line l aabb_line) = true := by
  obtain ⟨t, ht0, ht1, hx, hy⟩ := hr
  obtain ⟨b1, b2, b3, b4⟩ := hb
  rw [List.any_eq_true]
  rcases hbd with h | h | h | h
  · -- on the edge from (min.x, min.y) to (min.x, max.y)
    obtain ⟨u, hu0, hu1, hu⟩ := exists_param c.min.y c.max.y r.y b3 b4
    refine ⟨⟨c.min, ⟨c.min.x, c.max.y⟩⟩, by simp [aabb_edges], ?_⟩
    apply intersect_2d_line_line_of_common_point l _ t u ht0 ht1 hu0 hu1
    · simp only; linarith
    · simp only; linarith
  · -- on the edge from (max.x, max.y) to (max.x, min.y)
    obtain ⟨u, hu0, hu1, hu⟩ := exists_param c.min.y c.max.y r.y b3 b4
    refine ⟨⟨c.max, ⟨c.max.x, c.min.y⟩⟩, by simp [aabb_edges], ?_⟩
    apply intersect_2d_line_line_of_common_point l _ t (1 - u) ht0 ht1 (by linarith)
      (by linarith)
    · simp only; linarith
    · simp only; linarith
  · -- on the edge from (max.x, min.y) to (min.x, min.y)
    obtain ⟨u, hu0, hu1, hu⟩ := exists_param c.min.x c.max.x r.x b1 b2
    refine ⟨⟨⟨c.max.x, c.min.y⟩, c.min⟩, by simp [aabb_edges], ?_⟩
    apply intersect_2d_line_line_of_common_point l _ t (1 - u) ht0 ht1 (by linarith)
      (by linarith)
    · simp only; linarith
    · simp only; linarith
  · -- on the edge from (min.x, max.y) to (max.x, max.y)
    obtain ⟨u, hu0, hu1, hu⟩ := exists_param c.min.x c.max.x r.x b1 b2
    refine ⟨⟨⟨c.min.x, c.max.y⟩, c.max⟩, by simp [aabb_edges], ?_⟩
    apply intersect_2d_line_line_of_common_point l _ t u ht0 ht1 hu0 hu1
    · simp only; linarith
    · simp only; linarith

/-- A segment that has a point in the closed box `c` passes `intersect_2d(aabb, line)`. -/
theorem intersect_2d_aabb_line_of_common_point (c : rz_aabb) (l : rz_line) (p : rz_point_2d)
    (hp : on_segment l p) (hb : in_box c p) : intersect_2d_aabb_line c l = true := by
  unfold intersect_2d_aabb_line
  by_cases hbegin : l.begin.x > c.min.x ∧ l.begin.x < c.max.x ∧
      l.begin.y > c.min.y ∧ l.begin.y < c.max.y
  · simp [hbegin]
  rw [if_neg hbegin]
  by_cases hend : l.end_.x > c.min.x ∧ l.end_.x < c.max.x ∧
      l.end_.y > c.min.y ∧ l.end_.y < c.max.y
  · simp [hend]
  rw [if_neg hend]
  obtain ⟨b1, b2, b3, b4⟩ := hb
  by_cases hstrict : c.min.x < p.x ∧ p.x < c.max.x ∧ c.min.y < p.y ∧ p.y < c.max.y
  · -- walk from `p` towards `begin` until the boundary of the box is met
    obtain ⟨s1, s2, s3, s4⟩ := hstrict
    obtain ⟨τ, hτ0, hτ1, hall, hex⟩ := exit_param
      [(p.x - c.min.x, l.begin.x - c.min.x), (c.max.x - p.x, c.max.x - l.begin.x),
        (p.y - c.min.y, l.begin.y - c.min.y), (c.max.y - p.y, c.max.y - l.begin.y)]
      (by
        intro q hq
        simp only [List.mem_cons, List.mem_singleton, List.not_mem_nil, or_false] at hq
        rcases hq with rfl | rfl | rfl | rfl <;> simp only <;> linarith)
    have a1 := hall _ (List.mem_cons_self _ _)
    have a2 := hall _ (List.mem_cons_of_mem _ (List.mem_cons_self _ _))
    have a3 := hall _ (List.mem_cons_of_mem _ (List.mem_cons_of_mem _ (List.mem_cons_self _ _)))
    have a4 := hall _ (List.mem_cons_of_mem _ (List.mem_cons_of_mem _
      (List.mem_cons_of_mem _ (List.mem_cons_self _ _))))
    simp only at a1 a2 a3 a4
    obtain ⟨t, ht0, ht1, hx, hy⟩ := hp
    apply edge_hit_of_boundary_point c l
      ⟨p.x + τ * (l.begin.x - p.x), p.y + τ * (l.begin.y - p.y)⟩
    · refine ⟨(1 - τ) * t, mul_nonneg (by linarith) ht0, ?_, ?_, ?_⟩
      · have := mul_le_one₀ (by linarith : 1 - τ ≤ 1) ht0 ht1
        linarith
      · simp only; rw [hx]; ring
      · simp only; rw [hy]; ring
    · exact ⟨by simp only; linarith, by simp only; linarith, by simp only; linarith,
        by simp only; linarith⟩
    · simp only
      rcases hex with h1 | ⟨q, hq, hq0⟩
      · subst h1
        have e1 : p.x + 1 * (l.begin.x - p.x) = l.begin.x := by ring
        have e2 : p.y + 1 * (l.begin.y - p.y) = l.begin.y := by ring
        rw [e1, e2]
        rw [e1, e2] at *
        by_contra hcon
        push_neg at hcon
        apply hbegin
        have e3 : p.x - c.min.x + 1 * (l.begin.x - c.min.x - (p.x - c.min.x)) =
            l.begin.x - c.min.x := by ring
        have e4 : c.max.x - p.x + 1 * (c.max.x - l.begin.x - (c.max.x - p.x)) =
            c.max.x - l.begin.x := by ring
        have e5 : p.y - c.min.y + 1 * (l.begin.y - c.min.y - (p.y - c.min.y)) =
            l.begin.y - c.min.y := by ring
        have e6 : c.max.y - p.y + 1 * (c.max.y - l.begin.y - (c.max.y - p.y)) =
            c.max.y - l.begin.y := by ring
        rw [e3] at a1
        rw [e4] at a2
        rw [e5] at a3
        rw [e6] at a4
        refine ⟨lt_of_le_of_ne (by linarith) (Ne.symm hcon.1),
          lt_of_le_of_ne (by linarith) hcon.2.1,
          lt_of_le_of_ne (by linarith) (Ne.symm hcon.2.2.1),
          lt_of_le_of_ne (by linarith) hcon.2.2.2⟩
      · simp only [List.mem_cons, List.mem_singleton, List.not_mem_nil, or_false] at hq
        rcases hq with rfl | rfl | rfl | rfl
        · left; simp only at hq0; linarith
        · right; left; simp only at hq0; linarith
        · right; right; left; simp only at hq0; linarith
        · right; right; right; simp only at hq0; linarith
  · -- `p` itself is on the boundary
    apply edge_hit_of_boundary_point c l p hp ⟨b1, b2, b3, b4⟩
    by_contra hcon
    push_neg at hcon
    exact hstrict ⟨lt_of_le_of_ne b1 (Ne.symm hcon.1), lt_of_le_of_ne b2 hcon.2.1,
      lt_of_le_of_ne b3 (Ne.symm hcon.2.2.1), lt_of_le_of_ne b4 hcon.2.2.2⟩

/-! ### The region query on a well-shaped tree -/

theorem aabb_query_branch (mn mx : rz_point_2d) (q : rz_aabb) (l : List T) (o : rz_point_2d)
    (s : ℚ) (a b c d : rz_quadtree_node T) (objs : List T)
    (hpre : intersect_2d_aabb_aabb ⟨mn, mx⟩ q = true)
    (hcell : intersect_2d_aabb_aabb (cell_box o s) q = true) :
    intersect_tree_with_aabb mn mx q objs (branch l false o s a b c d) =
      match aabb_step mn mx q a objs with
      | .error e => .error e
      | .ok objs1 =>
        match aabb_step mn mx q b objs1 with
        | .error e => .error e
        | .ok objs2 =>
          match aabb_step mn mx q c objs2 with
          | .error e => .error e
          | .ok objs3 => aabb_step mn mx q d objs3 := by
  rw [intersect_tree_with_aabb]
  simp only [hpre, cell_branch, hcell, aabb_step]
  simp

theorem aabb_query_total (mn mx : rz_point_2d) (q : rz_aabb) (r : rz_quadtree_node T)
    (hr : WellShaped r) :
    ∀ objs, ∃ ext, intersect_tree_with_aabb mn mx q objs r = .ok (objs ++ ext) := by
  induction hr with
  | leaf l o s hl hs =>
    intro objs
    rw [intersect_tree_with_aabb]
    by_cases h1 : intersect_2d_aabb_aabb ⟨mn, mx⟩ q = false
    · exact ⟨[], by simp [h1]⟩
    by_cases h2 : intersect_2d_aabb_aabb (bare l true o s).cell q = true
    · exact ⟨l.map copy, by simp [h1, h2]⟩
    · exact ⟨[], by simp [h1, h2]⟩
  | inner l o s a b c d hl hs ha hb hc hd wa wb wc wd iha ihb ihc ihd =>
    intro objs
    by_cases h1 : intersect_2d_aabb_aabb ⟨mn, mx⟩ q = false
    · exact ⟨[], by rw [intersect_tree_with_aabb]; simp [h1]⟩
    by_cases h2 : intersect_2d_aabb_aabb (cell_box o s) q = true
    · rw [aabb_query_branch mn mx q l o s a b c d objs (by simpa using h1) h2]
      have step : ∀ (ch : rz_quadtree_node T),
          (∀ objs, ∃ ext, intersect_tree_with_aabb mn mx q objs ch = .ok (objs ++ ext)) →
          ∀ objs, ∃ ext, aabb_step mn mx q ch objs = .ok (objs ++ ext) := by
        intro ch ih objs
        unfold aabb_step
        split
        · exact ih objs
        · exact ⟨[], by simp⟩
      obtain ⟨e1, he1⟩ := step a iha objs
      obtain ⟨e2, he2⟩ := step b ihb (objs ++ e1)
      obtain ⟨e3, he3⟩ := step c ihc (objs ++ e1 ++ e2)
      obtain ⟨e4, he4⟩ := step d ihd (objs ++ e1 ++ e2 ++ e3)
      refine ⟨e1 ++ e2 ++ e3 ++ e4, ?_⟩
      simp only [he1, he2, he3, he4]
      simp only [List.append_assoc]
    · exact ⟨[], by rw [intersect_tree_with_aabb]; simp [h1, cell_branch, h2]⟩

/-- The tree built with thresholds (10, 12) from the crossing segments (0,0)-(1,1) and
(0,1)-(1,0): data box [0,1]x[0,1], and a root leaf that stores both segments. -/
theorem crossing_segments_tree :
    rz_quadtree.new [(⟨⟨0, 0⟩, ⟨1, 1⟩⟩ : rz_line), ⟨⟨0, 1⟩, ⟨1, 0⟩⟩] 10 12 =
      .ok ⟨⟨0, 0⟩, ⟨1, 1⟩, 1,
        some (bare [⟨⟨0, 0⟩, ⟨1, 1⟩⟩, ⟨⟨0, 1⟩, ⟨1, 0⟩⟩] true ⟨0, 0⟩ 1), 10, 12⟩ := by
  have hmm : get_min_max [(⟨⟨0, 0⟩, ⟨1, 1⟩⟩ : rz_line), ⟨⟨0, 1⟩, ⟨1, 0⟩⟩] =
      (⟨0, 0⟩, ⟨1, 1⟩) := by
    simp only [get_min_max, get_min_max_step, List.foldl, min_2d, max_2d, min_2d_line,
      max_2d_line, MAXF, MINF]
    norm_num
  have hsz : root_size ⟨0, 0⟩ ⟨1, 1⟩ = 1 := by
    simp only [root_size]
    norm_num
  have hi : intersect_2d_aabb_aabb (cell_box ⟨0, 0⟩ 1) ⟨⟨0, 0⟩, ⟨1, 1⟩⟩ = true := by
    simp only [intersect_2d_aabb_aabb, cell_box, rz_aabb.op_eq, rz_point_2d.op_eq,
      rz_aabb.width, rz_aabb.height, EPS]
    norm_num
  exact rz_quadtree_new_eq_of_builds _ 10 12 _ _ _ _ hmm hsz
    (BuildsTo.stop_of_eq hi (Or.inl (by simp)) rfl)

/-- C12: for the tree built with the default thresholds from the two segments (0,0)-(1,1)
and (0,1)-(1,0), `get_objects_from_point((1/2,1/2))` returns both segments and
`get_objects_from_point((2,2))` returns the empty sequence (each started on an empty
vector). -/
theorem C12_crossing_segments_point_queries :
    ∃ t : rz_quadtree rz_line,
      rz_quadtree.new_default [(⟨⟨0, 0⟩, ⟨1, 1⟩⟩ : rz_line), ⟨⟨0, 1⟩, ⟨1, 0⟩⟩] = .ok t ∧
      get_objects_from_point t ⟨1 / 2, 1 / 2⟩ [] =
        .ok [⟨⟨0, 0⟩, ⟨1, 1⟩⟩, ⟨⟨0, 1⟩, ⟨1, 0⟩⟩] ∧
      get_objects_from_point t ⟨2, 2⟩ [] = .ok [] := by
  refine ⟨_, crossing_segments_tree, ?_, ?_⟩
  · simp only [get_objects_from_point, intersect_tree_with_point, intersect_2d_aabb_point,
      cell, get_dimentions, List.map, copy, rz_line.copy]
    norm_num
  · simp only [get_objects_from_point, intersect_tree_with_point, intersect_2d_aabb_point]
    norm_num

/-- C13, the code at the failing input: for the tree of `rz_aabb` objects built with the
default thresholds from the four unit squares tiling [0,2]x[0,2], the query
`get_objects_from_aabb([9/10,11/10]x[9/10,11/10])` returns four boxes whose `max` corner
equals their `min` corner (the copy constructor of `rz_aabb` initialises `max` from
`aabb.min`), so no input square is in the result. -/
theorem C13_four_squares_region_query_evaluation :
    ∃ (t : rz_quadtree rz_aabb) (res : List rz_aabb),
      rz_quadtree.new_default [(⟨⟨0, 0⟩, ⟨1, 1⟩⟩ : rz_aabb), ⟨⟨1, 0⟩, ⟨2, 1⟩⟩,
        ⟨⟨0, 1⟩, ⟨1, 2⟩⟩, ⟨⟨1, 1⟩, ⟨2, 2⟩⟩] = .ok t ∧
      get_objects_from_aabb t ⟨⟨9 / 10, 9 / 10⟩, ⟨11 / 10, 11 / 10⟩⟩ [] = .ok res ∧
      res = [⟨⟨0, 0⟩, ⟨0, 0⟩⟩, ⟨⟨1, 0⟩, ⟨1, 0⟩⟩, ⟨⟨0, 1⟩, ⟨0, 1⟩⟩, ⟨⟨1, 1⟩, ⟨1, 1⟩⟩] ∧
      ∀ b ∈ [(⟨⟨0, 0⟩, ⟨1, 1⟩⟩ : rz_aabb), ⟨⟨1, 0⟩, ⟨2, 1⟩⟩, ⟨⟨0, 1⟩, ⟨1, 2⟩⟩,
        ⟨⟨1, 1⟩, ⟨2, 2⟩⟩], b ∉ res := by
  have hmm : get_min_max [(⟨⟨0, 0⟩, ⟨1, 1⟩⟩ : rz_aabb), ⟨⟨1, 0⟩, ⟨2, 1⟩⟩,
      ⟨⟨0, 1⟩, ⟨1, 2⟩⟩, ⟨⟨1, 1⟩, ⟨2, 2⟩⟩] = (⟨0, 0⟩, ⟨2, 2⟩) := by
    simp only [get_min_max, get_min_max_step, List.foldl, min_2d, max_2d, min_2d_aabb,
      max_2d_aabb, MAXF, MINF]
    norm_num
  have hsz : root_size ⟨0, 0⟩ ⟨2, 2⟩ = 2 := by
    simp only [root_size]
    norm_num
  have hi : intersect_2d_aabb_aabb (cell_box ⟨0, 0⟩ 2) ⟨⟨0, 0⟩, ⟨2, 2⟩⟩ = true := by
    simp only [intersect_2d_aabb_aabb, cell_box, rz_aabb.op_eq, rz_point_2d.op_eq,
      rz_aabb.width, rz_aabb.height, EPS]
    norm_num
  have hB : BuildsTo (⟨0, 0⟩ : rz_point_2d) ⟨2, 2⟩ 10 12
      [(⟨⟨0, 0⟩, ⟨1, 1⟩⟩ : rz_aabb), ⟨⟨1, 0⟩, ⟨2, 1⟩⟩, ⟨⟨0, 1⟩, ⟨1, 2⟩⟩, ⟨⟨1, 1⟩, ⟨2, 2⟩⟩]
      ⟨0, 0⟩ 2 0
      (bare [⟨⟨0, 0⟩, ⟨0, 0⟩⟩, ⟨⟨1, 0⟩, ⟨1, 0⟩⟩, ⟨⟨0, 1⟩, ⟨0, 1⟩⟩, ⟨⟨1, 1⟩, ⟨1, 1⟩⟩]
        true ⟨0, 0⟩ 2) :=
    BuildsTo.stop_of_eq hi (Or.inl (by simp)) rfl
  refine ⟨_, _, rz_quadtree_new_eq_of_builds _ 10 12 _ _ _ _ hmm hsz hB, ?_, rfl, ?_⟩
  · simp only [get_objects_from_aabb, intersect_tree_with_aabb, intersect_2d_aabb_aabb,
      cell, get_dimentions, rz_aabb.op_eq, rz_point_2d.op_eq, rz_aabb.width, rz_aabb.height,
      EPS, List.map, copy, rz_aabb.copy]
    norm_num
  · intro b hb
    simp only [List.mem_cons, List.mem_singleton, List.not_mem_nil, or_false] at hb
    rcases hb with rfl | rfl | rfl | rfl <;>
    · simp only [List.mem_cons, List.mem_singleton, List.not_mem_nil, or_false,
        rz_aabb.mk.injEq, rz_point_2d.mk.injEq]
      norm_num

/-! ## C15, C18: depth bound, node shape, no null node -/

theorem depth_bound_of_builds {min_ max_ : rz_point_2d} {ot dt : Nat} {L : List T}
    {o : rz_point_2d} {s : ℚ} {d : Nat} {r : rz_quadtree_node T}
    (h : BuildsTo min_ max_ ot dt L o s d r) (hd : d ≤ dt) :
    ∀ nk ∈ nodes_with_depth r d, nk.2 ≤ dt ∧ (nk.2 = dt → nk.1.is_leaf = true) := by
  induction h with
  | outside _ =>
    intro nk hnk
    simp only [nodes_with_depth, List.mem_singleton] at hnk
    subst hnk
    exact ⟨hd, fun _ => rfl⟩
  | stop _ _ =>
    intro nk hnk
    simp only [nodes_with_depth, List.mem_singleton] at hnk
    subst hnk
    exact ⟨hd, fun _ => rfl⟩
  | split _ _ h3 _ _ _ _ ihA ihB ihC ihE =>
    intro nk hnk
    simp only [nodes_with_depth, List.mem_cons, List.mem_append] at hnk
    rcases hnk with hnk | ((hnk | hnk) | hnk) | hnk
    · subst hnk
      exact ⟨hd, fun e => absurd e (Nat.ne_of_lt h3)⟩
    · exact ihA h3 nk hnk
    · exact ihB h3 nk hnk
    · exact ihC h3 nk hnk
    · exact ihE h3 nk hnk

/-- C15: for every object list and every pair of thresholds, every call of
`build_sub_tree` on a fresh node returns a node (the recursion ends), the constructor
returns a tree, and in that tree every node has depth at most `depth_threshold` and every
node at depth exactly `depth_threshold` is a leaf. -/
theorem C15_build_terminates_within_depth_threshold (L : List T) (ot dt : Nat) :
    (∀ (mn mx : rz_point_2d) (L' : List T) (o : rz_point_2d) (s : ℚ) (d : Nat),
      ∃ r', build_sub_tree mn mx ot dt (some (bare [] false o s)) L' o s d = .ok r') ∧
    ∃ (t : rz_quadtree T) (r : rz_quadtree_node T),
      rz_quadtree.new L ot dt = .ok t ∧ t.root_ = some r ∧
      ∀ nk ∈ nodes_with_depth r 0, nk.2 ≤ dt ∧ (nk.2 = dt → nk.1.is_leaf = true) := by
  constructor
  · intro mn mx L' o s d
    obtain ⟨r', hr', _⟩ := build_sub_tree_builds mn mx ot dt L' o s d
    exact ⟨r', hr'⟩
  · obtain ⟨r, hnew, hB⟩ := rz_quadtree_new_builds L ot dt
    exact ⟨_, r, hnew, rfl, depth_bound_of_builds hB (Nat.zero_le _)⟩

theorem build_sub_tree_eq_of_builds {min_ max_ : rz_point_2d} {ot dt : Nat} {L : List T}
    {o : rz_point_2d} {s : ℚ} {d : Nat} {r : rz_quadtree_node T}
    (h : BuildsTo min_ max_ ot dt L o s d r) :
    build_sub_tree min_ max_ ot dt (some (bare [] false o s)) L o s d = .ok r := by
  obtain ⟨r', hr', hB'⟩ := build_sub_tree_builds min_ max_ ot dt L o s d
  rw [hr', hB'.unique h]

theorem is_leaf_iff_of_builds {min_ max_ : rz_point_2d} {ot dt : Nat} {L : List T}
    {o : rz_point_2d} {s : ℚ} {d : Nat} {r : rz_quadtree_node T}
    (h : BuildsTo min_ max_ ot dt L o s d r) :
    r.is_leaf = true ↔
      (intersect_2d_aabb_aabb (cell_box o s) ⟨min_, max_⟩ = false ∨ L.length ≤ ot ∨
        d ≥ dt) := by
  cases h with
  | outside h1 => exact ⟨fun _ => Or.inl h1, fun _ => rfl⟩
  | stop h1 h2 => exact ⟨fun _ => Or.inr h2, fun _ => rfl⟩
  | split h1 h2 h3 _ _ _ _ =>
    constructor
    · intro hl
      simp [is_leaf] at hl
    · rintro (h | h | h)
      · rw [h1] at h; cases h
      · omega
      · omega

theorem node_shape_of_wellShaped (r : rz_quadtree_node T) (hr : WellShaped r) :
    ∀ n ∈ nodes r,
      (n.is_leaf = true ∧ n.child_a = none ∧ n.child_b = none ∧ n.child_c = none ∧
        n.child_d = none) ∨
      (n.is_leaf = false ∧ ∃ a b c d, n.child_a = some a ∧ n.child_b = some b ∧
        n.child_c = some c ∧ n.child_d = some d) := by
  induction hr with
  | leaf l o s hl hs =>
    intro n hn
    simp only [nodes, List.mem_singleton] at hn
    subst hn
    exact Or.inl ⟨rfl, rfl, rfl, rfl, rfl⟩
  | inner l o s a b c d hl hs ha hb hc hd wa wb wc wd iha ihb ihc ihd =>
    intro n hn
    simp only [nodes, List.mem_cons, List.mem_append] at hn
    rcases hn with hn | ((hn | hn) | hn) | hn
    · subst hn
      exact Or.inr ⟨rfl, a, b, c, d, rfl, rfl, rfl, rfl⟩
    · exact iha n hn
    · exact ihb n hn
    · exact ihc n hn
    · exact ihd n hn

theorem point_query_total (mn mx pt : rz_point_2d) (r : rz_quadtree_node T)
    (hr : WellShaped r) (objs : List T) :
    ∃ res, intersect_tree_with_point mn mx pt objs r = .ok res := by
  cases hD : intersect_2d_aabb_point ⟨mn, mx⟩ pt with
  | false => exact ⟨objs, point_query_outside mn mx pt hD objs r⟩
  | true =>
    have h := point_query_wellShaped mn mx pt hD r hr
    cases hc : intersect_2d_aabb_point r.cell pt with
    | false => exact ⟨objs, (h.1 hc).2 objs⟩
    | true =>
      obtain ⟨l, _, hq⟩ := h.2 hc
      exact ⟨_, hq objs⟩

/-- C18: for every object list and thresholds the constructor returns a tree (no
`received null node` error is raised by `build_sub_tree`); in it every node that is not a
leaf has all four children; and every point query and every box query, from any content of
the result vector, returns a result rather than one of the `received null node` errors. -/
theorem C18_no_null_node_reached (L : List T) (ot dt : Nat) :
    ∃ (t : rz_quadtree T) (r : rz_quadtree_node T),
      rz_quadtree.new L ot dt = .ok t ∧ t.root_ = some r ∧
      (∀ n ∈ nodes r, n.is_leaf = false →
        ∃ a b c d, n.child_a = some a ∧ n.child_b = some b ∧ n.child_c = some c ∧
          n.child_d = some d) ∧
      (∀ (pt : rz_point_2d) (objs : List T), ∃ res,
        get_objects_from_point t pt objs = .ok res) ∧
      (∀ (q : rz_aabb) (objs : List T), ∃ res,
        get_objects_from_aabb t q objs = .ok res) := by
  obtain ⟨r, hnew, _, hw⟩ := rz_quadtree_new_wellShaped L ot dt
  refine ⟨_, r, hnew, rfl, ?_, ?_, ?_⟩
  · intro n hn hleaf
    rcases node_shape_of_wellShaped r hw n hn with h | h
    · rw [h.1] at hleaf; cases hleaf
    · exact h.2
  · intro pt objs
    simp only [get_objects_from_point]
    exact point_query_total _ _ pt r hw objs
  · intro q objs
    simp only [get_objects_from_aabb]
    obtain ⟨ext, he⟩ := aabb_query_total (get_min_max L).1 (get_min_max L).2 q r hw objs
    exact ⟨_, he⟩

/-! ## C17, C19: the code at the failing inputs -/

/-- C17, the code at the failing input: for the single vertical segment (0,0)-(0,1) and
the default thresholds, the data box [0,0]x[0,1] has zero width, the test
`intersect_2d(cell_box, data_box)` of the root square [0,1]x[0,1] against it is false, and
the root is a leaf whose object list is empty, not the input list. -/
theorem C17_vertical_segment_root_is_empty :
    ∃ (t : rz_quadtree rz_line) (r : rz_quadtree_node rz_line),
      rz_quadtree.new_default [(⟨⟨0, 0⟩, ⟨0, 1⟩⟩ : rz_line)] = .ok t ∧ t.root_ = some r ∧
      intersect_2d_aabb_aabb r.cell ⟨t.min_, t.max_⟩ = false ∧
      r.objects_list = [] ∧ r.objects_list ≠ [(⟨⟨0, 0⟩, ⟨0, 1⟩⟩ : rz_line)] := by
  have hmm : get_min_max [(⟨⟨0, 0⟩, ⟨0, 1⟩⟩ : rz_line)] = (⟨0, 0⟩, ⟨0, 1⟩) := by
    simp only [get_min_max, get_min_max_step, List.foldl, min_2d, max_2d, min_2d_line,
      max_2d_line, MAXF, MINF]
    norm_num
  have hsz : root_size ⟨0, 0⟩ ⟨0, 1⟩ = 1 := by
    simp only [root_size]
    norm_num
  have hi : intersect_2d_aabb_aabb (cell_box ⟨0, 0⟩ 1) ⟨⟨0, 0⟩, ⟨0, 1⟩⟩ = false := by
    simp only [intersect_2d_aabb_aabb, cell_box, rz_aabb.op_eq, rz_point_2d.op_eq,
      rz_aabb.width, rz_aabb.height, EPS]
    norm_num
  have hB : BuildsTo (⟨0, 0⟩ : rz_point_2d) ⟨0, 1⟩ 10 12 [(⟨⟨0, 0⟩, ⟨0, 1⟩⟩ : rz_line)]
      ⟨0, 0⟩ 1 0 (bare [] true ⟨0, 0⟩ 1) := BuildsTo.outside hi
  refine ⟨_, _, rz_quadtree_new_eq_of_builds _ 10 12 _ _ _ _ hmm hsz hB, rfl, hi, rfl, ?_⟩
  simp [objects_list]

/-- C19, the code at the failing input: for the two `rz_aabb` boxes [0,1]x[0,1] and
[1,2]x[1,2] and thresholds (1, 1), the root is internal and stores the copies, whose `max`
equals their `min`; its child C, with cell [0,1]x[0,1] inside the data box, stores the
copy of the first box, whereas the root's stored list filtered by
`intersect_2d(cell of C, object)` is empty. -/
theorem C19_aabb_child_list_evaluation :
    ∃ (t : rz_quadtree rz_aabb) (l : List rz_aabb) (o : rz_point_2d) (s : ℚ)
      (a b c d : rz_quadtree_node rz_aabb),
      rz_quadtree.new [(⟨⟨0, 0⟩, ⟨1, 1⟩⟩ : rz_aabb), ⟨⟨1, 1⟩, ⟨2, 2⟩⟩] 1 1 = .ok t ∧
      t.root_ = some (branch l false o s a b c d) ∧
      intersect_2d_aabb_aabb c.cell ⟨t.min_, t.max_⟩ = true ∧
      l = [⟨⟨0, 0⟩, ⟨0, 0⟩⟩, ⟨⟨1, 1⟩, ⟨1, 1⟩⟩] ∧
      c.objects_list = [⟨⟨0, 0⟩, ⟨0, 0⟩⟩] ∧
      l.filter (fun x => intersect_2d c.cell x) = [] := by
  have hmm : get_min_max [(⟨⟨0, 0⟩, ⟨1, 1⟩⟩ : rz_aabb), ⟨⟨1, 1⟩, ⟨2, 2⟩⟩] =
      (⟨0, 0⟩, ⟨2, 2⟩) := by
    simp only [get_min_max, get_min_max_step, List.foldl, min_2d, max_2d, min_2d_aabb,
      max_2d_aabb, MAXF, MINF]
    norm_num
  have hsz : root_size ⟨0, 0⟩ ⟨2, 2⟩ = 2 := by
    simp only [root_size]
    norm_num
  have hB : BuildsTo (⟨0, 0⟩ : rz_point_2d) ⟨2, 2⟩ 1 1
      [(⟨⟨0, 0⟩, ⟨1, 1⟩⟩ : rz_aabb), ⟨⟨1, 1⟩, ⟨2, 2⟩⟩] ⟨0, 0⟩ 2 0
      (branch [⟨⟨0, 0⟩, ⟨0, 0⟩⟩, ⟨⟨1, 1⟩, ⟨1, 1⟩⟩] false ⟨0, 0⟩ 2
        (bare [] true ⟨0, 1⟩ 1)
        (bare [⟨⟨1, 1⟩, ⟨1, 1⟩⟩] true ⟨1, 1⟩ 1)
        (bare [⟨⟨0, 0⟩, ⟨0, 0⟩⟩] true ⟨0, 0⟩ 1)
        (bare [] true ⟨1, 0⟩ 1)) := by
    have hcell : ∀ (o : rz_point_2d), (o = ⟨0, 1⟩ ∨ o = ⟨1, 1⟩ ∨ o = ⟨0, 0⟩ ∨ o = ⟨1, 0⟩) →
        intersect_2d_aabb_aabb (cell_box o 1) ⟨⟨0, 0⟩, ⟨2, 2⟩⟩ = true := by
      intro o ho
      rcases ho with h | h | h | h <;> subst h <;>
        simp only [intersect_2d_aabb_aabb, cell_box, rz_aabb.op_eq, rz_point_2d.op_eq,
          rz_aabb.width, rz_aabb.height, EPS] <;> norm_num
    refine @BuildsTo.split_of_eq rz_aabb _ _ _ _ _ _ _ _ _ _ _ _ _ ⟨0, 1⟩ ⟨1, 1⟩ ⟨0, 0⟩ ⟨1, 0⟩ 1
      [] [⟨⟨1, 1⟩, ⟨1, 1⟩⟩] [⟨⟨0, 0⟩, ⟨0, 0⟩⟩] [] _ ?_ (by simp) (by norm_num)
      (by norm_num) ?_ ?_ rfl ?_ ?_ ?_ ?_ ?_ rfl
      (BuildsTo.stop_of_eq (hcell _ (Or.inl rfl)) (Or.inl (by simp)) rfl)
      (BuildsTo.stop_of_eq (hcell _ (Or.inr (Or.inl rfl))) (Or.inl (by simp)) rfl)
      (BuildsTo.stop_of_eq (hcell _ (Or.inr (Or.inr (Or.inl rfl)))) (Or.inl (by simp)) rfl)
      (BuildsTo.stop_of_eq (hcell _ (Or.inr (Or.inr (Or.inr rfl)))) (Or.inl (by simp)) rfl)
    · simp only [intersect_2d_aabb_aabb, cell_box, rz_aabb.op_eq, rz_point_2d.op_eq,
        rz_aabb.width, rz_aabb.height, EPS]
      norm_num
    · simp only [rz_point_2d.mk.injEq]; norm_num
    · simp only [rz_point_2d.mk.injEq]; norm_num
    · simp only [rz_point_2d.mk.injEq]; norm_num
    · simp only [intersect_objects_with_cell, List.filter, intersect_2d,
        intersect_2d_aabb_aabb, rz_aabb.op_eq, rz_point_2d.op_eq, rz_aabb.width,
        rz_aabb.height, EPS, List.map, copy, rz_aabb.copy]
      norm_num
    · simp only [intersect_objects_with_cell, List.filter, intersect_2d,
        intersect_2d_aabb_aabb, rz_aabb.op_eq, rz_point_2d.op_eq, rz_aabb.width,
        rz_aabb.height, EPS, List.map, copy, rz_aabb.copy]
      norm_num
      rfl
    · simp only [intersect_objects_with_cell, List.filter, intersect_2d,
        intersect_2d_aabb_aabb, rz_aabb.op_eq, rz_point_2d.op_eq, rz_aabb.width,
        rz_aabb.height, EPS, List.map, copy, rz_aabb.copy]
      norm_num
      rfl
    · simp only [intersect_objects_with_cell, List.filter, intersect_2d,
        intersect_2d_aabb_aabb, rz_aabb.op_eq, rz_point_2d.op_eq, rz_aabb.width,
        rz_aabb.height, EPS, List.map, copy, rz_aabb.copy]
      norm_num
  refine ⟨_, _, _, _, _, _, _, _, rz_quadtree_new_eq_of_builds _ 1 1 _ _ _ _ hmm hsz hB, rfl,
    ?_, rfl, rfl, ?_⟩
  · simp only [intersect_2d_aabb_aabb, cell, get_dimentions, rz_aabb.op_eq,
      rz_point_2d.op_eq, rz_aabb.width, rz_aabb.height, EPS]
    norm_num
  · simp only [List.filter, intersect_2d, intersect_2d_aabb_aabb, cell, get_dimentions,
      rz_aabb.op_eq, rz_point_2d.op_eq, rz_aabb.width, rz_aabb.height, EPS]
    norm_num

/-! ## C11: coincident point objects -/

theorem get_min_max_replicate (o : T) (P : rz_point_2d) (n : Nat)
    (hmin : min_2d o = P) (hmax : max_2d o = P)
    (hx1 : MINF ≤ P.x) (hx2 : P.x ≤ MAXF) (hy1 : MINF ≤ P.y) (hy2 : P.y ≤ MAXF) :
    get_min_max (List.replicate (n + 1) o) = (P, P) := by
  obtain ⟨h1, h2, h3, h4⟩ := get_min_max_fold (List.replicate (n + 1) o)
    (⟨MAXF, MAXF⟩, ⟨MINF, MINF⟩)
  have hmem : o ∈ List.replicate (n + 1) o := by simp
  have e1 : (get_min_max (List.replicate (n + 1) o)).1.x = P.x := by
    obtain ⟨a, b, c⟩ := h1
    have hb := b o hmem
    simp only [hmin] at hb
    rcases c with c | ⟨o', ho', c⟩
    · simp only at c
      exact le_antisymm hb (by rw [get_min_max, c]; exact hx2)
    · rw [List.eq_of_mem_replicate ho'] at c
      simp only [hmin] at c
      exact c.symm
  have e2 : (get_min_max (List.replicate (n + 1) o)).1.y = P.y := by
    obtain ⟨a, b, c⟩ := h2
    have hb := b o hmem
    simp only [hmin] at hb
    rcases c with c | ⟨o', ho', c⟩
    · simp only at c
      exact le_antisymm hb (by rw [get_min_max, c]; exact hy2)
    · rw [List.eq_of_mem_replicate ho'] at c
      simp only [hmin] at c
      exact c.symm
  have e3 : (get_min_max (List.replicate (n + 1) o)).2.x = P.x := by
    obtain ⟨a, b, c⟩ := h3
    have hb := b o hmem
    simp only [hmax] at hb
    rcases c with c | ⟨o', ho', c⟩
    · simp only at c
      exact le_antisymm (by rw [get_min_max, c]; exact hx1) hb
    · rw [List.eq_of_mem_replicate ho'] at c
      simp only [hmax] at c
      exact c.symm
  have e4 : (get_min_max (List.replicate (n + 1) o)).2.y = P.y := by
    obtain ⟨a, b, c⟩ := h4
    have hb := b o hmem
    simp only [hmax] at hb
    rcases c with c | ⟨o', ho', c⟩
    · simp only at c
      exact le_antisymm (by rw [get_min_max, c]; exact hy1) hb
    · rw [List.eq_of_mem_replicate ho'] at c
      simp only [hmax] at c
      exact c.symm
  generalize get_min_max (List.replicate (n + 1) o) = g at e1 e2 e3 e4
  obtain ⟨⟨a, b⟩, ⟨c, d⟩⟩ := g
  obtain ⟨px, py⟩ := P
  simp only at e1 e2 e3 e4
  subst e1 e2 e3 e4
  rfl

theorem root_size_self (P : rz_point_2d) : root_size P P = 0 := by
  simp only [root_size, sub_self, abs_zero, gt_iff_lt, lt_self_iff_false, if_false]

theorem point_cell_intersects (P : rz_point_2d) :
    intersect_2d_aabb_aabb (cell_box P 0) ⟨P, P⟩ = true := by
  have hE : (0 : ℚ) < EPS := by unfold EPS; norm_num
  unfold intersect_2d_aabb_aabb
  simp only [cell_box, rz_aabb.op_eq, rz_point_2d.op_eq, add_zero, sub_self, abs_zero, hE,
    decide_True, Bool.and_self, if_true]

theorem self_mem_nodes_with_depth (r : rz_quadtree_node T) (k : Nat) :
    (r, k) ∈ nodes_with_depth r k := by
  cases r <;> simp [nodes_with_depth]

/-- Building from copies of one object `o` whose box is the single point `P`, in the point
cell at `P`: every child receives the whole list again, so the recursion only stops at the
depth threshold. -/
theorem coincident_builds (o : T) (P : rz_point_2d) (N dt : Nat)
    (hcopy : copy o = o) (hint : intersect_2d (cell_box P 0) o = true)
    {L : List T} {og : rz_point_2d} {s : ℚ} {d : Nat} {r : rz_quadtree_node T}
    (h : BuildsTo P P N dt L og s d r) :
    L = List.replicate (N + 1) o → og = P → s = 0 → d ≤ dt →
      ∀ nk ∈ nodes_with_depth r d, (nk.1.is_leaf = true ↔ nk.2 = dt) := by
  induction h with
  | @outside L og s d h1 =>
    intro hL ho hs hd
    subst ho hs
    rw [point_cell_intersects] at h1
    cases h1
  | @stop L og s d h1 h2 =>
    intro hL ho hs hd nk hnk
    simp only [nodes_with_depth, List.mem_singleton] at hnk
    subst hnk
    subst hL
    simp only [List.length_replicate] at h2
    simp only [is_leaf, true_iff]
    rcases h2 with h2 | h2
    · omega
    · omega
  | @split L og s d a b c e h1 h2 h3 hA hB hC hE ihA ihB ihC ihE =>
    intro hL ho hs hd nk hnk
    subst ho hs hL
    have hsub : ∀ og1 : rz_point_2d, og1 = og →
        intersect_objects_with_cell (List.replicate (N + 1) o) og1 ((0 : ℚ) / 2) =
          List.replicate (N + 1) o := by
      intro og1 hog
      subst hog
      have hf : (List.replicate (N + 1) o).filter (fun x => intersect_2d (cell_box og1 0) x) =
          List.replicate (N + 1) o := by
        rw [List.filter_eq_self]
        intro x hx
        rw [List.eq_of_mem_replicate hx]
        exact hint
      show ((List.replicate (N + 1) o).filter
        (fun x => intersect_2d (cell_box og1 ((0 : ℚ) / 2)) x)).map copy = _
      rw [zero_div, hf, List.map_replicate, hcopy]
    have hz : (0 : ℚ) / 2 = 0 := by norm_num
    have pa : (⟨og.x, og.y + (0 : ℚ) / 2⟩ : rz_point_2d) = og := by
      cases og; simp only [zero_div, add_zero]
    have pb : (⟨og.x + (0 : ℚ) / 2, og.y + (0 : ℚ) / 2⟩ : rz_point_2d) = og := by
      cases og; simp only [zero_div, add_zero]
    have pc : (⟨og.x, og.y⟩ : rz_point_2d) = og := by
      cases og; rfl
    have pe : (⟨og.x + (0 : ℚ) / 2, og.y⟩ : rz_point_2d) = og := by
      cases og; simp only [zero_div, add_zero]
    simp only [nodes_with_depth, List.mem_cons, List.mem_append] at hnk
    rcases hnk with hnk | ((hnk | hnk) | hnk) | hnk
    · subst hnk
      simp only [is_leaf]
      constructor
      · intro hf; cases hf
      · intro hf; omega
    · exact ihA (hsub _ pa) pa hz (by omega) nk hnk
    · exact ihB (hsub _ pb) pb hz (by omega) nk hnk
    · exact ihC (hsub _ pc) pc hz (by omega) nk hnk
    · exact ihE (hsub _ pe) pe hz (by omega) nk hnk

/-- The tree built from `N + 1` copies of a point object at `P` with thresholds `(N, dt)`:
a node is a leaf exactly at depth `dt`; for `dt ≥ 1` the root is internal and its children
are leaves exactly when `dt = 1`. -/
theorem coincident_points_tree (o : T) (P : rz_point_2d) (N dt : Nat)
    (hmin : min_2d o = P) (hmax : max_2d o = P)
    (hcopy : copy o = o) (hint : intersect_2d (cell_box P 0) o = true)
    (hx1 : MINF ≤ P.x) (hx2 : P.x ≤ MAXF) (hy1 : MINF ≤ P.y) (hy2 : P.y ≤ MAXF)
    (hdt : 1 ≤ dt) :
    ∃ (t : rz_quadtree T) (l : List T) (og : rz_point_2d) (s : ℚ)
      (a b c d : rz_quadtree_node T),
      rz_quadtree.new (List.replicate (N + 1) o) N dt = .ok t ∧
      t.root_ = some (branch l false og s a b c d) ∧
      (∀ ch ∈ [a, b, c, d], (ch.is_leaf = true ↔ dt = 1)) ∧
      ∀ nk ∈ nodes_with_depth (branch l false og s a b c d) 0,
        (nk.1.is_leaf = true ↔ nk.2 = dt) := by
  obtain ⟨r, hnew, hB⟩ := rz_quadtree_new_builds (List.replicate (N + 1) o) N dt
  have hw := hB.wellShaped (root_size_nonneg _ _)
  rw [get_min_max_replicate o P N hmin hmax hx1 hx2 hy1 hy2] at hB
  simp only [root_size_self] at hB
  have hall := coincident_builds o P N dt hcopy hint hB rfl rfl rfl (Nat.zero_le _)
  cases hw with
  | leaf l og s hl hs =>
    have h0 := (hall _ (self_mem_nodes_with_depth _ 0)).1 rfl
    simp only at h0
    omega
  | inner l og s a b c d hl hs ha hb hc hd wa wb wc wd =>
    refine ⟨_, l, og, s, a, b, c, d, hnew, rfl, ?_, hall⟩
    intro ch hch
    have hmem : (ch, 1) ∈ nodes_with_depth (branch l false og s a b c d) 0 := by
      simp only [List.mem_cons, List.mem_singleton, List.not_mem_nil, or_false] at hch
      simp only [nodes_with_depth, List.mem_cons, List.mem_append, zero_add]
      rcases hch with h | h | h | h <;> subst h
      · exact Or.inr (Or.inl (Or.inl (Or.inl (self_mem_nodes_with_depth _ 1))))
      · exact Or.inr (Or.inl (Or.inl (Or.inr (self_mem_nodes_with_depth _ 1))))
      · exact Or.inr (Or.inl (Or.inr (self_mem_nodes_with_depth _ 1)))
      · exact Or.inr (Or.inr (self_mem_nodes_with_depth _ 1))
    have := hall _ hmem
    simp only at this
    rw [this]
    omega

theorem min_2d_point_line (P : rz_point_2d) : min_2d (⟨P, P⟩ : rz_line) = P := by
  cases P
  simp only [min_2d, min_2d_line, lt_self_iff_false, if_false]

theorem max_2d_point_line (P : rz_point_2d) : max_2d (⟨P, P⟩ : rz_line) = P := by
  cases P
  simp only [max_2d, max_2d_line, gt_iff_lt, lt_self_iff_false, if_false]

theorem point_line_hit (P : rz_point_2d) :
    intersect_2d (cell_box P 0) (⟨P, P⟩ : rz_line) = true := by
  refine intersect_2d_aabb_line_of_common_point _ _ P ⟨0, le_refl _, by norm_num, ?_, ?_⟩ ?_
  · simp only [zero_mul, add_zero]
  · simp only [zero_mul, add_zero]
  · simp only [in_box, cell_box, add_zero, le_refl, and_self]

/-- C11, as stated, fails: with `objects_threshold = 1` and `depth_threshold = 2`, the tree
built from two point segments at (1,1) has an internal root whose child A is internal too,
so there are two levels of subdivision. -/
theorem C11_counterexample :
    ∃ (t : rz_quadtree rz_line) (l : List rz_line) (og : rz_point_2d) (s : ℚ)
      (a b c d : rz_quadtree_node rz_line),
      rz_quadtree.new [(⟨⟨1, 1⟩, ⟨1, 1⟩⟩ : rz_line), ⟨⟨1, 1⟩, ⟨1, 1⟩⟩] 1 2 = .ok t ∧
      t.root_ = some (branch l false og s a b c d) ∧ a.is_leaf = false := by
  obtain ⟨t, l, og, s, a, b, c, d, h1, h2, h3, _⟩ :=
    coincident_points_tree (⟨⟨1, 1⟩, ⟨1, 1⟩⟩ : rz_line) ⟨1, 1⟩ 1 2 rfl rfl rfl
      (point_line_hit _) (by unfold MINF; norm_num) (by unfold MAXF; norm_num)
      (by unfold MINF; norm_num) (by unfold MAXF; norm_num) (by norm_num)
  refine ⟨t, l, og, s, a, b, c, d, h1, h2, ?_⟩
  have := h3 a (by simp)
  cases hl : a.is_leaf
  · rfl
  · rw [hl] at this
    have := this.1 rfl
    omega

/-- C11 (amended): for every N ≥ 1 and every `depth_threshold` ≥ 1, building with
`objects_threshold = N` on N+1 coincident point objects at a point P with coordinates in
[MINF, MAXF] (segments from P to P, or boxes from P to P) subdivides down to the depth
threshold: the root is internal, a node is a leaf exactly when its depth equals
`depth_threshold`, and so each of the four children of the root is a leaf exactly when
`depth_threshold = 1`. -/
theorem C11_coincident_points_subdivide_to_depth_threshold (P : rz_point_2d) (N dt : Nat)
    (hN : 1 ≤ N) (hdt : 1 ≤ dt)
    (hx1 : MINF ≤ P.x) (hx2 : P.x ≤ MAXF) (hy1 : MINF ≤ P.y) (hy2 : P.y ≤ MAXF) :
    (∃ (t : rz_quadtree rz_line) (l : List rz_line) (og : rz_point_2d) (s : ℚ)
      (a b c d : rz_quadtree_node rz_line),
      rz_quadtree.new (List.replicate (N + 1) (⟨P, P⟩ : rz_line)) N dt = .ok t ∧
      t.root_ = some (branch l false og s a b c d) ∧
      (∀ ch ∈ [a, b, c, d], (ch.is_leaf = true ↔ dt = 1)) ∧
      ∀ nk ∈ nodes_with_depth (branch l false og s a b c d) 0,
        (nk.1.is_leaf = true ↔ nk.2 = dt)) ∧
    (∃ (t : rz_quadtree rz_aabb) (l : List rz_aabb) (og : rz_point_2d) (s : ℚ)
      (a b c d : rz_quadtree_node rz_aabb),
      rz_quadtree.new (List.replicate (N + 1) (⟨P, P⟩ : rz_aabb)) N dt = .ok t ∧
      t.root_ = some (branch l false og s a b c d) ∧
      (∀ ch ∈ [a, b, c, d], (ch.is_leaf = true ↔ dt = 1)) ∧
      ∀ nk ∈ nodes_with_depth (branch l false og s a b c d) 0,
        (nk.1.is_leaf = true ↔ nk.2 = dt)) :=
  ⟨coincident_points_tree (⟨P, P⟩ : rz_line) P N dt (min_2d_point_line P)
      (max_2d_point_line P) rfl (point_line_hit P)
      hx1 hx2 hy1 hy2 hdt,
    coincident_points_tree (⟨P, P⟩ : rz_aabb) P N dt rfl rfl rfl (point_cell_intersects P)
      hx1 hx2 hy1 hy2 hdt⟩

theorem C11_coincident_points_subdivide_to_depth_threshold_witness :
    (1 ≤ 1 ∧ 1 ≤ 12 ∧ MINF ≤ (1 : ℚ) ∧ (1 : ℚ) ≤ MAXF) ∧
    ((∃ (t : rz_quadtree rz_line) (l : List rz_line) (og : rz_point_2d) (s : ℚ)
      (a b c d : rz_quadtree_node rz_line),
      rz_quadtree.new (List.replicate (1 + 1) (⟨⟨1, 1⟩, ⟨1, 1⟩⟩ : rz_line)) 1 12 = .ok t ∧
      t.root_ = some (branch l false og s a b c d) ∧
      (∀ ch ∈ [a, b, c, d], (ch.is_leaf = true ↔ 12 = 1)) ∧
      ∀ nk ∈ nodes_with_depth (branch l false og s a b c d) 0,
        (nk.1.is_leaf = true ↔ nk.2 = 12)) ∧
    (∃ (t : rz_quadtree rz_aabb) (l : List rz_aabb) (og : rz_point_2d) (s : ℚ)
      (a b c d : rz_quadtree_node rz_aabb),
      rz_quadtree.new (List.replicate (1 + 1) (⟨⟨1, 1⟩, ⟨1, 1⟩⟩ : rz_aabb)) 1 12 = .ok t ∧
      t.root_ = some (branch l false og s a b c d) ∧
      (∀ ch ∈ [a, b, c, d], (ch.is_leaf = true ↔ 12 = 1)) ∧
      ∀ nk ∈ nodes_with_depth (branch l false og s a b c d) 0,
        (nk.1.is_leaf = true ↔ nk.2 = 12))) :=
  ⟨⟨by decide, by decide, by unfold MINF; norm_num, by unfold MAXF; norm_num⟩,
    C11_coincident_points_subdivide_to_depth_threshold ⟨1, 1⟩ 1 12 (by decide) (by decide)
      (by unfold MINF; norm_num) (by unfold MAXF; norm_num)
      (by unfold MINF; norm_num) (by unfold MAXF; norm_num)⟩

/-! ## C20: the region query as a pruned depth-first concatenation -/

theorem region_leaf_of_path_cons (q : rz_aabb) (n : rz_quadtree_node T)
    (p : List (rz_quadtree_node T)) (hp : p ≠ []) :
    region_leaf_of_path q (n :: p) =
      if intersect_2d_aabb_aabb n.cell q then region_leaf_of_path q p else none := by
  obtain ⟨x, xs, rfl⟩ := List.exists_cons_of_ne_nil hp
  unfold region_leaf_of_path
  rw [List.getLast?_cons_cons]
  cases hlast : (x :: xs).getLast? with
  | none => simp
  | some m =>
    simp only [List.all_cons]
    by_cases hn : intersect_2d_aabb_aabb n.cell q = true
    · simp [hn]
    · simp [hn]

theorem region_leaves_bare (q : rz_aabb) (l : List T) (o : rz_point_2d) (s : ℚ) :
    region_leaves q (bare l true o s) =
      if intersect_2d_aabb_aabb (cell_box o s) q then [bare l true o s] else [] := by
  simp only [region_leaves, paths, List.filterMap_cons, List.filterMap_nil,
    region_leaf_of_path, List.getLast?_singleton, List.all_cons, List.all_nil, Bool.and_true,
    is_leaf, cell_bare, Bool.true_and]
  split <;> simp_all

theorem region_leaves_branch (q : rz_aabb) (l : List T) (o : rz_point_2d) (s : ℚ)
    (a b c d : rz_quadtree_node T) :
    region_leaves q (branch l false o s a b c d) =
      if intersect_2d_aabb_aabb (cell_box o s) q then
        region_leaves q a ++ region_leaves q b ++ region_leaves q c ++ region_leaves q d
      else [] := by
  have hroot : region_leaf_of_path q [branch l false o s a b c d] = none := by
    simp [region_leaf_of_path, is_leaf]
  have hsub : ∀ x : rz_quadtree_node T,
      (paths x).filterMap (fun p => region_leaf_of_path q (branch l false o s a b c d :: p)) =
        if intersect_2d_aabb_aabb (cell_box o s) q then region_leaves q x else [] := by
    intro x
    have hcongr : ∀ p ∈ paths x,
        region_leaf_of_path q (branch l false o s a b c d :: p) =
          if intersect_2d_aabb_aabb (cell_box o s) q then region_leaf_of_path q p
          else none := by
      intro p hp
      obtain ⟨rest, hrest⟩ := paths_head x p hp
      rw [region_leaf_of_path_cons q _ p (by rw [hrest]; exact List.cons_ne_nil _ _),
        cell_branch]
    rw [List.filterMap_congr hcongr]
    by_cases hit : intersect_2d_aabb_aabb (cell_box o s) q = true
    · simp only [hit, if_true]
      rfl
    · simp only [hit]
      simp
  unfold region_leaves
  simp only [paths, List.filterMap_cons, hroot, List.filterMap_map, List.filterMap_append,
    Function.comp_def, hsub]
  by_cases hit : intersect_2d_aabb_aabb (cell_box o s) q = true
  · simp only [hit, if_true]
    rfl
  · simp [hit]

theorem region_leaves_of_miss (q : rz_aabb) (n : rz_quadtree_node T) (hn : WellShaped n)
    (hmiss : ¬ intersect_2d_aabb_aabb n.cell q = true) : region_leaves q n = [] := by
  cases hn with
  | leaf l o s hl hs =>
    rw [cell_bare] at hmiss
    rw [region_leaves_bare, if_neg hmiss]
  | inner l o s a b c d hl hs ha hb hc hd wa wb wc wd =>
    rw [cell_branch] at hmiss
    rw [region_leaves_branch, if_neg hmiss]

theorem aabb_step_eq (mn mx : rz_point_2d) (q : rz_aabb) (ch : rz_quadtree_node T)
    (hw : WellShaped ch)
    (ih : ∀ objs, intersect_tree_with_aabb mn mx q objs ch =
      .ok (objs ++ (region_leaves q ch).flatMap (fun l => l.objects_list)))
    (objs : List T) :
    aabb_step mn mx q ch objs =
      .ok (objs ++ (region_leaves q ch).flatMap (fun l => l.objects_list)) := by
  unfold aabb_step
  by_cases hc : intersect_2d_aabb_aabb ch.cell q = true
  · rw [if_pos hc, ih]
  · rw [if_neg hc, region_leaves_of_miss q ch hw hc]
    simp

/-- On a well-shaped tree and a query box that passes the data-box test, the region query
appends the stored lists of the leaves reached through cells that all pass the test. -/
theorem aabb_query_eq (mn mx : rz_point_2d) (q : rz_aabb)
    (hpre : intersect_2d_aabb_aabb ⟨mn, mx⟩ q = true) (r : rz_quadtree_node T)
    (hr : WellShaped r) :
    ∀ objs, intersect_tree_with_aabb mn mx q objs r =
      .ok (objs ++ (region_leaves q r).flatMap (fun l => l.objects_list)) := by
  induction hr with
  | leaf l o s hl hs =>
    intro objs
    rw [intersect_tree_with_aabb, region_leaves_bare, cell_bare]
    by_cases hit : intersect_2d_aabb_aabb (cell_box o s) q = true
    · simp [hpre, hit, objects_list, hl]
    · simp [hpre, hit]
  | inner l o s a b c d hl hs ha hb hc hd wa wb wc wd iha ihb ihc ihd =>
    intro objs
    by_cases hit : intersect_2d_aabb_aabb (cell_box o s) q = true
    · rw [aabb_query_branch mn mx q l o s a b c d objs hpre hit]
      simp only [aabb_step_eq mn mx q a wa iha, aabb_step_eq mn mx q b wb ihb,
        aabb_step_eq mn mx q c wc ihc, aabb_step_eq mn mx q d wd ihd]
      rw [region_leaves_branch, if_pos hit]
      simp only [List.flatMap_append, List.append_assoc]
    · rw [intersect_tree_with_aabb, region_leaves_branch, cell_branch]
      simp [hpre, hit]

theorem leaves_bare (l : List T) (o : rz_point_2d) (s : ℚ) :
    leaves (bare l true o s) = [bare l true o s] := by
  simp [leaves, nodes, is_leaf]

theorem leaves_branch (l : List T) (o : rz_point_2d) (s : ℚ) (a b c d : rz_quadtree_node T) :
    leaves (branch l false o s a b c d) = leaves a ++ leaves b ++ leaves c ++ leaves d := by
  simp only [leaves, nodes, List.filter, is_leaf, List.filter_append]

/-- Every leaf of `region_leaves q r` is a leaf of `r` whose cell passes the test against
`q`. -/
theorem region_leaves_sound (q : rz_aabb) (r : rz_quadtree_node T) (hr : WellShaped r) :
    ∀ leaf ∈ region_leaves q r,
      leaf ∈ leaves r ∧ intersect_2d_aabb_aabb leaf.cell q = true := by
  induction hr with
  | leaf l o s hl hs =>
    intro leaf hleaf
    rw [region_leaves_bare] at hleaf
    by_cases hit : intersect_2d_aabb_aabb (cell_box o s) q = true
    · rw [if_pos hit, List.mem_singleton] at hleaf
      subst hleaf
      exact ⟨by rw [leaves_bare]; exact List.mem_singleton.2 rfl, by rw [cell_bare]; exact hit⟩
    · rw [if_neg hit] at hleaf
      cases hleaf
  | inner l o s a b c d hl hs ha hb hc hd wa wb wc wd iha ihb ihc ihd =>
    intro leaf hleaf
    rw [region_leaves_branch] at hleaf
    by_cases hit : intersect_2d_aabb_aabb (cell_box o s) q = true
    · rw [if_pos hit] at hleaf
      simp only [List.mem_append] at hleaf
      rw [leaves_branch]
      simp only [List.mem_append]
      rcases hleaf with ((h | h) | h) | h
      · exact ⟨Or.inl (Or.inl (Or.inl (iha leaf h).1)), (iha leaf h).2⟩
      · exact ⟨Or.inl (Or.inl (Or.inr (ihb leaf h).1)), (ihb leaf h).2⟩
      · exact ⟨Or.inl (Or.inr (ihc leaf h).1), (ihc leaf h).2⟩
      · exact ⟨Or.inr (ihd leaf h).1, (ihd leaf h).2⟩
    · rw [if_neg hit] at hleaf
      cases hleaf

/-- C20, as stated, fails: for the tree built with thresholds (0, 1) from the single segment
(0,0)-(8e-11,1e-11), the point box `q` at (0,-3e-11) passes `intersect_2d` against the data
box and against the cell of the leaf C (both through the equality within EPS of the corner
points), and that leaf stores the segment; the root cell fails the test against `q`, so the
query descends nowhere and returns the empty sequence. -/
theorem C20_counterexample :
    ∃ (t : rz_quadtree rz_line) (r leaf : rz_quadtree_node rz_line),
      rz_quadtree.new [(⟨⟨0, 0⟩, ⟨1 / 12500000000, 1 / 100000000000⟩⟩ : rz_line)] 0 1 = .ok t ∧
      t.root_ = some r ∧
      intersect_2d_aabb_aabb ⟨t.min_, t.max_⟩
        ⟨⟨0, -3 / 100000000000⟩, ⟨0, -3 / 100000000000⟩⟩ = true ∧
      leaf ∈ leaves r ∧
      intersect_2d_aabb_aabb leaf.cell
        ⟨⟨0, -3 / 100000000000⟩, ⟨0, -3 / 100000000000⟩⟩ = true ∧
      leaf.objects_list = [(⟨⟨0, 0⟩, ⟨1 / 12500000000, 1 / 100000000000⟩⟩ : rz_line)] ∧
      get_objects_from_aabb t ⟨⟨0, -3 / 100000000000⟩, ⟨0, -3 / 100000000000⟩⟩ [] =
        .ok [] := by
  have hmm : get_min_max [(⟨⟨0, 0⟩, ⟨1 / 12500000000, 1 / 100000000000⟩⟩ : rz_line)] =
      (⟨0, 0⟩, ⟨1 / 12500000000, 1 / 100000000000⟩) := by
    simp only [get_min_max, get_min_max_step, List.foldl, min_2d, max_2d, min_2d_line,
      max_2d_line, MAXF, MINF]
    norm_num [abs_div]
  have hsz : root_size ⟨0, 0⟩ ⟨1 / 12500000000, 1 / 100000000000⟩ = 1 / 12500000000 := by
    simp only [root_size]
    norm_num [abs_div]
  have hB : BuildsTo (⟨0, 0⟩ : rz_point_2d) ⟨1 / 12500000000, 1 / 100000000000⟩ 0 1
      [(⟨⟨0, 0⟩, ⟨1 / 12500000000, 1 / 100000000000⟩⟩ : rz_line)] ⟨0, 0⟩ (1 / 12500000000) 0
      (branch [⟨⟨0, 0⟩, ⟨1 / 12500000000, 1 / 100000000000⟩⟩] false ⟨0, 0⟩ (1 / 12500000000)
        (bare [⟨⟨0, 0⟩, ⟨1 / 12500000000, 1 / 100000000000⟩⟩] true
          ⟨0, 1 / 25000000000⟩ (1 / 25000000000))
        (bare [⟨⟨0, 0⟩, ⟨1 / 12500000000, 1 / 100000000000⟩⟩] true
          ⟨1 / 25000000000, 1 / 25000000000⟩ (1 / 25000000000))
        (bare [⟨⟨0, 0⟩, ⟨1 / 12500000000, 1 / 100000000000⟩⟩] true
          ⟨0, 0⟩ (1 / 25000000000))
        (bare [⟨⟨0, 0⟩, ⟨1 / 12500000000, 1 / 100000000000⟩⟩] true
          ⟨1 / 25000000000, 0⟩ (1 / 25000000000))) := by
    refine @BuildsTo.split_of_eq rz_line _ _ _ _ _ _ _ _ _ _ _ _ _
      ⟨0, 1 / 25000000000⟩ ⟨1 / 25000000000, 1 / 25000000000⟩ ⟨0, 0⟩ ⟨1 / 25000000000, 0⟩
      (1 / 25000000000)
      [⟨⟨0, 0⟩, ⟨1 / 12500000000, 1 / 100000000000⟩⟩]
      [⟨⟨0, 0⟩, ⟨1 / 12500000000, 1 / 100000000000⟩⟩]
      [⟨⟨0, 0⟩, ⟨1 / 12500000000, 1 / 100000000000⟩⟩]
      [⟨⟨0, 0⟩, ⟨1 / 12500000000, 1 / 100000000000⟩⟩] _ ?_ (by simp) (by simp)
      (by norm_num) ?_ ?_ ?_ ?_ ?_ ?_ ?_ ?_ rfl
      (BuildsTo.stop_of_eq ?_ (Or.inr (by simp)) rfl)
      (BuildsTo.stop_of_eq ?_ (Or.inr (by simp)) rfl)
      (BuildsTo.stop_of_eq ?_ (Or.inr (by simp)) rfl)
      (BuildsTo.stop_of_eq ?_ (Or.inr (by simp)) rfl)
    · simp only [intersect_2d_aabb_aabb, cell_box, rz_aabb.op_eq, rz_point_2d.op_eq,
        rz_aabb.width, rz_aabb.height, EPS]
      norm_num [abs_div]
    · simp only [rz_point_2d.mk.injEq]; norm_num
    · simp only [rz_point_2d.mk.injEq]; norm_num
    · rfl
    · simp only [rz_point_2d.mk.injEq]; norm_num
    · simp only [intersect_objects_with_cell, List.filter, intersect_2d,
        intersect_2d_aabb_line, aabb_edges, List.any, intersect_2d_line_line, EPS,
        List.map, copy, rz_line.copy]
      norm_num [abs_div]
      rfl
    · simp only [intersect_objects_with_cell, List.filter, intersect_2d,
        intersect_2d_aabb_line, aabb_edges, List.any, intersect_2d_line_line, EPS,
        List.map, copy, rz_line.copy]
      norm_num [abs_div]
      rfl
    · simp only [intersect_objects_with_cell, List.filter, intersect_2d,
        intersect_2d_aabb_line, aabb_edges, List.any, intersect_2d_line_line, EPS,
        List.map, copy, rz_line.copy]
      norm_num [abs_div]
      rfl
    · simp only [intersect_objects_with_cell, List.filter, intersect_2d,
        intersect_2d_aabb_line, aabb_edges, List.any, intersect_2d_line_line, EPS,
        List.map, copy, rz_line.copy]
      norm_num [abs_div]
      rfl
    · simp only [intersect_2d_aabb_aabb, cell_box, rz_aabb.op_eq, rz_point_2d.op_eq,
        rz_aabb.width, rz_aabb.height, EPS]
      norm_num [abs_div]
    · simp only [intersect_2d_aabb_aabb, cell_box, rz_aabb.op_eq, rz_point_2d.op_eq,
        rz_aabb.width, rz_aabb.height, EPS]
      norm_num [abs_div]
    · simp only [intersect_2d_aabb_aabb, cell_box, rz_aabb.op_eq, rz_point_2d.op_eq,
        rz_aabb.width, rz_aabb.height, EPS]
      norm_num [abs_div]
    · simp only [intersect_2d_aabb_aabb, cell_box, rz_aabb.op_eq, rz_point_2d.op_eq,
        rz_aabb.width, rz_aabb.height, EPS]
      norm_num [abs_div]
  have hpre : intersect_2d_aabb_aabb
      ⟨⟨0, 0⟩, ⟨1 / 12500000000, 1 / 100000000000⟩⟩
      ⟨⟨0, -3 / 100000000000⟩, ⟨0, -3 / 100000000000⟩⟩ = true := by
    simp only [intersect_2d_aabb_aabb, rz_aabb.op_eq, rz_point_2d.op_eq,
      rz_aabb.width, rz_aabb.height, EPS]
    norm_num [abs_div]
  have hroot : intersect_2d_aabb_aabb (cell_box ⟨0, 0⟩ (1 / 12500000000))
      ⟨⟨0, -3 / 100000000000⟩, ⟨0, -3 / 100000000000⟩⟩ = false := by
    simp only [intersect_2d_aabb_aabb, cell_box, rz_aabb.op_eq, rz_point_2d.op_eq,
      rz_aabb.width, rz_aabb.height, EPS]
    norm_num [abs_div]
  refine ⟨_, _, bare [⟨⟨0, 0⟩, ⟨1 / 12500000000, 1 / 100000000000⟩⟩] true ⟨0, 0⟩
      (1 / 25000000000),
    rz_quadtree_new_eq_of_builds _ 0 1 _ _ _ _ hmm hsz hB, rfl, hpre, ?_, ?_, rfl, ?_⟩
  · simp [leaves, nodes, is_leaf]
  · simp only [intersect_2d_aabb_aabb, cell, get_dimentions, rz_aabb.op_eq, rz_point_2d.op_eq,
      rz_aabb.width, rz_aabb.height, EPS]
    norm_num [abs_div]
  · simp only [get_objects_from_aabb]
    rw [intersect_tree_with_aabb]
    simp only [hpre, cell_branch, hroot]
    simp

/-! ## C24: the thresholds and the number of stored objects -/

theorem threshold_counts_of_builds {min_ max_ : rz_point_2d} {ot dt : Nat} {L : List T}
    {o : rz_point_2d} {s : ℚ} {d : Nat} {r : rz_quadtree_node T}
    (h : BuildsTo min_ max_ ot dt L o s d r) :
    ∀ nk ∈ nodes_with_depth r d,
      (nk.1.is_leaf = true → nk.2 < dt → nk.1.objects_list.length ≤ ot) ∧
      (nk.1.is_leaf = false → ot < nk.1.objects_list.length) := by
  induction h with
  | @outside L o s d h1 =>
    intro nk hnk
    simp only [nodes_with_depth, List.mem_singleton] at hnk
    subst hnk
    simp [is_leaf, objects_list]
  | @stop L o s d h1 h2 =>
    intro nk hnk
    simp only [nodes_with_depth, List.mem_singleton] at hnk
    subst hnk
    simp only [is_leaf, objects_list, List.length_map]
    refine ⟨fun _ hlt => ?_, fun hf => by cases hf⟩
    rcases h2 with h2 | h2
    · exact h2
    · omega
  | @split L o s d a b c e h1 h2 h3 hA hB hC hE ihA ihB ihC ihE =>
    intro nk hnk
    simp only [nodes_with_depth, List.mem_cons, List.mem_append] at hnk
    rcases hnk with hnk | ((hnk | hnk) | hnk) | hnk
    · subst hnk
      refine ⟨fun hf => by simp [is_leaf] at hf, fun _ => ?_⟩
      simp only [objects_list, List.length_map]
      exact h2
    · exact ihA nk hnk
    · exact ihB nk hnk
    · exact ihC nk hnk
    · exact ihE nk hnk

/-- C24: in every tree the constructor returns, every leaf at depth strictly less than
`depth_threshold` stores at most `objects_threshold` objects, every node that is not a leaf
stores strictly more than `objects_threshold` objects, and a leaf that stores more than
`objects_threshold` objects is at depth `depth_threshold`. -/
theorem C24_thresholds_bound_stored_objects (L : List T) (ot dt : Nat) :
    ∃ (t : rz_quadtree T) (r : rz_quadtree_node T),
      rz_quadtree.new L ot dt = .ok t ∧ t.root_ = some r ∧
      ∀ nk ∈ nodes_with_depth r 0,
        (nk.1.is_leaf = true → nk.2 < dt → nk.1.objects_list.length ≤ ot) ∧
        (nk.1.is_leaf = false → ot < nk.1.objects_list.length) ∧
        (nk.1.is_leaf = true → ot < nk.1.objects_list.length → nk.2 = dt) := by
  obtain ⟨r, hnew, hB⟩ := rz_quadtree_new_builds L ot dt
  refine ⟨_, r, hnew, rfl, ?_⟩
  intro nk hnk
  obtain ⟨h1, h2⟩ := threshold_counts_of_builds hB nk hnk
  obtain ⟨h3, _⟩ := depth_bound_of_builds hB (Nat.zero_le _) nk hnk
  refine ⟨h1, h2, fun hl hgt => ?_⟩
  by_contra hne
  have := h1 hl (by omega)
  omega

/-- The list stored in any node of a built subtree is an order-preserving sublist of the
copies of the incoming list. -/
theorem node_lists_sublist_of_builds {min_ max_ : rz_point_2d} {ot dt : Nat} {L : List T}
    {o : rz_point_2d} {s : ℚ} {d : Nat} {r : rz_quadtree_node T}
    (h : BuildsTo min_ max_ ot dt L o s d r) :
    ∀ n ∈ nodes r, List.Sublist n.objects_list (L.map copy) := by
  induction h with
  | @outside L o s d h1 =>
    intro n hn
    simp only [nodes, List.mem_singleton] at hn
    subst hn
    exact List.nil_sublist _
  | @stop L o s d h1 h2 =>
    intro n hn
    simp only [nodes, List.mem_singleton] at hn
    subst hn
    exact List.Sublist.refl _
  | @split L o s d a b c e h1 h2 h3 hA hB hC hE ihA ihB ihC ihE =>
    intro n hn
    have hsub : ∀ (og : rz_point_2d) (sz : ℚ),
        List.Sublist ((intersect_objects_with_cell L og sz).map copy) (L.map copy) := by
      intro og sz
      simp only [intersect_objects_with_cell]
      rw [map_copy_map_copy]
      exact List.Sublist.map _ (List.filter_sublist _)
    simp only [nodes, List.mem_cons, List.mem_append] at hn
    rcases hn with hn | ((hn | hn) | hn) | hn
    · subst hn
      exact List.Sublist.refl _
    · exact (ihA n hn).trans (hsub _ _)
    · exact (ihB n hn).trans (hsub _ _)
    · exact (ihC n hn).trans (hsub _ _)
    · exact (ihE n hn).trans (hsub _ _)

/-! ## C23, C25: stored `rz_aabb` objects -/

theorem unit_box_tree :
    rz_quadtree.new_default [(⟨⟨0, 0⟩, ⟨1, 1⟩⟩ : rz_aabb)] =
      .ok ⟨⟨0, 0⟩, ⟨1, 1⟩, 1, some (bare [⟨⟨0, 0⟩, ⟨0, 0⟩⟩] true ⟨0, 0⟩ 1), 10, 12⟩ := by
  have hmm : get_min_max [(⟨⟨0, 0⟩, ⟨1, 1⟩⟩ : rz_aabb)] = (⟨0, 0⟩, ⟨1, 1⟩) := by
    simp only [get_min_max, get_min_max_step, List.foldl, min_2d, max_2d, min_2d_aabb,
      max_2d_aabb, MAXF, MINF]
    norm_num
  have hsz : root_size ⟨0, 0⟩ ⟨1, 1⟩ = 1 := by
    simp only [root_size]
    norm_num
  have hi : intersect_2d_aabb_aabb (cell_box ⟨0, 0⟩ 1) ⟨⟨0, 0⟩, ⟨1, 1⟩⟩ = true := by
    simp only [intersect_2d_aabb_aabb, cell_box, rz_aabb.op_eq, rz_point_2d.op_eq,
      rz_aabb.width, rz_aabb.height, EPS]
    norm_num
  have hB : BuildsTo (⟨0, 0⟩ : rz_point_2d) ⟨1, 1⟩ 10 12 [(⟨⟨0, 0⟩, ⟨1, 1⟩⟩ : rz_aabb)]
      ⟨0, 0⟩ 1 0 (bare [⟨⟨0, 0⟩, ⟨0, 0⟩⟩] true ⟨0, 0⟩ 1) :=
    BuildsTo.stop_of_eq hi (Or.inl (by simp)) rfl
  exact rz_quadtree_new_eq_of_builds _ 10 12 _ _ _ _ hmm hsz hB

/-- C23, the code at the failing input: the copy of the box [0,1]x[0,1] made by the copy
constructor of `rz_aabb` is the box from (0,0) to (0,0), whose `max` is not the `max` of
the original; the tree built from that box stores the box from (0,0) to (0,0) in its root,
and the point query at (1/2, 1/2) returns it. -/
theorem C23_aabb_copy_evaluation :
    rz_aabb.copy ⟨⟨0, 0⟩, ⟨1, 1⟩⟩ = ⟨⟨0, 0⟩, ⟨0, 0⟩⟩ ∧
    (rz_aabb.copy ⟨⟨0, 0⟩, ⟨1, 1⟩⟩).max ≠ (⟨⟨0, 0⟩, ⟨1, 1⟩⟩ : rz_aabb).max ∧
    ∃ (t : rz_quadtree rz_aabb) (r : rz_quadtree_node rz_aabb),
      rz_quadtree.new_default [(⟨⟨0, 0⟩, ⟨1, 1⟩⟩ : rz_aabb)] = .ok t ∧ t.root_ = some r ∧
      r.objects_list = [⟨⟨0, 0⟩, ⟨0, 0⟩⟩] ∧
      get_objects_from_point t ⟨1 / 2, 1 / 2⟩ [] = .ok [⟨⟨0, 0⟩, ⟨0, 0⟩⟩] := by
  refine ⟨rfl, ?_, _, _, unit_box_tree, rfl, rfl, ?_⟩
  · simp only [rz_aabb.copy, ne_eq, rz_point_2d.mk.injEq]
    norm_num
  · simp only [get_objects_from_point]
    rw [intersect_tree_with_point]
    simp only [intersect_2d_aabb_point, cell, get_dimentions]
    norm_num
    rfl

/-- C25, the code at the failing input: the tree built with the default thresholds from the
single `rz_aabb` box [0,1]x[0,1] stores the box from (0,0) to (0,0) in its root, and that
list is not a sublist of the input list. -/
theorem C25_aabb_root_list_evaluation :
    ∃ (t : rz_quadtree rz_aabb) (r : rz_quadtree_node rz_aabb),
      rz_quadtree.new_default [(⟨⟨0, 0⟩, ⟨1, 1⟩⟩ : rz_aabb)] = .ok t ∧ t.root_ = some r ∧
      r.objects_list = [⟨⟨0, 0⟩, ⟨0, 0⟩⟩] ∧
      ¬ List.Sublist r.objects_list [(⟨⟨0, 0⟩, ⟨1, 1⟩⟩ : rz_aabb)] := by
  refine ⟨_, _, unit_box_tree, rfl, rfl, ?_⟩
  simp only [objects_list, List.singleton_sublist, List.mem_singleton, rz_aabb.mk.injEq,
    rz_point_2d.mk.injEq]
  norm_num

/-! ## C26: the box-against-box test at touching boxes -/

theorem nodes_with_input_nodes (r : rz_quadtree_node T) :
    ∀ (k : Nat) (incoming : List T),
      (nodes_with_input r k incoming).map (fun x => (x.1, x.2.1)) = nodes_with_depth r k := by
  induction r with
  | bare l f o s =>
    intro k incoming
    rfl
  | branch l f o s a b c d iha ihb ihc ihd =>
    intro k incoming
    simp only [nodes_with_input, nodes_with_depth, List.map_cons, List.map_append, iha, ihb,
      ihc, ihd]

/-- Every node of a built subtree is what the build rules give for the node's own cell, its
depth and the list it received. -/
theorem nodes_built_from_input {min_ max_ : rz_point_2d} {ot dt : Nat} {L : List T}
    {o : rz_point_2d} {s : ℚ} {d : Nat} {r : rz_quadtree_node T}
    (h : BuildsTo min_ max_ ot dt L o s d r) :
    ∀ x ∈ nodes_with_input r d L,
      BuildsTo min_ max_ ot dt x.2.2 x.1.get_dimentions.1 x.1.get_dimentions.2 x.2.1 x.1 := by
  induction h with
  | @outside L o s d h1 =>
    intro x hx
    simp only [nodes_with_input, List.mem_singleton] at hx
    subst hx
    exact BuildsTo.outside h1
  | @stop L o s d h1 h2 =>
    intro x hx
    simp only [nodes_with_input, List.mem_singleton] at hx
    subst hx
    exact BuildsTo.stop h1 h2
  | @split L o s d a b c e h1 h2 h3 hA hB hC hE ihA ihB ihC ihE =>
    intro x hx
    simp only [nodes_with_input, List.mem_cons, List.mem_append, hA.dims, hB.dims, hC.dims,
      hE.dims] at hx
    rcases hx with hx | ((hx | hx) | hx) | hx
    · subst hx
      exact BuildsTo.split h1 h2 h3 hA hB hC hE
    · exact ihA x hx
    · exact ihB x hx
    · exact ihC x hx
    · exact ihE x hx

/-! ## The queries as transitions of the tree -/

/-- The traversal of the point query leaves every node as it found it, and its vector is
the one `intersect_tree_with_point` computes. -/
theorem intersect_tree_with_point_st_eq (mn mx pt : rz_point_2d) (r : rz_quadtree_node T) :
    ∀ objs, intersect_tree_with_point_st mn mx pt objs r =
      match intersect_tree_with_point mn mx pt objs r with
      | .error e => .error e
      | .ok res => .ok (r, res) := by
  induction r with
  | bare l f o s =>
    intro objs
    rw [intersect_tree_with_point_st, intersect_tree_with_point]
    split_ifs <;> rfl
  | branch l f o s a b c d iha ihb ihc ihd =>
    intro objs
    rw [intersect_tree_with_point_st, intersect_tree_with_point]
    split_ifs
    · rfl
    · rfl
    · rw [iha]
      cases intersect_tree_with_point mn mx pt objs a <;> rfl
    · rw [ihb]
      cases intersect_tree_with_point mn mx pt objs b <;> rfl
    · rw [ihc]
      cases intersect_tree_with_point mn mx pt objs c <;> rfl
    · rw [ihd]
      cases intersect_tree_with_point mn mx pt objs d <;> rfl
    · rfl
    · rfl

/-- The traversal of the region query leaves every node as it found it, and its vector is
the one `intersect_tree_with_aabb` computes. -/
theorem intersect_tree_with_aabb_st_eq (mn mx : rz_point_2d) (q : rz_aabb)
    (r : rz_quadtree_node T) :
    ∀ objs, intersect_tree_with_aabb_st mn mx q objs r =
      match intersect_tree_with_aabb mn mx q objs r with
      | .error e => .error e
      | .ok res => .ok (r, res) := by
  induction r with
  | bare l f o s =>
    intro objs
    rw [intersect_tree_with_aabb_st, intersect_tree_with_aabb]
    split_ifs <;> rfl
  | branch l f o s a b c d iha ihb ihc ihd =>
    intro objs
    have step : ∀ (ch : rz_quadtree_node T)
        (ih : ∀ objs, intersect_tree_with_aabb_st mn mx q objs ch =
          match intersect_tree_with_aabb mn mx q objs ch with
          | .error e => .error e
          | .ok res => .ok (ch, res)) (objs : List T),
        (if intersect_2d_aabb_aabb ch.cell q then
            intersect_tree_with_aabb_st mn mx q objs ch else .ok (ch, objs)) =
          match (if intersect_2d_aabb_aabb ch.cell q then
            intersect_tree_with_aabb mn mx q objs ch else .ok objs) with
          | .error e => .error e
          | .ok res => .ok (ch, res) := by
      intro ch ih objs
      split_ifs
      · exact ih objs
      · rfl
    rw [intersect_tree_with_aabb_st, intersect_tree_with_aabb]
    by_cases h1 : intersect_2d_aabb_aabb ⟨mn, mx⟩ q = false
    · rw [if_pos h1, if_pos h1]
    · rw [if_neg h1, if_neg h1]
      by_cases h2 : intersect_2d_aabb_aabb (branch l f o s a b c d).cell q = true
      · rw [if_pos h2, if_pos h2]
        cases f with
        | true => rfl
        | false =>
          simp only [Bool.false_eq_true, if_false, step a iha, step b ihb, step c ihc,
            step d ihd]
          cases (if intersect_2d_aabb_aabb a.cell q then
              intersect_tree_with_aabb mn mx q objs a else .ok objs) with
          | error e => rfl
          | ok o1 =>
            dsimp only
            cases (if intersect_2d_aabb_aabb b.cell q then
                intersect_tree_with_aabb mn mx q o1 b else .ok o1) with
            | error e => rfl
            | ok o2 =>
              dsimp only
              cases (if intersect_2d_aabb_aabb c.cell q then
                  intersect_tree_with_aabb mn mx q o2 c else .ok o2) with
              | error e => rfl
              | ok o3 =>
                dsimp only
                cases (if intersect_2d_aabb_aabb d.cell q then
                    intersect_tree_with_aabb mn mx q o3 d else .ok o3) with
                | error e => rfl
                | ok o4 => rfl
      · rw [if_neg h2, if_neg h2]

/-! ## The region query outside the data box -/

theorem aabb_query_outside (mn mx : rz_point_2d) (q : rz_aabb)
    (hD : intersect_2d_aabb_aabb ⟨mn, mx⟩ q = false) (objs : List T)
    (r : rz_quadtree_node T) : intersect_tree_with_aabb mn mx q objs r = .ok objs := by
  cases r <;> simp [intersect_tree_with_aabb, hD]

/-! ## The point query and the search over all downward paths -/

theorem point_leaf_of_path_cons (pt : rz_point_2d) (n : rz_quadtree_node T)
    (p : List (rz_quadtree_node T)) (hp : p ≠ []) :
    point_leaf_of_path pt (n :: p) =
      if intersect_2d_aabb_point n.cell pt then point_leaf_of_path pt p else none := by
  obtain ⟨x, xs, rfl⟩ := List.exists_cons_of_ne_nil hp
  unfold point_leaf_of_path
  rw [List.getLast?_cons_cons]
  cases hlast : (x :: xs).getLast? with
  | none => simp
  | some m =>
    simp only [List.all_cons]
    by_cases hn : intersect_2d_aabb_point n.cell pt = true
    · simp [hn]
    · simp [hn]

theorem point_leaves_bare (pt : rz_point_2d) (l : List T) (o : rz_point_2d) (s : ℚ) :
    point_leaves pt (bare l true o s) =
      if intersect_2d_aabb_point (cell_box o s) pt then [bare l true o s] else [] := by
  simp only [point_leaves, paths, List.filterMap_cons, List.filterMap_nil,
    point_leaf_of_path, List.getLast?_singleton, List.all_cons, List.all_nil, Bool.and_true,
    is_leaf, cell_bare, Bool.true_and]
  split <;> simp_all

theorem point_leaves_branch (pt : rz_point_2d) (l : List T) (o : rz_point_2d) (s : ℚ)
    (a b c d : rz_quadtree_node T) :
    point_leaves pt (branch l false o s a b c d) =
      if intersect_2d_aabb_point (cell_box o s) pt then
        point_leaves pt a ++ point_leaves pt b ++ point_leaves pt c ++ point_leaves pt d
      else [] := by
  have hroot : point_leaf_of_path pt [branch l false o s a b c d] = none := by
    simp [point_leaf_of_path, is_leaf]
  have hsub : ∀ x : rz_quadtree_node T,
      (paths x).filterMap (fun p => point_leaf_of_path pt (branch l false o s a b c d :: p)) =
        if intersect_2d_aabb_point (cell_box o s) pt then point_leaves pt x else [] := by
    intro x
    have hcongr : ∀ p ∈ paths x,
        point_leaf_of_path pt (branch l false o s a b c d :: p) =
          if intersect_2d_aabb_point (cell_box o s) pt then point_leaf_of_path pt p
          else none := by
      intro p hp
      obtain ⟨rest, hrest⟩ := paths_head x p hp
      rw [point_leaf_of_path_cons pt _ p (by rw [hrest]; exact List.cons_ne_nil _ _),
        cell_branch]
    rw [List.filterMap_congr hcongr]
    by_cases hit : intersect_2d_aabb_point (cell_box o s) pt = true
    · simp only [hit, if_true]
      rfl
    · simp only [hit]
      simp
  unfold point_leaves
  simp only [paths, List.filterMap_cons, hroot, List.filterMap_map, List.filterMap_append,
    Function.comp_def, hsub]
  by_cases hit : intersect_2d_aabb_point (cell_box o s) pt = true
  · simp only [hit, if_true]
    rfl
  · simp [hit]

/-- In a well-shaped tree the leaves found along the downward paths are the leaves whose
cell contains the point, when the root cell contains it, and none otherwise. -/
theorem point_leaves_eq (pt : rz_point_2d) (r : rz_quadtree_node T) (hr : WellShaped r) :
    point_leaves pt r =
      if intersect_2d_aabb_point r.cell pt then leaves_containing r pt else [] := by
  induction hr with
  | leaf l o s hl hs =>
    rw [point_leaves_bare, cell_bare, leaves_containing_bare]
    split_ifs <;> rfl
  | inner l o s a b c d hl hs ha hb hc hd wa wb wc wd iha ihb ihc ihd =>
    rw [point_leaves_branch, cell_branch, leaves_containing_branch, iha, ihb, ihc, ihd]
    have hz : ∀ (ch : rz_quadtree_node T), WellShaped ch →
        (if intersect_2d_aabb_point ch.cell pt then leaves_containing ch pt else []) =
          leaves_containing ch pt := by
      intro ch hw
      by_cases hit : intersect_2d_aabb_point ch.cell pt = true
      · rw [if_pos hit]
      · rw [if_neg hit, (leaves_containing_wellShaped pt ch hw).1 (by simpa using hit)]
    rw [hz a wa, hz b wb, hz c wc, hz d wd]

theorem point_leaves_length_le (pt : rz_point_2d) (r : rz_quadtree_node T)
    (hr : WellShaped r) : (point_leaves pt r).length ≤ 1 := by
  rw [point_leaves_eq pt r hr]
  cases hc : intersect_2d_aabb_point r.cell pt with
  | false => simp
  | true =>
    obtain ⟨l, hl⟩ := (leaves_containing_wellShaped pt r hr).2 hc
    simp [hl]

theorem point_query_eq (mn mx pt : rz_point_2d)
    (hD : intersect_2d_aabb_point ⟨mn, mx⟩ pt = true) (r : rz_quadtree_node T)
    (hr : WellShaped r) :
    intersect_tree_with_point mn mx pt [] r = .ok (path_leaf_search r pt) := by
  have h := point_query_wellShaped mn mx pt hD r hr
  unfold path_leaf_search
  rw [point_leaves_eq pt r hr]
  cases hc : intersect_2d_aabb_point r.cell pt with
  | false =>
    rw [(h.1 hc).2 []]
    rfl
  | true =>
    obtain ⟨l, hl, hq⟩ := h.2 hc
    rw [hq [], if_pos rfl, hl]

/-! ## The leaf that a path contributes to a region query -/

theorem region_leaf_of_path_some (q : rz_aabb) (p : List (rz_quadtree_node T))
    (leaf : rz_quadtree_node T) :
    region_leaf_of_path q p = some leaf ↔
      p.getLast? = some leaf ∧ leaf.is_leaf = true ∧
        ∀ n ∈ p, intersect_2d_aabb_aabb n.cell q = true := by
  unfold region_leaf_of_path
  cases hlast : p.getLast? with
  | none => simp
  | some m =>
    simp only [Option.some.injEq]
    constructor
    · intro h
      split_ifs at h with hc
      simp only [Option.some.injEq] at h
      subst h
      simp only [Bool.and_eq_true, List.all_eq_true] at hc
      exact ⟨rfl, hc.1, hc.2⟩
    · rintro ⟨rfl, hleaf, hall⟩
      rw [if_pos]
      simp only [Bool.and_eq_true, List.all_eq_true]
      exact ⟨hleaf, hall⟩

/-! ## C26: symmetry, equality within EPS, boxes of zero extent -/

theorem vector_insert_end_fixed (objects : o_vector T) (range : List T)
    (hfix : objects.elems.map copy = objects.elems) :
    (vector_insert_end objects range).elems = objects.elems ++ range.map copy ∧
    (vector_insert_end objects range).elems.map copy =
      (vector_insert_end objects range).elems := by
  unfold vector_insert_end
  split_ifs with h1 h2
  · have : range = [] := List.length_eq_zero.1 h1
    subst this
    simp [hfix]
  · simp [hfix, copy_idem]
  · simp [hfix, copy_idem]

/-- For a caller's vector whose elements are unchanged by copying (an empty vector, or any
vector of a type with a faithful copy constructor), the region query with reallocation
yields the elements that `intersect_tree_with_aabb` computes, whatever the capacity. -/
theorem intersect_tree_with_aabb_vec_eq (mn mx : rz_point_2d) (q : rz_aabb)
    (r : rz_quadtree_node T) :
    ∀ objects : o_vector T, objects.elems.map copy = objects.elems →
      (∀ e, intersect_tree_with_aabb_vec mn mx q objects r = .error e →
        intersect_tree_with_aabb mn mx q objects.elems r = .error e) ∧
      (∀ v, intersect_tree_with_aabb_vec mn mx q objects r = .ok v →
        intersect_tree_with_aabb mn mx q objects.elems r = .ok v.elems ∧
          v.elems.map copy = v.elems) := by
  induction r with
  | bare l f o s =>
    intro objects hfix
    rw [intersect_tree_with_aabb_vec, intersect_tree_with_aabb]
    obtain ⟨k1, k2⟩ := vector_insert_end_fixed objects l hfix
    split_ifs
    · exact ⟨fun e h => (by cases h), fun v h => (by cases h; exact ⟨rfl, hfix⟩)⟩
    · exact ⟨fun e h => (by cases h), fun v h => (by cases h; exact ⟨by rw [k1], k2⟩)⟩
    · exact ⟨fun e h => (by cases h; rfl), fun v h => (by cases h)⟩
    · exact ⟨fun e h => (by cases h), fun v h => (by cases h; exact ⟨rfl, hfix⟩)⟩
  | branch l f o s a b c d iha ihb ihc ihd =>
    intro objects hfix
    have step : ∀ (ch : rz_quadtree_node T)
        (ih : ∀ objects : o_vector T, objects.elems.map copy = objects.elems →
          (∀ e, intersect_tree_with_aabb_vec mn mx q objects ch = .error e →
            intersect_tree_with_aabb mn mx q objects.elems ch = .error e) ∧
          (∀ v, intersect_tree_with_aabb_vec mn mx q objects ch = .ok v →
            intersect_tree_with_aabb mn mx q objects.elems ch = .ok v.elems ∧
              v.elems.map copy = v.elems))
        (objects : o_vector T), objects.elems.map copy = objects.elems →
        (∀ e, (if intersect_2d_aabb_aabb ch.cell q then
            intersect_tree_with_aabb_vec mn mx q objects ch else .ok objects) = .error e →
          (if intersect_2d_aabb_aabb ch.cell q then
            intersect_tree_with_aabb mn mx q objects.elems ch else .ok objects.elems) =
              .error e) ∧
        (∀ v, (if intersect_2d_aabb_aabb ch.cell q then
            intersect_tree_with_aabb_vec mn mx q objects ch else .ok objects) = .ok v →
          (if intersect_2d_aabb_aabb ch.cell q then
            intersect_tree_with_aabb mn mx q objects.elems ch else .ok objects.elems) =
              .ok v.elems ∧ v.elems.map copy = v.elems) := by
      intro ch ih objects hfix
      split_ifs
      · exact ih objects hfix
      · exact ⟨fun e h => (by cases h), fun v h => (by cases h; exact ⟨rfl, hfix⟩)⟩
    rw [intersect_tree_with_aabb_vec, intersect_tree_with_aabb]
    obtain ⟨k1, k2⟩ := vector_insert_end_fixed objects l hfix
    by_cases h1 : intersect_2d_aabb_aabb ⟨mn, mx⟩ q = false
    · rw [if_pos h1, if_pos h1]
      exact ⟨fun e h => (by cases h), fun v h => (by cases h; exact ⟨rfl, hfix⟩)⟩
    · rw [if_neg h1, if_neg h1]
      by_cases h2 : intersect_2d_aabb_aabb (branch l f o s a b c d).cell q = true
      · rw [if_pos h2, if_pos h2]
        cases f with
        | true =>
          simp only [if_true]
          exact ⟨fun e h => (by cases h), fun v h => (by cases h; exact ⟨by rw [k1], k2⟩)⟩
        | false =>
          simp only [Bool.false_eq_true, if_false]
          obtain ⟨sa1, sa2⟩ := step a iha objects hfix
          cases ha : (if intersect_2d_aabb_aabb a.cell q then
              intersect_tree_with_aabb_vec mn mx q objects a else .ok objects) with
          | error e =>
            rw [sa1 e ha]
            exact ⟨fun e1 h => (by cases h; rfl), fun v h => (by cases h)⟩
          | ok v1 =>
            obtain ⟨ea, fa⟩ := sa2 v1 ha
            rw [ea]
            dsimp only
            obtain ⟨sb1, sb2⟩ := step b ihb v1 fa
            cases hb : (if intersect_2d_aabb_aabb b.cell q then
                intersect_tree_with_aabb_vec mn mx q v1 b else .ok v1) with
            | error e =>
              rw [sb1 e hb]
              exact ⟨fun e1 h => (by cases h; rfl), fun v h => (by cases h)⟩
            | ok v2 =>
              obtain ⟨eb, fb⟩ := sb2 v2 hb
              rw [eb]
              dsimp only
              obtain ⟨sc1, sc2⟩ := step c ihc v2 fb
              cases hc : (if intersect_2d_aabb_aabb c.cell q then
                  intersect_tree_with_aabb_vec mn mx q v2 c else .ok v2) with
              | error e =>
                rw [sc1 e hc]
                exact ⟨fun e1 h => (by cases h; rfl), fun v h => (by cases h)⟩
              | ok v3 =>
                obtain ⟨ec, fc⟩ := sc2 v3 hc
                rw [ec]
                dsimp only
                exact step d ihd v3 fc
      · rw [if_neg h2, if_neg h2]
        exact ⟨fun e h => (by cases h), fun v h => (by cases h; exact ⟨rfl, hfix⟩)⟩

/-- C22, the code at the failing input: the tree built from the single `rz_aabb` box
[0,1]x[0,1]; the caller's vector holds the box from (5,5) to (6,7) and has capacity 1;
`get_objects_from_aabb` with the query box [0,1]x[0,1] appends the root's stored box, the
vector reallocates, and the element that was in the vector before the call is now the box
from (5,5) to (5,5): the prior content is not a prefix of the result. -/
theorem C22_aabb_prior_content_evaluation :
    ∃ t : rz_quadtree rz_aabb,
      rz_quadtree.new_default [(⟨⟨0, 0⟩, ⟨1, 1⟩⟩ : rz_aabb)] = .ok t ∧
      get_objects_from_aabb_vec t ⟨⟨0, 0⟩, ⟨1, 1⟩⟩ ⟨[⟨⟨5, 5⟩, ⟨6, 7⟩⟩], 1⟩ =
        .ok ⟨[⟨⟨5, 5⟩, ⟨5, 5⟩⟩, ⟨⟨0, 0⟩, ⟨0, 0⟩⟩], 2⟩ ∧
      ¬ List.IsPrefix [(⟨⟨5, 5⟩, ⟨6, 7⟩⟩ : rz_aabb)]
        [⟨⟨5, 5⟩, ⟨5, 5⟩⟩, ⟨⟨0, 0⟩, ⟨0, 0⟩⟩] := by
  refine ⟨_, unit_box_tree, ?_, ?_⟩
  · have hq : intersect_2d_aabb_aabb ⟨⟨0, 0⟩, ⟨1, 1⟩⟩ ⟨⟨0, 0⟩, ⟨1, 1⟩⟩ = true := by
      simp only [intersect_2d_aabb_aabb, rz_aabb.op_eq, rz_point_2d.op_eq, EPS]
      norm_num
    have hc : intersect_2d_aabb_aabb
        (bare [(⟨⟨0, 0⟩, ⟨0, 0⟩⟩ : rz_aabb)] true ⟨0, 0⟩ 1).cell ⟨⟨0, 0⟩, ⟨1, 1⟩⟩ = true := by
      simp only [intersect_2d_aabb_aabb, cell, get_dimentions, rz_aabb.op_eq,
        rz_point_2d.op_eq, EPS]
      norm_num
    simp only [get_objects_from_aabb_vec]
    rw [intersect_tree_with_aabb_vec]
    simp only [hq, hc]
    rfl
  · simp only [List.prefix_cons_inj, List.cons_prefix_cons, rz_aabb.mk.injEq,
      rz_point_2d.mk.injEq]
    norm_num

/-! ## Double arithmetic: rounding and the construction -/

theorem fl_zero : fl 0 = 0 := by
  unfold fl
  rw [if_pos rfl]

/-- Rounding a scaled value to the nearest integer, ties to even. -/
theorem round_half_even (x : ℚ) (m : ℤ)
    (hm : |x - m| < 1 / 2 ∨ (|x - m| = 1 / 2 ∧ m % 2 = 0)) :
    (if x - (⌊x⌋ : ℤ) < 1 / 2 then ((⌊x⌋ : ℤ) : ℚ)
      else if 1 / 2 < x - (⌊x⌋ : ℤ) then ((⌊x⌋ : ℤ) : ℚ) + 1
      else if ⌊x⌋ % 2 = 0 then ((⌊x⌋ : ℤ) : ℚ) else ((⌊x⌋ : ℤ) : ℚ) + 1) = (m : ℚ) := by
  rcases hm with hm | ⟨hm, heven⟩
  · rw [abs_lt] at hm
    obtain ⟨h1, h2⟩ := hm
    by_cases hle : (m : ℚ) ≤ x
    · have hf : ⌊x⌋ = m := by
        rw [Int.floor_eq_iff]
        exact ⟨hle, by linarith⟩
      rw [hf, if_pos (by linarith)]
    · have hf : ⌊x⌋ = m - 1 := by
        rw [Int.floor_eq_iff]
        push_cast
        exact ⟨by linarith, by linarith [not_le.1 hle]⟩
      rw [hf]
      push_cast
      rw [if_neg (by linarith), if_pos (by linarith)]
      ring
  · by_cases hle : (m : ℚ) ≤ x
    · have hx : x - m = 1 / 2 := by
        rw [abs_of_nonneg (by linarith)] at hm
        exact hm
      have hf : ⌊x⌋ = m := by
        rw [Int.floor_eq_iff]
        exact ⟨hle, by linarith⟩
      rw [hf, if_neg (by linarith), if_neg (by linarith), if_pos heven]
    · have hx : x - m = -(1 / 2) := by
        rw [abs_of_neg (by linarith [not_le.1 hle])] at hm
        linarith
      have hf : ⌊x⌋ = m - 1 := by
        rw [Int.floor_eq_iff]
        push_cast
        exact ⟨by linarith, by linarith⟩
      rw [hf]
      push_cast
      have hodd : ¬ (m - 1) % 2 = 0 := by omega
      rw [if_neg (by linarith), if_neg (by linarith), if_neg hodd]
      ring

/-- The value of a rounding: for `q` in the binade `2^52 * 2^e ≤ |q| < 2^53 * 2^e`, with
`e ≥ -1074`, the result is `m * 2^e` for the integer `m` nearest to `q / 2^e` (the even one
at a tie). -/
theorem fl_eq (q : ℚ) (m e : ℤ) (hlo : (2 : ℚ) ^ (52 + e) ≤ |q|)
    (hhi : |q| < (2 : ℚ) ^ (53 + e)) (he : -1074 ≤ e)
    (hm : |q / 2 ^ e - m| < 1 / 2 ∨ (|q / 2 ^ e - m| = 1 / 2 ∧ m % 2 = 0)) :
    fl q = m * 2 ^ e := by
  have hpos : (0 : ℚ) < |q| := lt_of_lt_of_le (by positivity) hlo
  have hq : q ≠ 0 := abs_pos.1 hpos
  have hlog : Int.log 2 |q| = 52 + e := by
    apply le_antisymm
    · have := (Int.lt_zpow_iff_log_lt (b := 2) (by norm_num) hpos (x := 53 + e)).1
        (by exact_mod_cast hhi)
      omega
    · exact (Int.zpow_le_iff_le_log (b := 2) (by norm_num) hpos).1 (by exact_mod_cast hlo)
  unfold fl
  rw [if_neg hq]
  simp only [hlog]
  have he2 : max (52 + e - 52) (-1074) = e := by
    rw [max_eq_left (by omega)]
    omega
  rw [he2]
  rw [round_half_even (q / 2 ^ e) m hm]

/-- The decimal coordinates used at the failing inputs below are doubles: 0.5, and the
doubles nearest to 0.2, 0.9 and 1.2. -/
theorem decimal_doubles :
    fl (1 / 2) = 1 / 2 ∧
    fl (3602879701896397 / 18014398509481984) = 3602879701896397 / 18014398509481984 ∧
    fl (8106479329266893 / 9007199254740992) = 8106479329266893 / 9007199254740992 ∧
    fl (5404319552844595 / 4503599627370496) = 5404319552844595 / 4503599627370496 := by
  refine ⟨?_, ?_, ?_, ?_⟩
  · rw [fl_eq _ 4503599627370496 (-53) (by norm_num [abs_div]) (by norm_num [abs_div])
      (by norm_num) (Or.inl (by norm_num [abs_div]))]
    norm_num
  · rw [fl_eq _ 7205759403792794 (-55) (by norm_num [abs_div]) (by norm_num [abs_div])
      (by norm_num) (Or.inl (by norm_num [abs_div]))]
    norm_num
  · rw [fl_eq _ 8106479329266893 (-53) (by norm_num [abs_div]) (by norm_num [abs_div])
      (by norm_num) (Or.inl (by norm_num [abs_div]))]
    norm_num
  · rw [fl_eq _ 5404319552844595 (-52) (by norm_num [abs_div]) (by norm_num [abs_div])
      (by norm_num) (Or.inl (by norm_num [abs_div]))]
    norm_num

theorem build_sub_tree_fuel_d_builds (hit : rz_aabb → T → Bool) (min_ max_ : rz_point_2d)
    (ot dt : Nat) :
    ∀ (n : Nat) (L : List T) (o : rz_point_2d) (s : ℚ) (d : Nat), dt - d < n →
      ∃ r, build_sub_tree_fuel_d hit min_ max_ ot dt n (some (bare [] false o s)) L o s d =
          .ok r ∧
        BuildsTo_d hit min_ max_ ot dt L o s d r := by
  intro n
  induction n with
  | zero => intro L o s d hn; omega
  | succ n ih =>
    intro L o s d hn
    rw [build_sub_tree_fuel_d]
    by_cases h1 : intersect_2d_aabb_aabb_d (cell_box_d o s) ⟨min_, max_⟩ = false
    · refine ⟨bare [] true o s, ?_, BuildsTo_d.outside h1⟩
      simp only [cell_box_d] at h1
      simp [h1, set_leaf]
    · have h1t : intersect_2d_aabb_aabb_d (cell_box_d o s) ⟨min_, max_⟩ = true := by
        simpa using h1
      by_cases h2 : L.length ≤ ot
      · refine ⟨bare (L.map copy) true o s, ?_, BuildsTo_d.stop h1t (Or.inl h2)⟩
        simp only [cell_box_d] at h1t
        simp [h1t, set_leaf, set_objects_list, h2]
      · by_cases h3 : d ≥ dt
        · refine ⟨bare (L.map copy) true o s, ?_, BuildsTo_d.stop h1t (Or.inr h3)⟩
          simp only [cell_box_d] at h1t
          simp [h1t, set_leaf, set_objects_list, h3]
        · obtain ⟨a, ha, hA⟩ := ih
            (intersect_objects_with_cell_d hit L ⟨o.x, fl (o.y + fl (s / 2))⟩ (fl (s / 2)))
            ⟨o.x, fl (o.y + fl (s / 2))⟩ (fl (s / 2)) (d + 1) (by omega)
          obtain ⟨b, hb, hB⟩ := ih
            (intersect_objects_with_cell_d hit L
              ⟨fl (o.x + fl (s / 2)), fl (o.y + fl (s / 2))⟩ (fl (s / 2)))
            ⟨fl (o.x + fl (s / 2)), fl (o.y + fl (s / 2))⟩ (fl (s / 2)) (d + 1) (by omega)
          obtain ⟨c, hc, hC⟩ := ih
            (intersect_objects_with_cell_d hit L ⟨o.x, o.y⟩ (fl (s / 2)))
            ⟨o.x, o.y⟩ (fl (s / 2)) (d + 1) (by omega)
          obtain ⟨e, he, hE⟩ := ih
            (intersect_objects_with_cell_d hit L ⟨fl (o.x + fl (s / 2)), o.y⟩ (fl (s / 2)))
            ⟨fl (o.x + fl (s / 2)), o.y⟩ (fl (s / 2)) (d + 1) (by omega)
          refine ⟨branch (L.map copy) false o s a b c e, ?_,
            BuildsTo_d.split h1t (by omega) (by omega) hA hB hC hE⟩
          simp only [cell_box_d] at h1t
          simp [h1t, h2, h3, set_objects_list, create_children, child_a, child_b, child_c,
            child_d, new_node, set_dimentions, ha, hb, hc, he, set_children]

theorem build_sub_tree_d_builds (hit : rz_aabb → T → Bool) (min_ max_ : rz_point_2d)
    (ot dt : Nat) (L : List T) (o : rz_point_2d) (s : ℚ) (d : Nat) :
    ∃ r, build_sub_tree_d hit min_ max_ ot dt (some (bare [] false o s)) L o s d = .ok r ∧
      BuildsTo_d hit min_ max_ ot dt L o s d r :=
  build_sub_tree_fuel_d_builds hit min_ max_ ot dt (dt - d + 1) L o s d (by omega)

/-- The constructor in double arithmetic returns a tree: its bounds are those of
`get_min_max`, its root is the subtree built for the whole list at depth 0 on the square
`(min_, root_size_d)`. -/
theorem rz_quadtree_new_d_builds (hit : rz_aabb → T → Bool) (L : List T) (ot dt : Nat) :
    ∃ r, rz_quadtree.new_d hit L ot dt =
        .ok ⟨(get_min_max L).1, (get_min_max L).2,
          root_size_d (get_min_max L).1 (get_min_max L).2, some r, ot, dt⟩ ∧
      BuildsTo_d hit (get_min_max L).1 (get_min_max L).2 ot dt L (get_min_max L).1
        (root_size_d (get_min_max L).1 (get_min_max L).2) 0 r := by
  obtain ⟨r, hr, hB⟩ := build_sub_tree_d_builds hit (get_min_max L).1 (get_min_max L).2 ot dt
    L (get_min_max L).1 (root_size_d (get_min_max L).1 (get_min_max L).2) 0
  refine ⟨r, ?_, hB⟩
  unfold rz_quadtree.new_d build_tree_d
  simp only [new_node, set_dimentions, root_size_d] at hr ⊢
  all_goals simp only [hr]

theorem BuildsTo_d.dims_d {hit : rz_aabb → T → Bool} {min_ max_ : rz_point_2d} {ot dt : Nat}
    {L : List T} {o : rz_point_2d} {s : ℚ} {d : Nat} {r : rz_quadtree_node T}
    (h : BuildsTo_d hit min_ max_ ot dt L o s d r) : r.get_dimentions = (o, s) := by
  cases h <;> rfl

theorem cell_d_of_dims {n : rz_quadtree_node T} {o : rz_point_2d} {s : ℚ}
    (h : n.get_dimentions = (o, s)) : n.cell_d = cell_box_d o s := by
  unfold cell_d cell_box_d
  rw [h]

/-- The children of every node of a subtree built in double arithmetic that is not a leaf:
all four exist, with the edge length and the origins that `build_sub_tree` computes. -/
theorem BuildsTo_d.children {hit : rz_aabb → T → Bool} {min_ max_ : rz_point_2d}
    {ot dt : Nat} {L : List T} {o : rz_point_2d} {s : ℚ} {d : Nat} {r : rz_quadtree_node T}
    (h : BuildsTo_d hit min_ max_ ot dt L o s d r) :
    ∀ n ∈ nodes r, n.is_leaf = false →
      ∃ a b c e, n.child_a = some a ∧ n.child_b = some b ∧ n.child_c = some c ∧
        n.child_d = some e ∧
        a.get_dimentions = (⟨n.get_dimentions.1.x,
          fl (n.get_dimentions.1.y + fl (n.get_dimentions.2 / 2))⟩,
          fl (n.get_dimentions.2 / 2)) ∧
        b.get_dimentions = (⟨fl (n.get_dimentions.1.x + fl (n.get_dimentions.2 / 2)),
          fl (n.get_dimentions.1.y + fl (n.get_dimentions.2 / 2))⟩,
          fl (n.get_dimentions.2 / 2)) ∧
        c.get_dimentions = (⟨n.get_dimentions.1.x, n.get_dimentions.1.y⟩,
          fl (n.get_dimentions.2 / 2)) ∧
        e.get_dimentions = (⟨fl (n.get_dimentions.1.x + fl (n.get_dimentions.2 / 2)),
          n.get_dimentions.1.y⟩, fl (n.get_dimentions.2 / 2)) := by
  induction h with
  | outside _ =>
    intro n hn hleaf
    simp only [nodes, List.mem_singleton] at hn
    subst hn
    simp [is_leaf] at hleaf
  | stop _ _ =>
    intro n hn hleaf
    simp only [nodes, List.mem_singleton] at hn
    subst hn
    simp [is_leaf] at hleaf
  | split _ _ _ hA hB hC hE ihA ihB ihC ihE =>
    intro n hn hleaf
    simp only [nodes, List.mem_cons, List.mem_append] at hn
    rcases hn with hn | ((hn | hn) | hn) | hn
    · subst hn
      exact ⟨_, _, _, _, rfl, rfl, rfl, rfl, hA.dims_d, hB.dims_d, hC.dims_d, hE.dims_d⟩
    · exact ihA n hn hleaf
    · exact ihB n hn hleaf
    · exact ihC n hn hleaf
    · exact ihE n hn hleaf

/-- The edge length of every node of a subtree built in double arithmetic: at depth `k`
it is the edge length `s0` of the depth-0 square halved `k` times, each halving rounded. -/
theorem BuildsTo_d.sizes {hit : rz_aabb → T → Bool} {min_ max_ : rz_point_2d}
    {ot dt : Nat} {L : List T} {o : rz_point_2d} {s : ℚ} {d : Nat} {r : rz_quadtree_node T}
    (h : BuildsTo_d hit min_ max_ ot dt L o s d r) (s0 : ℚ)
    (hs : s = (fun x => fl (x / 2))^[d] s0) :
    ∀ nk ∈ nodes_with_depth r d, nk.1.get_dimentions.2 = (fun x => fl (x / 2))^[nk.2] s0 := by
  induction h with
  | outside _ =>
    intro nk hnk
    simp only [nodes_with_depth, List.mem_singleton] at hnk
    subst hnk
    exact hs
  | stop _ _ =>
    intro nk hnk
    simp only [nodes_with_depth, List.mem_singleton] at hnk
    subst hnk
    exact hs
  | @split L1 o1 s1 d1 a b c e _ _ _ hA hB hC hE ihA ihB ihC ihE =>
    have hs2 : fl (s1 / 2) = (fun x => fl (x / 2))^[d1 + 1] s0 := by
      rw [Function.iterate_succ_apply', ← hs]
    intro nk hnk
    simp only [nodes_with_depth, List.mem_cons, List.mem_append] at hnk
    rcases hnk with hnk | ((hnk | hnk) | hnk) | hnk
    · subst hnk
      exact hs
    · exact ihA hs2 nk hnk
    · exact ihB hs2 nk hnk
    · exact ihC hs2 nk hnk
    · exact ihE hs2 nk hnk

/-! ## C4: the cells of the four children in double arithmetic -/

/-- A subtree built in double arithmetic is split when its square passes the data-box test,
the list is longer than the object threshold and the depth is below the depth threshold. -/
theorem BuildsTo_d.split_inv {hit : rz_aabb → T → Bool} {min_ max_ : rz_point_2d}
    {ot dt : Nat} {L : List T} {o : rz_point_2d} {s : ℚ} {d : Nat} {r : rz_quadtree_node T}
    (h : BuildsTo_d hit min_ max_ ot dt L o s d r)
    (h1 : intersect_2d_aabb_aabb_d (cell_box_d o s) ⟨min_, max_⟩ = true)
    (h2 : ot < L.length) (h3 : d < dt) :
    ∃ a b c e, r = branch (L.map copy) false o s a b c e ∧
      a.get_dimentions = (⟨o.x, fl (o.y + fl (s / 2))⟩, fl (s / 2)) ∧
      b.get_dimentions = (⟨fl (o.x + fl (s / 2)), fl (o.y + fl (s / 2))⟩, fl (s / 2)) ∧
      c.get_dimentions = (⟨o.x, o.y⟩, fl (s / 2)) ∧
      e.get_dimentions = (⟨fl (o.x + fl (s / 2)), o.y⟩, fl (s / 2)) := by
  cases h with
  | outside h => rw [h1] at h; exact absurd h (by simp)
  | stop _ hor => omega
  | split _ _ _ hA hB hC hE => exact ⟨_, _, _, _, rfl, hA.dims_d, hB.dims_d, hC.dims_d, hE.dims_d⟩

/-- A square whose far corner is computed to be the far corner of the data box passes the
data-box test: the two boxes are equal. -/
theorem cell_box_d_eq_data (mn mx : rz_point_2d) (s : ℚ)
    (hx : fl (mn.x + s) = mx.x) (hy : fl (mn.y + s) = mx.y) :
    intersect_2d_aabb_aabb_d (cell_box_d mn s) ⟨mn, mx⟩ = true := by
  unfold intersect_2d_aabb_aabb_d
  rw [if_pos]
  simp only [rz_aabb.op_eq_d, rz_point_2d.op_eq_d, cell_box_d, hx, hy, sub_self, fl_zero,
    abs_zero, EPS_d]
  norm_num

theorem mem_cell_box_d_iff (o : rz_point_2d) (s : ℚ) (p : rz_point_2d) :
    intersect_2d_aabb_point (cell_box_d o s) p = true ↔
      o.x < p.x ∧ p.x ≤ fl (o.x + s) ∧ o.y < p.y ∧ p.y ≤ fl (o.y + s) := by
  unfold intersect_2d_aabb_point cell_box_d
  simp only [decide_eq_true_eq, gt_iff_lt]

/-- The four child cells in double arithmetic never overlap: for every point at most one of
them contains it, and exactly one does when the point lies in the rectangle from the
lower-left corner of C to the upper-right corner of B. -/
theorem child_cells_d (a b c e : rz_quadtree_node T) (o : rz_point_2d) (s : ℚ)
    (ha : a.get_dimentions = (⟨o.x, fl (o.y + fl (s / 2))⟩, fl (s / 2)))
    (hb : b.get_dimentions = (⟨fl (o.x + fl (s / 2)), fl (o.y + fl (s / 2))⟩, fl (s / 2)))
    (hc : c.get_dimentions = (⟨o.x, o.y⟩, fl (s / 2)))
    (he : e.get_dimentions = (⟨fl (o.x + fl (s / 2)), o.y⟩, fl (s / 2)))
    (p : rz_point_2d) :
    ([a, b, c, e].filter (fun ch => intersect_2d_aabb_point ch.cell_d p)).length ≤ 1 ∧
    (c.cell_d.min.x < p.x ∧ p.x ≤ b.cell_d.max.x ∧ c.cell_d.min.y < p.y ∧
        p.y ≤ b.cell_d.max.y →
      ([a, b, c, e].filter (fun ch => intersect_2d_aabb_point ch.cell_d p)).length = 1) := by
  have ia : intersect_2d_aabb_point a.cell_d p = true ↔
      o.x < p.x ∧ p.x ≤ fl (o.x + fl (s / 2)) ∧ fl (o.y + fl (s / 2)) < p.y ∧
        p.y ≤ fl (fl (o.y + fl (s / 2)) + fl (s / 2)) := by
    rw [cell_d_of_dims ha]; exact mem_cell_box_d_iff _ _ _
  have ib : intersect_2d_aabb_point b.cell_d p = true ↔
      fl (o.x + fl (s / 2)) < p.x ∧ p.x ≤ fl (fl (o.x + fl (s / 2)) + fl (s / 2)) ∧
        fl (o.y + fl (s / 2)) < p.y ∧ p.y ≤ fl (fl (o.y + fl (s / 2)) + fl (s / 2)) := by
    rw [cell_d_of_dims hb]; exact mem_cell_box_d_iff _ _ _
  have ic : intersect_2d_aabb_point c.cell_d p = true ↔
      o.x < p.x ∧ p.x ≤ fl (o.x + fl (s / 2)) ∧ o.y < p.y ∧
        p.y ≤ fl (o.y + fl (s / 2)) := by
    rw [cell_d_of_dims hc]; exact mem_cell_box_d_iff _ _ _
  have ie : intersect_2d_aabb_point e.cell_d p = true ↔
      fl (o.x + fl (s / 2)) < p.x ∧ p.x ≤ fl (fl (o.x + fl (s / 2)) + fl (s / 2)) ∧
        o.y < p.y ∧ p.y ≤ fl (o.y + fl (s / 2)) := by
    rw [cell_d_of_dims he]; exact mem_cell_box_d_iff _ _ _
  have hcm : c.cell_d.min = o := by rw [cell_d_of_dims hc]; rfl
  have hbx : b.cell_d.max.x = fl (fl (o.x + fl (s / 2)) + fl (s / 2)) := by
    rw [cell_d_of_dims hb]; rfl
  have hby : b.cell_d.max.y = fl (fl (o.y + fl (s / 2)) + fl (s / 2)) := by
    rw [cell_d_of_dims hb]; rfl
  rw [hcm, hbx, hby]
  generalize fl (o.x + fl (s / 2)) = mx at *
  generalize fl (o.y + fl (s / 2)) = my at *
  generalize fl (mx + fl (s / 2)) = tx at *
  generalize fl (my + fl (s / 2)) = ty at *
  by_cases hx : p.x ≤ mx <;> by_cases hy : p.y ≤ my
  · have fa : intersect_2d_aabb_point a.cell_d p = false :=
      Bool.eq_false_iff.2 (fun k => by linarith [(ia.1 k).2.2.1])
    have fb : intersect_2d_aabb_point b.cell_d p = false :=
      Bool.eq_false_iff.2 (fun k => by linarith [(ib.1 k).1])
    have fe : intersect_2d_aabb_point e.cell_d p = false :=
      Bool.eq_false_iff.2 (fun k => by linarith [(ie.1 k).1])
    refine ⟨?_, fun k => ?_⟩
    · cases hcc : intersect_2d_aabb_point c.cell_d p <;> simp [List.filter, fa, fb, fe, hcc]
    · have tc : intersect_2d_aabb_point c.cell_d p = true := ic.2 ⟨k.1, hx, k.2.2.1, hy⟩
      simp [List.filter, fa, fb, fe, tc]
  · have fb : intersect_2d_aabb_point b.cell_d p = false :=
      Bool.eq_false_iff.2 (fun k => by linarith [(ib.1 k).1])
    have fc : intersect_2d_aabb_point c.cell_d p = false :=
      Bool.eq_false_iff.2 (fun k => hy (ic.1 k).2.2.2)
    have fe : intersect_2d_aabb_point e.cell_d p = false :=
      Bool.eq_false_iff.2 (fun k => by linarith [(ie.1 k).1])
    refine ⟨?_, fun k => ?_⟩
    · cases hcc : intersect_2d_aabb_point a.cell_d p <;> simp [List.filter, fb, fc, fe, hcc]
    · have ta : intersect_2d_aabb_point a.cell_d p = true :=
        ia.2 ⟨k.1, hx, not_le.1 hy, k.2.2.2⟩
      simp [List.filter, fb, fc, fe, ta]
  · have fa : intersect_2d_aabb_point a.cell_d p = false :=
      Bool.eq_false_iff.2 (fun k => hx (ia.1 k).2.1)
    have fb : intersect_2d_aabb_point b.cell_d p = false :=
      Bool.eq_false_iff.2 (fun k => by linarith [(ib.1 k).2.2.1])
    have fc : intersect_2d_aabb_point c.cell_d p = false :=
      Bool.eq_false_iff.2 (fun k => hx (ic.1 k).2.1)
    refine ⟨?_, fun k => ?_⟩
    · cases hcc : intersect_2d_aabb_point e.cell_d p <;> simp [List.filter, fa, fb, fc, hcc]
    · have te : intersect_2d_aabb_point e.cell_d p = true :=
        ie.2 ⟨not_le.1 hx, k.2.1, k.2.2.1, hy⟩
      simp [List.filter, fa, fb, fc, te]
  · have fa : intersect_2d_aabb_point a.cell_d p = false :=
      Bool.eq_false_iff.2 (fun k => hx (ia.1 k).2.1)
    have fc : intersect_2d_aabb_point c.cell_d p = false :=
      Bool.eq_false_iff.2 (fun k => hx (ic.1 k).2.1)
    have fe : intersect_2d_aabb_point e.cell_d p = false :=
      Bool.eq_false_iff.2 (fun k => hy (ie.1 k).2.2.2)
    refine ⟨?_, fun k => ?_⟩
    · cases hcc : intersect_2d_aabb_point b.cell_d p <;> simp [List.filter, fa, fc, fe, hcc]
    · have tb : intersect_2d_aabb_point b.cell_d p = true :=
        ib.2 ⟨not_le.1 hx, k.2.1, not_le.1 hy, k.2.2.2⟩
      simp [List.filter, fa, fc, fe, tb]

/-- C4, the code in double arithmetic at a failing input: for the single segment
(0.5, 0.5)-(0.9, 0.9) with thresholds 0 and 1 the root is split; its cell contains the
point (0.9, 0.9), the upper-right corner of the data box, and none of the four child cells
contains it, because (0.5 + 0.2) + 0.2 is computed as 0.8999999999999999. The double 0.9 is
8106479329266893 / 2^53. -/
theorem C4_counterexample :
    ∃ (t : rz_quadtree rz_line) (r a b c d : rz_quadtree_node rz_line),
      rz_quadtree.new_d intersect_2d_aabb_line_d
        [(⟨⟨1 / 2, 1 / 2⟩, ⟨8106479329266893 / 9007199254740992,
          8106479329266893 / 9007199254740992⟩⟩ : rz_line)] 0 1 = .ok t ∧
      t.root_ = some r ∧ r.is_leaf = false ∧
      r.child_a = some a ∧ r.child_b = some b ∧ r.child_c = some c ∧ r.child_d = some d ∧
      intersect_2d_aabb_point ⟨t.min_, t.max_⟩
        ⟨8106479329266893 / 9007199254740992, 8106479329266893 / 9007199254740992⟩ = true ∧
      intersect_2d_aabb_point r.cell_d
        ⟨8106479329266893 / 9007199254740992, 8106479329266893 / 9007199254740992⟩ = true ∧
      [a, b, c, d].filter (fun ch => intersect_2d_aabb_point ch.cell_d
        ⟨8106479329266893 / 9007199254740992, 8106479329266893 / 9007199254740992⟩) = [] := by
  obtain ⟨r, hnew, hB⟩ := rz_quadtree_new_d_builds intersect_2d_aabb_line_d
    [(⟨⟨1 / 2, 1 / 2⟩, ⟨8106479329266893 / 9007199254740992,
      8106479329266893 / 9007199254740992⟩⟩ : rz_line)] 0 1
  have hmm : get_min_max [(⟨⟨1 / 2, 1 / 2⟩, ⟨8106479329266893 / 9007199254740992,
      8106479329266893 / 9007199254740992⟩⟩ : rz_line)] =
      (⟨1 / 2, 1 / 2⟩, ⟨8106479329266893 / 9007199254740992,
        8106479329266893 / 9007199254740992⟩) := by
    simp only [get_min_max, get_min_max_step, List.foldl, min_2d, max_2d, min_2d_line,
      max_2d_line, MAXF, MINF]
    norm_num
  have e1 : fl (8106479329266893 / 9007199254740992 - 1 / 2) =
      3602879701896397 / 9007199254740992 := by
    rw [fl_eq _ 7205759403792794 (-54) (by norm_num [abs_div]) (by norm_num [abs_div])
      (by norm_num) (Or.inl (by norm_num [abs_div]))]
    norm_num
  have e2 : fl (1 / 2 + 3602879701896397 / 9007199254740992) =
      8106479329266893 / 9007199254740992 := by
    rw [fl_eq _ 8106479329266893 (-53) (by norm_num [abs_div]) (by norm_num [abs_div])
      (by norm_num) (Or.inl (by norm_num [abs_div]))]
    norm_num
  have e3 : fl (3602879701896397 / 9007199254740992 / 2) =
      3602879701896397 / 18014398509481984 := by
    rw [fl_eq _ 7205759403792794 (-55) (by norm_num [abs_div]) (by norm_num [abs_div])
      (by norm_num) (Or.inl (by norm_num [abs_div]))]
    norm_num
  have e4 : fl (1 / 2 + 3602879701896397 / 18014398509481984) =
      3152519739159347 / 4503599627370496 := by
    rw [fl_eq _ 6305039478318694 (-53) (by norm_num [abs_div]) (by norm_num [abs_div])
      (by norm_num) (Or.inr ⟨by norm_num [abs_div], by norm_num⟩)]
    norm_num
  have e5 : fl (3152519739159347 / 4503599627370496 + 3602879701896397 / 18014398509481984) =
      2026619832316723 / 2251799813685248 := by
    rw [fl_eq _ 8106479329266892 (-53) (by norm_num [abs_div]) (by norm_num [abs_div])
      (by norm_num) (Or.inr ⟨by norm_num [abs_div], by norm_num⟩)]
    norm_num
  have hs : root_size_d (⟨1 / 2, 1 / 2⟩ : rz_point_2d)
      ⟨8106479329266893 / 9007199254740992, 8106479329266893 / 9007199254740992⟩ =
      3602879701896397 / 9007199254740992 := by
    simp only [root_size_d, e1]
    norm_num [abs_div]
  rw [hmm] at hnew hB
  simp only [hs] at hnew hB
  obtain ⟨a, b, c, e, hr, ha, hb, hc, he⟩ := hB.split_inv
    (cell_box_d_eq_data _ _ _ e2 e2) (by simp) (by norm_num)
  simp only [e3, e4] at ha hb hc he
  refine ⟨_, r, a, b, c, e, hnew, rfl, ?_, ?_, ?_, ?_, ?_, ?_, ?_, ?_⟩
  · rw [hr]; rfl
  · rw [hr]; rfl
  · rw [hr]; rfl
  · rw [hr]; rfl
  · rw [hr]; rfl
  · simp only [intersect_2d_aabb_point]
    norm_num
  · rw [cell_d_of_dims hB.dims_d]
    simp only [intersect_2d_aabb_point, cell_box_d, e2]
    norm_num
  · simp only [List.filter, cell_d_of_dims ha, cell_d_of_dims hb, cell_d_of_dims hc,
      cell_d_of_dims he, intersect_2d_aabb_point, cell_box_d, e4, e5]
    norm_num

/-! ## C21: the dimensions of the children and of every node in double arithmetic -/

theorem mem_nodes_with_depth_self (n : rz_quadtree_node T) (k : Nat) :
    (n, k) ∈ nodes_with_depth n k := by
  cases n <;> simp [nodes_with_depth]

/-- C21, the code in double arithmetic at a failing input: for the single segment
(1.0, 1.0)-(1.2, 1.2) with thresholds 0 and 1 the root is split and the cell of its child A,
a node at depth 1, does not lie inside the root cell: the top of the root cell is
1.0 + 0.19999999999999996 = 1.2, the top of the cell of A is computed as
(1.0 + 0.09999999999999998) + 0.09999999999999998 = 1.2000000000000002. The double 1.2 is
5404319552844595 / 2^52. -/
theorem C21_counterexample :
    ∃ (t : rz_quadtree rz_line) (r a : rz_quadtree_node rz_line),
      rz_quadtree.new_d intersect_2d_aabb_line_d
        [(⟨⟨1, 1⟩, ⟨5404319552844595 / 4503599627370496,
          5404319552844595 / 4503599627370496⟩⟩ : rz_line)] 0 1 = .ok t ∧
      t.root_ = some r ∧ r.child_a = some a ∧ (a, 1) ∈ nodes_with_depth r 0 ∧
      r.cell_d.max.y = 5404319552844595 / 4503599627370496 ∧
      a.cell_d.max.y = 5404319552844596 / 4503599627370496 ∧
      ¬ box_within a.cell_d.min.x a.cell_d.max.x a.cell_d.min.y a.cell_d.max.y r.cell_d := by
  obtain ⟨r, hnew, hB⟩ := rz_quadtree_new_d_builds intersect_2d_aabb_line_d
    [(⟨⟨1, 1⟩, ⟨5404319552844595 / 4503599627370496,
      5404319552844595 / 4503599627370496⟩⟩ : rz_line)] 0 1
  have hmm : get_min_max [(⟨⟨1, 1⟩, ⟨5404319552844595 / 4503599627370496,
      5404319552844595 / 4503599627370496⟩⟩ : rz_line)] =
      (⟨1, 1⟩, ⟨5404319552844595 / 4503599627370496,
        5404319552844595 / 4503599627370496⟩) := by
    simp only [get_min_max, get_min_max_step, List.foldl, min_2d, max_2d, min_2d_line,
      max_2d_line, MAXF, MINF]
    norm_num
  have e1 : fl (5404319552844595 / 4503599627370496 - 1) =
      900719925474099 / 4503599627370496 := by
    rw [fl_eq _ 7205759403792792 (-55) (by norm_num [abs_div]) (by norm_num [abs_div])
      (by norm_num) (Or.inl (by norm_num [abs_div]))]
    norm_num
  have e2 : fl (1 + 900719925474099 / 4503599627370496) =
      5404319552844595 / 4503599627370496 := by
    rw [fl_eq _ 5404319552844595 (-52) (by norm_num [abs_div]) (by norm_num [abs_div])
      (by norm_num) (Or.inl (by norm_num [abs_div]))]
    norm_num
  have e3 : fl (900719925474099 / 4503599627370496 / 2) =
      900719925474099 / 9007199254740992 := by
    rw [fl_eq _ 7205759403792792 (-56) (by norm_num [abs_div]) (by norm_num [abs_div])
      (by norm_num) (Or.inl (by norm_num [abs_div]))]
    norm_num
  have e4 : fl (1 + 900719925474099 / 9007199254740992) =
      2476979795053773 / 2251799813685248 := by
    rw [fl_eq _ 4953959590107546 (-52) (by norm_num [abs_div]) (by norm_num [abs_div])
      (by norm_num) (Or.inr ⟨by norm_num [abs_div], by norm_num⟩)]
    norm_num
  have e5 : fl (2476979795053773 / 2251799813685248 + 900719925474099 / 9007199254740992) =
      5404319552844596 / 4503599627370496 := by
    rw [fl_eq _ 5404319552844596 (-52) (by norm_num [abs_div]) (by norm_num [abs_div])
      (by norm_num) (Or.inr ⟨by norm_num [abs_div], by norm_num⟩)]
    norm_num
  have hs : root_size_d (⟨1, 1⟩ : rz_point_2d)
      ⟨5404319552844595 / 4503599627370496, 5404319552844595 / 4503599627370496⟩ =
      900719925474099 / 4503599627370496 := by
    simp only [root_size_d, e1]
    norm_num [abs_div]
  rw [hmm] at hnew hB
  simp only [hs] at hnew hB
  obtain ⟨a, b, c, e, hr, ha, hb, hc, he⟩ := hB.split_inv
    (cell_box_d_eq_data _ _ _ e2 e2) (by simp) (by norm_num)
  simp only [e3, e4] at ha
  have hrt : r.cell_d.max.y = 5404319552844595 / 4503599627370496 := by
    rw [cell_d_of_dims hB.dims_d]
    simp only [cell_box_d, e2]
  have hat : a.cell_d.max.y = 5404319552844596 / 4503599627370496 := by
    rw [cell_d_of_dims ha]
    simp only [cell_box_d, e5]
  refine ⟨_, r, a, hnew, rfl, ?_, ?_, hrt, hat, ?_⟩
  · rw [hr]; rfl
  · rw [hr]
    simp only [nodes_with_depth, List.mem_cons, List.mem_append]
    exact Or.inr (Or.inl (Or.inl (Or.inl (mem_nodes_with_depth_self a 1))))
  · intro k
    have k4 := k.2.2.2
    rw [hrt, hat] at k4
    norm_num at k4

/-! ## C6: the root square in double arithmetic -/

theorem cell_d_bare (l : List T) (f : Bool) (o : rz_point_2d) (s : ℚ) :
    (bare l f o s).cell_d = cell_box_d o s := rfl

theorem cell_d_branch (l : List T) (f : Bool) (o : rz_point_2d) (s : ℚ)
    (a b c d : rz_quadtree_node T) : (branch l f o s a b c d).cell_d = cell_box_d o s := rfl

theorem BuildsTo_d.wellShaped_d {hit : rz_aabb → T → Bool} {min_ max_ : rz_point_2d}
    {ot dt : Nat} {L : List T} {o : rz_point_2d} {s : ℚ} {d : Nat} {r : rz_quadtree_node T}
    (h : BuildsTo_d hit min_ max_ ot dt L o s d r) : WellShaped_d r := by
  induction h with
  | outside _ => exact WellShaped_d.leaf _ _ _ rfl
  | stop _ _ => exact WellShaped_d.leaf _ _ _ (map_copy_map_copy _)
  | split _ _ _ hA hB hC hE ihA ihB ihC ihE =>
    exact WellShaped_d.inner _ _ _ _ _ _ _ (map_copy_map_copy _) hA.dims_d hB.dims_d
      hC.dims_d hE.dims_d ihA ihB ihC ihE

theorem region_leaf_of_path_d_cons (q : rz_aabb) (n : rz_quadtree_node T)
    (p : List (rz_quadtree_node T)) (hp : p ≠ []) :
    region_leaf_of_path_d q (n :: p) =
      if intersect_2d_aabb_aabb_d n.cell_d q then region_leaf_of_path_d q p else none := by
  obtain ⟨x, xs, rfl⟩ := List.exists_cons_of_ne_nil hp
  unfold region_leaf_of_path_d
  rw [List.getLast?_cons_cons]
  cases hlast : (x :: xs).getLast? with
  | none => simp
  | some m =>
    simp only [List.all_cons]
    by_cases hn : intersect_2d_aabb_aabb_d n.cell_d q = true
    · simp [hn]
    · simp [hn]

theorem region_leaves_d_bare (q : rz_aabb) (l : List T) (o : rz_point_2d) (s : ℚ) :
    region_leaves_d q (bare l true o s) =
      if intersect_2d_aabb_aabb_d (cell_box_d o s) q then [bare l true o s] else [] := by
  simp only [region_leaves_d, paths, List.filterMap_cons, List.filterMap_nil,
    region_leaf_of_path_d, List.getLast?_singleton, List.all_cons, List.all_nil, Bool.and_true,
    is_leaf, cell_d_bare, Bool.true_and]
  split <;> simp_all

theorem region_leaves_d_branch (q : rz_aabb) (l : List T) (o : rz_point_2d) (s : ℚ)
    (a b c d : rz_quadtree_node T) :
    region_leaves_d q (branch l false o s a b c d) =
      if intersect_2d_aabb_aabb_d (cell_box_d o s) q then
        region_leaves_d q a ++ region_leaves_d q b ++ region_leaves_d q c ++ region_leaves_d q d
      else [] := by
  have hroot : region_leaf_of_path_d q [branch l false o s a b c d] = none := by
    simp [region_leaf_of_path_d, is_leaf]
  have hsub : ∀ x : rz_quadtree_node T,
      (paths x).filterMap (fun p => region_leaf_of_path_d q (branch l false o s a b c d :: p)) =
        if intersect_2d_aabb_aabb_d (cell_box_d o s) q then region_leaves_d q x else [] := by
    intro x
    have hcongr : ∀ p ∈ paths x,
        region_leaf_of_path_d q (branch l false o s a b c d :: p) =
          if intersect_2d_aabb_aabb_d (cell_box_d o s) q then region_leaf_of_path_d q p
          else none := by
      intro p hp
      obtain ⟨rest, hrest⟩ := paths_head x p hp
      rw [region_leaf_of_path_d_cons q _ p (by rw [hrest]; exact List.cons_ne_nil _ _),
        cell_d_branch]
    rw [List.filterMap_congr hcongr]
    by_cases hit : intersect_2d_aabb_aabb_d (cell_box_d o s) q = true
    · simp only [hit, if_true]
      rfl
    · simp only [hit]
      simp
  unfold region_leaves_d
  simp only [paths, List.filterMap_cons, hroot, List.filterMap_map, List.filterMap_append,
    Function.comp_def, hsub]
  by_cases hit : intersect_2d_aabb_aabb_d (cell_box_d o s) q = true
  · simp only [hit, if_true]
    rfl
  · simp [hit]

theorem region_leaves_d_of_miss (q : rz_aabb) (n : rz_quadtree_node T) (hn : WellShaped_d n)
    (hmiss : ¬ intersect_2d_aabb_aabb_d n.cell_d q = true) : region_leaves_d q n = [] := by
  cases hn with
  | leaf l o s hl =>
    rw [cell_d_bare] at hmiss
    rw [region_leaves_d_bare, if_neg hmiss]
  | inner l o s a b c d hl ha hb hc hd wa wb wc wd =>
    rw [cell_d_branch] at hmiss
    rw [region_leaves_d_branch, if_neg hmiss]

theorem aabb_query_d_branch (mn mx : rz_point_2d) (q : rz_aabb) (l : List T) (o : rz_point_2d)
    (s : ℚ) (a b c d : rz_quadtree_node T) (objs : List T)
    (hpre : intersect_2d_aabb_aabb_d ⟨mn, mx⟩ q = true)
    (hcell : intersect_2d_aabb_aabb_d (cell_box_d o s) q = true) :
    intersect_tree_with_aabb_d mn mx q objs (branch l false o s a b c d) =
      match aabb_step_d mn mx q a objs with
      | .error e => .error e
      | .ok objs1 =>
        match aabb_step_d mn mx q b objs1 with
        | .error e => .error e
        | .ok objs2 =>
          match aabb_step_d mn mx q c objs2 with
          | .error e => .error e
          | .ok objs3 => aabb_step_d mn mx q d objs3 := by
  rw [intersect_tree_with_aabb_d]
  simp only [hpre, cell_d_branch, hcell, aabb_step_d]
  simp

theorem aabb_step_d_eq (mn mx : rz_point_2d) (q : rz_aabb) (ch : rz_quadtree_node T)
    (hw : WellShaped_d ch)
    (ih : ∀ objs, intersect_tree_with_aabb_d mn mx q objs ch =
      .ok (objs ++ (region_leaves_d q ch).flatMap (fun l => l.objects_list)))
    (objs : List T) :
    aabb_step_d mn mx q ch objs =
      .ok (objs ++ (region_leaves_d q ch).flatMap (fun l => l.objects_list)) := by
  unfold aabb_step_d
  by_cases hc : intersect_2d_aabb_aabb_d ch.cell_d q = true
  · rw [if_pos hc, ih]
  · rw [if_neg hc, region_leaves_d_of_miss q ch hw hc]
    simp

/-- On a well-shaped tree and a query box that passes the data-box test, the region query
appends the stored lists of the leaves reached through cells that all pass the test. -/
theorem aabb_query_d_eq (mn mx : rz_point_2d) (q : rz_aabb)
    (hpre : intersect_2d_aabb_aabb_d ⟨mn, mx⟩ q = true) (r : rz_quadtree_node T)
    (hr : WellShaped_d r) :
    ∀ objs, intersect_tree_with_aabb_d mn mx q objs r =
      .ok (objs ++ (region_leaves_d q r).flatMap (fun l => l.objects_list)) := by
  induction hr with
  | leaf l o s hl =>
    intro objs
    rw [intersect_tree_with_aabb_d, region_leaves_d_bare, cell_d_bare]
    by_cases hit : intersect_2d_aabb_aabb_d (cell_box_d o s) q = true
    · simp [hpre, hit, objects_list, hl]
    · simp [hpre, hit]
  | inner l o s a b c d hl ha hb hc hd wa wb wc wd iha ihb ihc ihd =>
    intro objs
    by_cases hit : intersect_2d_aabb_aabb_d (cell_box_d o s) q = true
    · rw [aabb_query_d_branch mn mx q l o s a b c d objs hpre hit]
      simp only [aabb_step_d_eq mn mx q a wa iha, aabb_step_d_eq mn mx q b wb ihb,
        aabb_step_d_eq mn mx q c wc ihc, aabb_step_d_eq mn mx q d wd ihd]
      rw [region_leaves_d_branch, if_pos hit]
      simp only [List.flatMap_append, List.append_assoc]
    · rw [intersect_tree_with_aabb_d, region_leaves_d_branch, cell_d_branch]
      simp [hpre, hit]

/-- Every leaf of `region_leaves_d q r` is a leaf of `r` whose cell passes the test against
`q`. -/
theorem region_leaves_d_sound (q : rz_aabb) (r : rz_quadtree_node T) (hr : WellShaped_d r) :
    ∀ leaf ∈ region_leaves_d q r,
      leaf ∈ leaves r ∧ intersect_2d_aabb_aabb_d leaf.cell_d q = true := by
  induction hr with
  | leaf l o s hl =>
    intro leaf hleaf
    rw [region_leaves_d_bare] at hleaf
    by_cases hit : intersect_2d_aabb_aabb_d (cell_box_d o s) q = true
    · rw [if_pos hit, List.mem_singleton] at hleaf
      subst hleaf
      exact ⟨by rw [leaves_bare]; exact List.mem_singleton.2 rfl, by rw [cell_d_bare]; exact hit⟩
    · rw [if_neg hit] at hleaf
      cases hleaf
  | inner l o s a b c d hl ha hb hc hd wa wb wc wd iha ihb ihc ihd =>
    intro leaf hleaf
    rw [region_leaves_d_branch] at hleaf
    by_cases hit : intersect_2d_aabb_aabb_d (cell_box_d o s) q = true
    · rw [if_pos hit] at hleaf
      simp only [List.mem_append] at hleaf
      rw [leaves_branch]
      simp only [List.mem_append]
      rcases hleaf with ((h | h) | h) | h
      · exact ⟨Or.inl (Or.inl (Or.inl (iha leaf h).1)), (iha leaf h).2⟩
      · exact ⟨Or.inl (Or.inl (Or.inr (ihb leaf h).1)), (ihb leaf h).2⟩
      · exact ⟨Or.inl (Or.inr (ihc leaf h).1), (ihc leaf h).2⟩
      · exact ⟨Or.inr (ihd leaf h).1, (ihd leaf h).2⟩
    · rw [if_neg hit] at hleaf
      cases hleaf

theorem aabb_query_d_outside (mn mx : rz_point_2d) (q : rz_aabb)
    (hD : intersect_2d_aabb_aabb_d ⟨mn, mx⟩ q = false) (objs : List T)
    (r : rz_quadtree_node T) : intersect_tree_with_aabb_d mn mx q objs r = .ok objs := by
  cases r <;> simp [intersect_tree_with_aabb_d, hD]

theorem point_leaf_of_path_d_cons (pt : rz_point_2d) (n : rz_quadtree_node T)
    (p : List (rz_quadtree_node T)) (hp : p ≠ []) :
    point_leaf_of_path_d pt (n :: p) =
      if intersect_2d_aabb_point n.cell_d pt then point_leaf_of_path_d pt p else none := by
  obtain ⟨x, xs, rfl⟩ := List.exists_cons_of_ne_nil hp
  unfold point_leaf_of_path_d
  rw [List.getLast?_cons_cons]
  cases hlast : (x :: xs).getLast? with
  | none => simp
  | some m =>
    simp only [List.all_cons]
    by_cases hn : intersect_2d_aabb_point n.cell_d pt = true
    · simp [hn]
    · simp [hn]

theorem point_leaves_d_bare (pt : rz_point_2d) (l : List T) (o : rz_point_2d) (s : ℚ) :
    point_leaves_d pt (bare l true o s) =
      if intersect_2d_aabb_point (cell_box_d o s) pt then [bare l true o s] else [] := by
  simp only [point_leaves_d, paths, List.filterMap_cons, List.filterMap_nil,
    point_leaf_of_path_d, List.getLast?_singleton, List.all_cons, List.all_nil, Bool.and_true,
    is_leaf, cell_d_bare, Bool.true_and]
  split <;> simp_all

theorem point_leaves_d_branch (pt : rz_point_2d) (l : List T) (o : rz_point_2d) (s : ℚ)
    (a b c d : rz_quadtree_node T) :
    point_leaves_d pt (branch l false o s a b c d) =
      if intersect_2d_aabb_point (cell_box_d o s) pt then
        point_leaves_d pt a ++ point_leaves_d pt b ++ point_leaves_d pt c ++ point_leaves_d pt d
      else [] := by
  have hroot : point_leaf_of_path_d pt [branch l false o s a b c d] = none := by
    simp [point_leaf_of_path_d, is_leaf]
  have hsub : ∀ x : rz_quadtree_node T,
      (paths x).filterMap (fun p => point_leaf_of_path_d pt (branch l false o s a b c d :: p)) =
        if intersect_2d_aabb_point (cell_box_d o s) pt then point_leaves_d pt x else [] := by
    intro x
    have hcongr : ∀ p ∈ paths x,
        point_leaf_of_path_d pt (branch l false o s a b c d :: p) =
          if intersect_2d_aabb_point (cell_box_d o s) pt then point_leaf_of_path_d pt p
          else none := by
      intro p hp
      obtain ⟨rest, hrest⟩ := paths_head x p hp
      rw [point_leaf_of_path_d_cons pt _ p (by rw [hrest]; exact List.cons_ne_nil _ _),
        cell_d_branch]
    rw [List.filterMap_congr hcongr]
    by_cases hit : intersect_2d_aabb_point (cell_box_d o s) pt = true
    · simp only [hit, if_true]
      rfl
    · simp only [hit]
      simp
  unfold point_leaves_d
  simp only [paths, List.filterMap_cons, hroot, List.filterMap_map, List.filterMap_append,
    Function.comp_def, hsub]
  by_cases hit : intersect_2d_aabb_point (cell_box_d o s) pt = true
  · simp only [hit, if_true]
    rfl
  · simp [hit]

theorem point_query_d_outside (mn mx pt : rz_point_2d)
    (hD : intersect_2d_aabb_point ⟨mn, mx⟩ pt = false) (objs : List T)
    (r : rz_quadtree_node T) : intersect_tree_with_point_d mn mx pt objs r = .ok objs := by
  cases r <;> simp [intersect_tree_with_point_d, hD]

theorem point_leaves_d_of_miss (pt : rz_point_2d) (n : rz_quadtree_node T)
    (hn : WellShaped_d n) (hmiss : intersect_2d_aabb_point n.cell_d pt = false) :
    point_leaves_d pt n = [] := by
  cases hn with
  | leaf l o s hl =>
    rw [cell_d_bare] at hmiss
    rw [point_leaves_d_bare, hmiss]
    rfl
  | inner l o s a b c d hl ha hb hc hd wa wb wc wd =>
    rw [cell_d_branch] at hmiss
    rw [point_leaves_d_branch, hmiss]
    rfl

/-- In a tree built in double arithmetic, at most one child of a node has the point in its
cell, so the leaves found along the downward paths of a non-leaf are those of its first
child whose cell contains the point. -/
theorem point_leaves_d_children (pt : rz_point_2d) (o : rz_point_2d) (s : ℚ)
    (a b c d : rz_quadtree_node T)
    (ha : a.get_dimentions = (⟨o.x, fl (o.y + fl (s / 2))⟩, fl (s / 2)))
    (hb : b.get_dimentions = (⟨fl (o.x + fl (s / 2)), fl (o.y + fl (s / 2))⟩, fl (s / 2)))
    (hc : c.get_dimentions = (⟨o.x, o.y⟩, fl (s / 2)))
    (hd : d.get_dimentions = (⟨fl (o.x + fl (s / 2)), o.y⟩, fl (s / 2)))
    (wa : WellShaped_d a) (wb : WellShaped_d b) (wc : WellShaped_d c) (wd : WellShaped_d d) :
    point_leaves_d pt a ++ point_leaves_d pt b ++ point_leaves_d pt c ++ point_leaves_d pt d =
      if intersect_2d_aabb_point a.cell_d pt then point_leaves_d pt a
      else if intersect_2d_aabb_point b.cell_d pt then point_leaves_d pt b
      else if intersect_2d_aabb_point c.cell_d pt then point_leaves_d pt c
      else if intersect_2d_aabb_point d.cell_d pt then point_leaves_d pt d
      else [] := by
  have h := (child_cells_d a b c d o s ha hb hc hd pt).1
  cases fa : intersect_2d_aabb_point a.cell_d pt <;>
  cases fb : intersect_2d_aabb_point b.cell_d pt <;>
  cases fc : intersect_2d_aabb_point c.cell_d pt <;>
  cases fd : intersect_2d_aabb_point d.cell_d pt <;>
  simp [List.filter, fa, fb, fc, fd] at h <;>
  simp [fa, fb, fc, fd, point_leaves_d_of_miss pt a wa, point_leaves_d_of_miss pt b wb,
    point_leaves_d_of_miss pt c wc, point_leaves_d_of_miss pt d wd]

theorem point_leaves_d_length_le (pt : rz_point_2d) (r : rz_quadtree_node T)
    (hr : WellShaped_d r) : (point_leaves_d pt r).length ≤ 1 := by
  induction hr with
  | leaf l o s hl =>
    rw [point_leaves_d_bare]
    split_ifs <;> simp
  | inner l o s a b c d hl ha hb hc hd wa wb wc wd iha ihb ihc ihd =>
    rw [point_leaves_d_branch, point_leaves_d_children pt o s a b c d ha hb hc hd wa wb wc wd]
    split_ifs <;> simp [iha, ihb, ihc, ihd]

/-- On a tree built in double arithmetic and a point that passes the data-box test, the
point query started on an empty vector returns the list found by the search over all
downward paths. -/
theorem point_query_d_eq (mn mx pt : rz_point_2d)
    (hD : intersect_2d_aabb_point ⟨mn, mx⟩ pt = true) (r : rz_quadtree_node T)
    (hr : WellShaped_d r) :
    intersect_tree_with_point_d mn mx pt [] r = .ok (path_leaf_search_d r pt) := by
  induction hr with
  | leaf l o s hl =>
    rw [intersect_tree_with_point_d, path_leaf_search_d, point_leaves_d_bare, cell_d_bare]
    by_cases hit : intersect_2d_aabb_point (cell_box_d o s) pt = true
    · simp [hD, hit, objects_list, hl]
    · simp [hD, hit]
  | inner l o s a b c d hl ha hb hc hd wa wb wc wd iha ihb ihc ihd =>
    rw [intersect_tree_with_point_d, path_leaf_search_d, point_leaves_d_branch,
      point_leaves_d_children pt o s a b c d ha hb hc hd wa wb wc wd, cell_d_branch]
    simp only [path_leaf_search_d] at iha ihb ihc ihd
    by_cases hit : intersect_2d_aabb_point (cell_box_d o s) pt = true
    · simp only [hD, hit, if_true, Bool.false_eq_true, if_false, Bool.true_eq_false]
      by_cases fa : intersect_2d_aabb_point a.cell_d pt = true
      · simp only [fa, if_true, iha]
      · by_cases fb : intersect_2d_aabb_point b.cell_d pt = true
        · simp only [fa, fb, if_true, if_false, Bool.false_eq_true, ihb]
        · by_cases fc : intersect_2d_aabb_point c.cell_d pt = true
          · simp only [fa, fb, fc, if_true, if_false, Bool.false_eq_true, ihc]
          · by_cases fd : intersect_2d_aabb_point d.cell_d pt = true
            · simp only [fa, fb, fc, fd, if_true, if_false, Bool.false_eq_true, ihd]
            · simp only [fa, fb, fc, fd, if_false, Bool.false_eq_true]
    · simp [hD, hit]

theorem leaf_lists_of_builds_d (hcopy : ∀ o : T, copy o = o) {hit : rz_aabb → T → Bool}
    {min_ max_ : rz_point_2d}
    {ot dt : Nat} {L : List T} {o : rz_point_2d} {s : ℚ} {d : Nat} {r : rz_quadtree_node T}
    (h : BuildsTo_d hit min_ max_ ot dt L o s d r) :
    ∀ p ∈ paths r, ∀ leaf, p.getLast? = some leaf → leaf.is_leaf = true →
      leaf.objects_list =
        if intersect_2d_aabb_aabb_d leaf.cell_d ⟨min_, max_⟩ then
          L.filter (fun x => p.tail.all (fun n => hit n.cell_d x))
        else [] := by
  induction h with
  | @outside L o s d h1 =>
    intro p hp leaf hl _
    simp only [paths, List.mem_singleton] at hp
    subst hp
    simp only [List.getLast?_singleton, Option.some.injEq] at hl
    subst hl
    rw [cell_d_bare, h1]
    rfl
  | @stop L o s d h1 _ =>
    intro p hp leaf hl _
    simp only [paths, List.mem_singleton] at hp
    subst hp
    simp only [List.getLast?_singleton, Option.some.injEq] at hl
    subst hl
    rw [cell_d_bare, h1]
    simp [objects_list, map_copy_id hcopy]
  | @split L o s d a b c e h1 _ _ hA hB hC hE ihA ihB ihC ihE =>
    intro p hp leaf hl hleaf
    simp only [paths, List.mem_cons, List.mem_map, List.mem_append] at hp
    have key : ∀ (ch : rz_quadtree_node T) (oc : rz_point_2d),
        ch.get_dimentions = (oc, fl (s / 2)) →
        (∀ q ∈ paths ch, ∀ leaf, q.getLast? = some leaf → leaf.is_leaf = true →
          leaf.objects_list =
            if intersect_2d_aabb_aabb_d leaf.cell_d ⟨min_, max_⟩ then
              (intersect_objects_with_cell_d hit L oc (fl (s / 2))).filter
                (fun x => q.tail.all (fun n => hit n.cell_d x))
            else []) →
        ∀ q ∈ paths ch, branch (L.map copy) false o s a b c e :: q = p →
          leaf.objects_list =
            if intersect_2d_aabb_aabb_d leaf.cell_d ⟨min_, max_⟩ then
              L.filter (fun x => p.tail.all (fun n => hit n.cell_d x))
            else [] := by
      intro ch oc hdim ih q hq hqp
      obtain ⟨rest, hrest⟩ := paths_head ch q hq
      subst hqp
      subst hrest
      rw [List.getLast?_cons_cons] at hl
      rw [ih _ hq leaf hl hleaf]
      simp only [List.tail_cons, List.all_cons, intersect_objects_with_cell_d,
        map_copy_id hcopy, List.filter_filter, cell_d_of_dims hdim, cell_box_d]
      congr 2
      funext x
      rw [Bool.and_comm]
    rcases hp with hp | ⟨q, hq, hqp⟩
    · subst hp
      simp only [List.getLast?_singleton, Option.some.injEq] at hl
      subst hl
      simp [is_leaf] at hleaf
    · rcases hq with ((hq | hq) | hq) | hq
      · exact key a _ hA.dims_d ihA q hq hqp
      · exact key b _ hB.dims_d ihB q hq hqp
      · exact key c _ hC.dims_d ihC q hq hqp
      · exact key e _ hE.dims_d ihE q hq hqp

theorem region_leaf_of_path_d_some (q : rz_aabb) (p : List (rz_quadtree_node T))
    (leaf : rz_quadtree_node T) :
    region_leaf_of_path_d q p = some leaf ↔
      p.getLast? = some leaf ∧ leaf.is_leaf = true ∧
        ∀ n ∈ p, intersect_2d_aabb_aabb_d n.cell_d q = true := by
  unfold region_leaf_of_path_d
  cases hlast : p.getLast? with
  | none => simp
  | some m =>
    simp only [Option.some.injEq]
    constructor
    · intro h
      split_ifs at h with hc
      simp only [Option.some.injEq] at h
      subst h
      simp only [Bool.and_eq_true, List.all_eq_true] at hc
      exact ⟨rfl, hc.1, hc.2⟩
    · rintro ⟨rfl, hleaf, hall⟩
      rw [if_pos]
      simp only [Bool.and_eq_true, List.all_eq_true]
      exact ⟨hleaf, hall⟩


theorem point_leaf_of_path_some (pt : rz_point_2d) (p : List (rz_quadtree_node T))
    (leaf : rz_quadtree_node T) :
    point_leaf_of_path pt p = some leaf ↔
      p.getLast? = some leaf ∧ leaf.is_leaf = true ∧
        ∀ n ∈ p, intersect_2d_aabb_point n.cell pt = true := by
  unfold point_leaf_of_path
  cases hlast : p.getLast? with
  | none => simp
  | some m =>
    simp only [Option.some.injEq]
    constructor
    · intro h
      split_ifs at h with hc
      simp only [Option.some.injEq] at h
      subst h
      simp only [Bool.and_eq_true, List.all_eq_true] at hc
      exact ⟨rfl, hc.1, hc.2⟩
    · rintro ⟨rfl, hleaf, hall⟩
      rw [if_pos]
      simp only [Bool.and_eq_true, List.all_eq_true]
      exact ⟨hleaf, hall⟩

theorem point_leaf_of_path_d_some (pt : rz_point_2d) (p : List (rz_quadtree_node T))
    (leaf : rz_quadtree_node T) :
    point_leaf_of_path_d pt p = some leaf ↔
      p.getLast? = some leaf ∧ leaf.is_leaf = true ∧
        ∀ n ∈ p, intersect_2d_aabb_point n.cell_d pt = true := by
  unfold point_leaf_of_path_d
  cases hlast : p.getLast? with
  | none => simp
  | some m =>
    simp only [Option.some.injEq]
    constructor
    · intro h
      split_ifs at h with hc
      simp only [Option.some.injEq] at h
      subst h
      simp only [Bool.and_eq_true, List.all_eq_true] at hc
      exact ⟨rfl, hc.1, hc.2⟩
    · rintro ⟨rfl, hleaf, hall⟩
      rw [if_pos]
      simp only [Bool.and_eq_true, List.all_eq_true]
      exact ⟨hleaf, hall⟩

/-! ## C1: the point query is the search along the downward paths -/

/-- C1 (amended): for every object list and thresholds the constructor returns a tree, and
for every query point `pt` at most one leaf has `pt` in its own cell and in the cells of all
its ancestors (min < pt <= max on both axes); the leaves found along the downward paths are
exactly the last nodes of the paths that end in a leaf and have `pt` in every cell; when
`pt` passes the same test against the data box, `get_objects_from_point`, started on an
empty vector, yields the object list of that leaf, found by enumerating all downward paths,
and the empty list when there is none; when `pt` fails the test against the data box it
yields the empty list. The first part states this for exact arithmetic, the second part for
double arithmetic, with every object test `hit` used on construction. -/
theorem C1_point_query_path_search (hit : rz_aabb → T → Bool) (L : List T) (ot dt : Nat) :
    (∃ (t : rz_quadtree T) (r : rz_quadtree_node T),
      rz_quadtree.new L ot dt = .ok t ∧ t.root_ = some r ∧
      ∀ pt : rz_point_2d,
        (point_leaves pt r).length ≤ 1 ∧
        (∀ leaf, leaf ∈ point_leaves pt r ↔
          ∃ p ∈ paths r, p.getLast? = some leaf ∧ leaf.is_leaf = true ∧
            ∀ n ∈ p, intersect_2d_aabb_point n.cell pt = true) ∧
        get_objects_from_point t pt [] =
          .ok (if intersect_2d_aabb_point ⟨t.min_, t.max_⟩ pt then path_leaf_search r pt
            else [])) ∧
    (∃ (t : rz_quadtree T) (r : rz_quadtree_node T),
      rz_quadtree.new_d hit L ot dt = .ok t ∧ t.root_ = some r ∧
      ∀ pt : rz_point_2d,
        (point_leaves_d pt r).length ≤ 1 ∧
        (∀ leaf, leaf ∈ point_leaves_d pt r ↔
          ∃ p ∈ paths r, p.getLast? = some leaf ∧ leaf.is_leaf = true ∧
            ∀ n ∈ p, intersect_2d_aabb_point n.cell_d pt = true) ∧
        get_objects_from_point_d t pt [] =
          .ok (if intersect_2d_aabb_point ⟨t.min_, t.max_⟩ pt then path_leaf_search_d r pt
            else [])) := by
  constructor
  · obtain ⟨r, hnew, _, hw⟩ := rz_quadtree_new_wellShaped L ot dt
    refine ⟨_, r, hnew, rfl, fun pt => ⟨point_leaves_length_le pt r hw, ?_, ?_⟩⟩
    · intro leaf
      simp only [point_leaves, List.mem_filterMap, point_leaf_of_path_some]
    · simp only [get_objects_from_point]
      cases hD : intersect_2d_aabb_point ⟨(get_min_max L).1, (get_min_max L).2⟩ pt with
      | false =>
        rw [point_query_outside _ _ _ hD [] r]
        rfl
      | true =>
        rw [point_query_eq _ _ pt hD r hw]
        rfl
  · obtain ⟨r, hnew, hB⟩ := rz_quadtree_new_d_builds hit L ot dt
    have hw := hB.wellShaped_d
    refine ⟨_, r, hnew, rfl, fun pt => ⟨point_leaves_d_length_le pt r hw, ?_, ?_⟩⟩
    · intro leaf
      simp only [point_leaves_d, List.mem_filterMap, point_leaf_of_path_d_some]
    · simp only [get_objects_from_point_d]
      cases hD : intersect_2d_aabb_point ⟨(get_min_max L).1, (get_min_max L).2⟩ pt with
      | false =>
        rw [point_query_d_outside _ _ _ hD [] r]
        rfl
      | true =>
        rw [point_query_d_eq _ _ pt hD r hw]
        rfl

/-! ## C20: the region query is the concatenation over the reached leaves -/

/-- C20 (amended): for every built tree and every query box `q`, `get_objects_from_aabb(q)`,
started on an empty vector, returns, when `q` passes `intersect_2d` against the data
bounding box, the concatenation, in depth-first A, B, C, D order, of the stored object
lists of the leaves whose own cell and all of whose ancestors' cells pass
`intersect_2d(cell, q)`, and the empty sequence when `q` fails the test against the data
box. Each of the leaves that contribute is a leaf of the tree whose cell passes the test
against `q`; a leaf whose cell passes the test does not contribute when the cell of one of
its ancestors fails it. The first part states this for exact arithmetic, the second part
for double arithmetic, with every object test `hit` used on construction. -/
theorem C20_region_query_concatenates_reached_leaves (hit : rz_aabb → T → Bool)
    (L : List T) (ot dt : Nat) (q : rz_aabb) :
    (∃ (t : rz_quadtree T) (r : rz_quadtree_node T),
      rz_quadtree.new L ot dt = .ok t ∧ t.root_ = some r ∧
      get_objects_from_aabb t q [] =
        .ok (if intersect_2d_aabb_aabb ⟨t.min_, t.max_⟩ q then
          (region_leaves q r).flatMap (fun l => l.objects_list) else []) ∧
      (∀ leaf, leaf ∈ region_leaves q r ↔
        ∃ p ∈ paths r, p.getLast? = some leaf ∧ leaf.is_leaf = true ∧
          ∀ n ∈ p, intersect_2d_aabb_aabb n.cell q = true) ∧
      ∀ leaf ∈ region_leaves q r,
        leaf ∈ leaves r ∧ intersect_2d_aabb_aabb leaf.cell q = true) ∧
    (∃ (t : rz_quadtree T) (r : rz_quadtree_node T),
      rz_quadtree.new_d hit L ot dt = .ok t ∧ t.root_ = some r ∧
      get_objects_from_aabb_d t q [] =
        .ok (if intersect_2d_aabb_aabb_d ⟨t.min_, t.max_⟩ q then
          (region_leaves_d q r).flatMap (fun l => l.objects_list) else []) ∧
      (∀ leaf, leaf ∈ region_leaves_d q r ↔
        ∃ p ∈ paths r, p.getLast? = some leaf ∧ leaf.is_leaf = true ∧
          ∀ n ∈ p, intersect_2d_aabb_aabb_d n.cell_d q = true) ∧
      ∀ leaf ∈ region_leaves_d q r,
        leaf ∈ leaves r ∧ intersect_2d_aabb_aabb_d leaf.cell_d q = true) := by
  constructor
  · obtain ⟨r, hnew, _, hw⟩ := rz_quadtree_new_wellShaped L ot dt
    refine ⟨_, r, hnew, rfl, ?_, ?_, region_leaves_sound q r hw⟩
    · simp only [get_objects_from_aabb]
      cases hq : intersect_2d_aabb_aabb ⟨(get_min_max L).1, (get_min_max L).2⟩ q with
      | true =>
        rw [aabb_query_eq _ _ q hq r hw []]
        rfl
      | false =>
        rw [aabb_query_outside _ _ q hq [] r]
        rfl
    · intro leaf
      simp only [region_leaves, List.mem_filterMap, region_leaf_of_path_some]
  · obtain ⟨r, hnew, hB⟩ := rz_quadtree_new_d_builds hit L ot dt
    have hw := hB.wellShaped_d
    refine ⟨_, r, hnew, rfl, ?_, ?_, region_leaves_d_sound q r hw⟩
    · simp only [get_objects_from_aabb_d]
      cases hq : intersect_2d_aabb_aabb_d ⟨(get_min_max L).1, (get_min_max L).2⟩ q with
      | true =>
        rw [aabb_query_d_eq _ _ q hq r hw []]
        rfl
      | false =>
        rw [aabb_query_d_outside _ _ q hq [] r]
        rfl
    · intro leaf
      simp only [region_leaves_d, List.mem_filterMap, region_leaf_of_path_d_some]

/-! ## C2: which segments the region query returns -/

/-- C3 (amended): for an object type whose copy constructor copies faithfully, every
object list whose root cell passes `intersect_2d` against the data box, and every pair of
thresholds, the constructor returns a tree in which every leaf, reached from the root by a
downward path, stores the following list: nothing when the leaf's cell does not intersect
the data box; otherwise the input objects, in input order, for which
`intersect_2d(cell, object)` (the shape-against-box test of the object type, not a test on
the object's bounding box) holds for the cell of every node on the path below the root, the
leaf's own cell included. The first part states this for exact arithmetic, the second part
for double arithmetic, where `hit` is the test of the object type. -/
theorem C3_leaf_object_lists (hit : rz_aabb → T → Bool) (L : List T) (ot dt : Nat)
    (hcopy : ∀ o : T, copy o = o) :
    (intersect_2d_aabb_aabb
        (cell_box (get_min_max L).1 (root_size (get_min_max L).1 (get_min_max L).2))
        ⟨(get_min_max L).1, (get_min_max L).2⟩ = true →
      ∃ (t : rz_quadtree T) (r : rz_quadtree_node T),
        rz_quadtree.new L ot dt = .ok t ∧ t.root_ = some r ∧
        intersect_2d_aabb_aabb r.cell ⟨t.min_, t.max_⟩ = true ∧
        ∀ p ∈ paths r, ∀ leaf, p.getLast? = some leaf → leaf.is_leaf = true →
          leaf.objects_list =
            if intersect_2d_aabb_aabb leaf.cell ⟨t.min_, t.max_⟩ then
              L.filter (fun x => p.tail.all (fun n => intersect_2d n.cell x))
            else []) ∧
    (intersect_2d_aabb_aabb_d
        (cell_box_d (get_min_max L).1 (root_size_d (get_min_max L).1 (get_min_max L).2))
        ⟨(get_min_max L).1, (get_min_max L).2⟩ = true →
      ∃ (t : rz_quadtree T) (r : rz_quadtree_node T),
        rz_quadtree.new_d hit L ot dt = .ok t ∧ t.root_ = some r ∧
        intersect_2d_aabb_aabb_d r.cell_d ⟨t.min_, t.max_⟩ = true ∧
        ∀ p ∈ paths r, ∀ leaf, p.getLast? = some leaf → leaf.is_leaf = true →
          leaf.objects_list =
            if intersect_2d_aabb_aabb_d leaf.cell_d ⟨t.min_, t.max_⟩ then
              L.filter (fun x => p.tail.all (fun n => hit n.cell_d x))
            else []) := by
  constructor
  · intro hroot
    obtain ⟨r, hnew, hB⟩ := rz_quadtree_new_builds L ot dt
    refine ⟨_, r, hnew, rfl, ?_, leaf_lists_of_builds hcopy hB⟩
    rw [cell_of_dims hB.dims]
    exact hroot
  · intro hroot
    obtain ⟨r, hnew, hB⟩ := rz_quadtree_new_d_builds hit L ot dt
    refine ⟨_, r, hnew, rfl, ?_, leaf_lists_of_builds_d hcopy hB⟩
    rw [cell_d_of_dims hB.dims_d]
    exact hroot

/-- C3 (amended) at a concrete input: the segments (1,4)-(4,1) and (0,0)-(1,1) with
thresholds (1, 1). In exact arithmetic the tree is the root with four leaves, three storing
the first segment and one the second; in double arithmetic the root is split as well. -/
theorem C3_leaf_object_lists_witness :
    (∀ o : rz_line, copy o = o) ∧
    rz_quadtree.new [(⟨⟨1, 4⟩, ⟨4, 1⟩⟩ : rz_line), ⟨⟨0, 0⟩, ⟨1, 1⟩⟩] 1 1 =
      .ok ⟨⟨0, 0⟩, ⟨4, 4⟩, 4,
        some (branch [⟨⟨1, 4⟩, ⟨4, 1⟩⟩, ⟨⟨0, 0⟩, ⟨1, 1⟩⟩] false ⟨0, 0⟩ 4
          (bare [⟨⟨1, 4⟩, ⟨4, 1⟩⟩] true ⟨0, 2⟩ 2)
          (bare [⟨⟨1, 4⟩, ⟨4, 1⟩⟩] true ⟨2, 2⟩ 2)
          (bare [⟨⟨0, 0⟩, ⟨1, 1⟩⟩] true ⟨0, 0⟩ 2)
          (bare [⟨⟨1, 4⟩, ⟨4, 1⟩⟩] true ⟨2, 0⟩ 2)), 1, 1⟩ ∧
    (∃ (t : rz_quadtree rz_line) (r : rz_quadtree_node rz_line),
      rz_quadtree.new [(⟨⟨1, 4⟩, ⟨4, 1⟩⟩ : rz_line), ⟨⟨0, 0⟩, ⟨1, 1⟩⟩] 1 1 = .ok t ∧
      t.root_ = some r ∧
      intersect_2d_aabb_aabb r.cell ⟨t.min_, t.max_⟩ = true ∧
      ∀ p ∈ paths r, ∀ leaf, p.getLast? = some leaf → leaf.is_leaf = true →
        leaf.objects_list =
          if intersect_2d_aabb_aabb leaf.cell ⟨t.min_, t.max_⟩ then
            [(⟨⟨1, 4⟩, ⟨4, 1⟩⟩ : rz_line), ⟨⟨0, 0⟩, ⟨1, 1⟩⟩].filter
              (fun x => p.tail.all (fun n => intersect_2d n.cell x))
          else []) ∧
    (∃ (t : rz_quadtree rz_line) (r : rz_quadtree_node rz_line),
      rz_quadtree.new_d intersect_2d_aabb_line_d
        [(⟨⟨1, 4⟩, ⟨4, 1⟩⟩ : rz_line), ⟨⟨0, 0⟩, ⟨1, 1⟩⟩] 1 1 = .ok t ∧
      t.root_ = some r ∧
      intersect_2d_aabb_aabb_d r.cell_d ⟨t.min_, t.max_⟩ = true ∧
      ∀ p ∈ paths r, ∀ leaf, p.getLast? = some leaf → leaf.is_leaf = true →
        leaf.objects_list =
          if intersect_2d_aabb_aabb_d leaf.cell_d ⟨t.min_, t.max_⟩ then
            [(⟨⟨1, 4⟩, ⟨4, 1⟩⟩ : rz_line), ⟨⟨0, 0⟩, ⟨1, 1⟩⟩].filter
              (fun x => p.tail.all (fun n => intersect_2d_aabb_line_d n.cell_d x))
          else []) := by
  have hmm : get_min_max [(⟨⟨1, 4⟩, ⟨4, 1⟩⟩ : rz_line), ⟨⟨0, 0⟩, ⟨1, 1⟩⟩] =
      (⟨0, 0⟩, ⟨4, 4⟩) := by
    simp only [get_min_max, get_min_max_step, List.foldl, min_2d, max_2d, min_2d_line,
      max_2d_line, MAXF, MINF]
    norm_num
  have f4 : fl 4 = 4 := by
    rw [fl_eq 4 4503599627370496 (-50) (by norm_num) (by norm_num) (by norm_num)
      (Or.inl (by norm_num))]
    norm_num
  have hs : root_size_d (⟨0, 0⟩ : rz_point_2d) ⟨4, 4⟩ = 4 := by
    simp only [root_size_d]
    norm_num [f4]
  refine ⟨fun _ => rfl, two_segments_tree, ?_, ?_⟩
  · exact (C3_leaf_object_lists intersect_2d_aabb_line_d
      [(⟨⟨1, 4⟩, ⟨4, 1⟩⟩ : rz_line), ⟨⟨0, 0⟩, ⟨1, 1⟩⟩] 1 1 (fun _ => rfl)).1
      (by
        simp only [get_min_max, get_min_max_step, List.foldl, min_2d, max_2d, min_2d_line,
          max_2d_line, MAXF, MINF, root_size, cell_box, intersect_2d_aabb_aabb,
          rz_aabb.op_eq, rz_point_2d.op_eq, rz_aabb.width, rz_aabb.height, EPS]
        norm_num [abs_div])
  · exact (C3_leaf_object_lists intersect_2d_aabb_line_d
      [(⟨⟨1, 4⟩, ⟨4, 1⟩⟩ : rz_line), ⟨⟨0, 0⟩, ⟨1, 1⟩⟩] 1 1 (fun _ => rfl)).2
      (by
        rw [hmm]
        simp only [hs]
        exact cell_box_d_eq_data _ _ _ (by norm_num [f4]) (by norm_num [f4]))

/-! ## Rounding: symmetry and idempotence -/

/-- Every rational has a nearest integer, with the even one chosen at a tie. -/
theorem round_exists (x : ℚ) :
    ∃ m : ℤ, |x - m| < 1 / 2 ∨ (|x - m| = 1 / 2 ∧ m % 2 = 0) := by
  have h0 : (0 : ℚ) ≤ x - (⌊x⌋ : ℤ) := by linarith [Int.floor_le x]
  have h1 : x - (⌊x⌋ : ℤ) < 1 := by linarith [Int.lt_floor_add_one x]
  rcases lt_trichotomy (x - (⌊x⌋ : ℤ)) (1 / 2) with h | h | h
  · exact ⟨⌊x⌋, Or.inl (by rw [abs_of_nonneg h0]; exact h)⟩
  · by_cases hev : ⌊x⌋ % 2 = 0
    · exact ⟨⌊x⌋, Or.inr ⟨by rw [abs_of_nonneg h0]; exact h, hev⟩⟩
    · refine ⟨⌊x⌋ + 1, Or.inr ⟨?_, by omega⟩⟩
      push_cast
      rw [abs_of_neg (by linarith)]
      linarith
  · refine ⟨⌊x⌋ + 1, Or.inl ?_⟩
    push_cast
    rw [abs_of_neg (by linarith)]
    linarith

/-- The value of a rounding through the spacing of the doubles at `q`. -/
theorem fl_eq_of_round (q : ℚ) (hq : q ≠ 0) (m : ℤ)
    (hm : |q / 2 ^ (max (Int.log 2 |q| - 52) (-1074)) - m| < 1 / 2 ∨
      (|q / 2 ^ (max (Int.log 2 |q| - 52) (-1074)) - m| = 1 / 2 ∧ m % 2 = 0)) :
    fl q = m * 2 ^ (max (Int.log 2 |q| - 52) (-1074)) := by
  unfold fl
  rw [if_neg hq]
  simp only
  rw [round_half_even _ m hm]

/-- A value `m * 2^e` with `|m| ≤ 2^53` and `e ≥ -1074` is a double: rounding leaves it
unchanged. -/
theorem fl_int_scaled (m e : ℤ) (hm : |m| ≤ 2 ^ 53) (he : -1074 ≤ e) :
    fl ((m : ℚ) * 2 ^ e) = m * 2 ^ e := by
  by_cases hm0 : m = 0
  · subst hm0
    simp [fl_zero]
  have h2 : (0 : ℚ) < 2 ^ e := by positivity
  have hq : (m : ℚ) * 2 ^ e ≠ 0 := mul_ne_zero (by exact_mod_cast hm0) (ne_of_gt h2)
  have habs : |(m : ℚ) * 2 ^ e| = |(m : ℚ)| * 2 ^ e := by
    rw [abs_mul, abs_of_pos h2]
  have hpos : (0 : ℚ) < |(m : ℚ) * 2 ^ e| := abs_pos.2 hq
  have hmq : |(m : ℚ)| ≤ 2 ^ 53 := by exact_mod_cast hm
  -- the exponent chosen by the rounding
  have hlog_le : Int.log 2 |(m : ℚ) * 2 ^ e| ≤ 53 + e := by
    have hlt : |(m : ℚ) * 2 ^ e| < (2 : ℚ) ^ (54 + e) := by
      rw [habs, show (54 : ℤ) + e = 54 + e from rfl, zpow_add₀ (by norm_num : (2 : ℚ) ≠ 0)]
      have : |(m : ℚ)| < (2 : ℚ) ^ (54 : ℤ) := lt_of_le_of_lt hmq (by norm_num)
      exact mul_lt_mul_of_pos_right this h2
    have := (Int.lt_zpow_iff_log_lt (b := 2) (by norm_num) hpos (x := 54 + e)).1
      (by exact_mod_cast hlt)
    omega
  obtain ⟨k, hk⟩ : ∃ k : ℤ, (m : ℚ) * 2 ^ e /
      2 ^ (max (Int.log 2 |(m : ℚ) * 2 ^ e| - 52) (-1074)) = k := by
    by_cases hle : max (Int.log 2 |(m : ℚ) * 2 ^ e| - 52) (-1074) ≤ e
    · obtain ⟨n, hn⟩ : ∃ n : ℕ, e - max (Int.log 2 |(m : ℚ) * 2 ^ e| - 52) (-1074) = n :=
        ⟨(e - max (Int.log 2 |(m : ℚ) * 2 ^ e| - 52) (-1074)).toNat,
          (Int.toNat_of_nonneg (by omega)).symm⟩
      refine ⟨m * 2 ^ n, ?_⟩
      rw [mul_div_assoc, ← zpow_sub₀ (by norm_num : (2 : ℚ) ≠ 0), hn]
      push_cast
      rw [zpow_natCast]
    · -- the exponent is `e + 1`, which happens only for `|m| = 2^53`
      have hlog : Int.log 2 |(m : ℚ) * 2 ^ e| = 53 + e := by
        rcases max_cases (Int.log 2 |(m : ℚ) * 2 ^ e| - 52) (-1074) with ⟨h1, _⟩ | ⟨h1, _⟩
        · omega
        · omega
      have hmax : max (Int.log 2 |(m : ℚ) * 2 ^ e| - 52) (-1074) = e + 1 := by
        rw [hlog]
        rw [max_eq_left (by omega)]
        omega
      have hge : (2 : ℚ) ^ (53 + e) ≤ |(m : ℚ) * 2 ^ e| := by
        have := (Int.zpow_le_iff_le_log (b := 2) (by norm_num) hpos (x := 53 + e)).2
          (le_of_eq hlog.symm)
        exact_mod_cast this
      have hm53 : |(m : ℚ)| = 2 ^ 53 := by
        apply le_antisymm hmq
        rw [habs, zpow_add₀ (by norm_num : (2 : ℚ) ≠ 0)] at hge
        have := le_of_mul_le_mul_right hge h2
        exact_mod_cast this
      rw [hmax]
      rcases abs_eq (by positivity : (0 : ℚ) ≤ 2 ^ 53) |>.1 hm53 with hv | hv
      · refine ⟨2 ^ 52, ?_⟩
        rw [hv, zpow_add₀ (by norm_num : (2 : ℚ) ≠ 0)]
        push_cast
        field_simp
        ring
      · refine ⟨-2 ^ 52, ?_⟩
        rw [hv, zpow_add₀ (by norm_num : (2 : ℚ) ≠ 0)]
        push_cast
        field_simp
        ring
  rw [fl_eq_of_round _ hq k (Or.inl (by rw [hk]; simp)), ← hk]
  field_simp

/-- The result of a rounding is a double: an integer of at most 53 bits times a power of
two not below `2^(-1074)`. -/
theorem fl_repr (q : ℚ) : ∃ m e : ℤ, fl q = m * 2 ^ e ∧ |m| ≤ 2 ^ 53 ∧ -1074 ≤ e := by
  by_cases hq : q = 0
  · subst hq
    exact ⟨0, 0, by simp [fl_zero], by norm_num, by norm_num⟩
  · obtain ⟨m, hm⟩ := round_exists (q / 2 ^ (max (Int.log 2 |q| - 52) (-1074)))
    refine ⟨m, max (Int.log 2 |q| - 52) (-1074), fl_eq_of_round q hq m hm, ?_,
      le_max_right _ _⟩
    have hpos : (0 : ℚ) < |q| := abs_pos.2 hq
    have h2 : (0 : ℚ) < 2 ^ (max (Int.log 2 |q| - 52) (-1074)) := by positivity
    have hlt : |q| < (2 : ℚ) ^ (53 + max (Int.log 2 |q| - 52) (-1074)) := by
      have h1 : |q| < (2 : ℚ) ^ (Int.log 2 |q| + 1) := by
        exact_mod_cast Int.lt_zpow_succ_log_self (by norm_num : 1 < 2) |q|
      refine lt_of_lt_of_le h1 (zpow_le_zpow_right₀ (by norm_num) ?_)
      have := le_max_left (Int.log 2 |q| - 52) (-1074)
      omega
    have hx : |q / 2 ^ (max (Int.log 2 |q| - 52) (-1074))| < 2 ^ 53 := by
      rw [abs_div, abs_of_pos h2, div_lt_iff₀ h2]
      rw [zpow_add₀ (by norm_num : (2 : ℚ) ≠ 0)] at hlt
      exact_mod_cast hlt
    have hd : |q / 2 ^ (max (Int.log 2 |q| - 52) (-1074)) - m| ≤ 1 / 2 := by
      rcases hm with hm | ⟨hm, _⟩
      · exact le_of_lt hm
      · exact le_of_eq hm
    have hmq : |(m : ℚ)| < 2 ^ 53 + 1 := by
      have : |(m : ℚ)| ≤ |q / 2 ^ (max (Int.log 2 |q| - 52) (-1074))| +
          |q / 2 ^ (max (Int.log 2 |q| - 52) (-1074)) - m| := by
        have := abs_sub_abs_le_abs_sub (m : ℚ) (q / 2 ^ (max (Int.log 2 |q| - 52) (-1074)))
        rw [abs_sub_comm] at this
        linarith
      linarith
    have hmz : |m| < 2 ^ 53 + 1 := by exact_mod_cast hmq
    omega

/-- Halving a double `m * 2^e` in double arithmetic `d` times is exact as long as the
exponent stays in range. -/
theorem halve_iterate_exact (m e : ℤ) (hm : |m| ≤ 2 ^ 53) :
    ∀ d : ℕ, -1074 ≤ e - d →
      (fun x => fl (x / 2))^[d] ((m : ℚ) * 2 ^ e) = m * 2 ^ e / 2 ^ d := by
  intro d
  induction d with
  | zero => intro _; simp
  | succ d ih =>
    intro he
    rw [Function.iterate_succ_apply', ih (by push_cast at he; omega)]
    have h2 : (m : ℚ) * 2 ^ e / 2 ^ d / 2 = m * 2 ^ (e - (d + 1 : ℕ)) := by
      rw [zpow_sub₀ (by norm_num : (2 : ℚ) ≠ 0), zpow_natCast, pow_succ]
      field_simp
    show fl ((m : ℚ) * 2 ^ e / 2 ^ d / 2) = m * 2 ^ e / 2 ^ (d + 1)
    rw [h2, fl_int_scaled m _ hm he, zpow_sub₀ (by norm_num : (2 : ℚ) ≠ 0), zpow_natCast]
    field_simp

theorem abs_fl_repr (q : ℚ) :
    ∃ m e : ℤ, |fl q| = m * 2 ^ e ∧ |m| ≤ 2 ^ 53 ∧ -1074 ≤ e := by
  obtain ⟨m, e, h, hm, he⟩ := fl_repr q
  refine ⟨|m|, e, ?_, by rw [abs_abs]; exact hm, he⟩
  rw [h, abs_mul, abs_of_pos (by positivity : (0 : ℚ) < 2 ^ e), Int.cast_abs]

/-- The root edge length computed by `build_tree` is a double. -/
theorem root_size_d_repr (mn mx : rz_point_2d) :
    ∃ m e : ℤ, root_size_d mn mx = m * 2 ^ e ∧ |m| ≤ 2 ^ 53 ∧ -1074 ≤ e := by
  unfold root_size_d
  split_ifs
  · exact abs_fl_repr _
  · exact abs_fl_repr _

/-- C21 (amended): in every tree the constructor returns in double arithmetic, the root has
origin
`min_` and edge length `box_size_`; every node that is not a leaf, with cell origin (x, y)
and edge length s, has four children with the computed edge length s/2 and the computed
origins A = (x, y + s/2), B = (x + s/2, y + s/2), C = (x, y), D = (x + s/2, y), every sum
and the halving rounded to a double; every node at depth d has as edge length `box_size_`
halved d times, each halving rounded to a double; and `box_size_` is a double `m * 2^e`
(`|m| ≤ 2^53`, `e ≥ -1074`) such that the edge length of every node at a depth d with
`e - d ≥ -1074`, where no halving underflows, is exactly `box_size_ / 2^d`. -/
theorem C21_children_dimensions_as_computed (hit : rz_aabb → T → Bool) (L : List T)
    (ot dt : Nat) :
    ∃ (t : rz_quadtree T) (r : rz_quadtree_node T),
      rz_quadtree.new_d hit L ot dt = .ok t ∧ t.root_ = some r ∧
      r.get_dimentions = (t.min_, t.box_size_) ∧
      (∀ n ∈ nodes r, n.is_leaf = false →
        ∃ a b c d, n.child_a = some a ∧ n.child_b = some b ∧ n.child_c = some c ∧
          n.child_d = some d ∧
          a.get_dimentions = (⟨n.get_dimentions.1.x,
            fl (n.get_dimentions.1.y + fl (n.get_dimentions.2 / 2))⟩,
            fl (n.get_dimentions.2 / 2)) ∧
          b.get_dimentions = (⟨fl (n.get_dimentions.1.x + fl (n.get_dimentions.2 / 2)),
            fl (n.get_dimentions.1.y + fl (n.get_dimentions.2 / 2))⟩,
            fl (n.get_dimentions.2 / 2)) ∧
          c.get_dimentions = (⟨n.get_dimentions.1.x, n.get_dimentions.1.y⟩,
            fl (n.get_dimentions.2 / 2)) ∧
          d.get_dimentions = (⟨fl (n.get_dimentions.1.x + fl (n.get_dimentions.2 / 2)),
            n.get_dimentions.1.y⟩, fl (n.get_dimentions.2 / 2))) ∧
      (∀ nk ∈ nodes_with_depth r 0,
        nk.1.get_dimentions.2 = (fun x => fl (x / 2))^[nk.2] t.box_size_) ∧
      ∃ m e : ℤ, t.box_size_ = m * 2 ^ e ∧ |m| ≤ 2 ^ 53 ∧ -1074 ≤ e ∧
        ∀ nk ∈ nodes_with_depth r 0, -1074 ≤ e - nk.2 →
          nk.1.get_dimentions.2 = t.box_size_ / 2 ^ nk.2 := by
  obtain ⟨r, hnew, hB⟩ := rz_quadtree_new_d_builds hit L ot dt
  obtain ⟨m, e, hme, hm, he⟩ := root_size_d_repr (get_min_max L).1 (get_min_max L).2
  refine ⟨_, r, hnew, rfl, hB.dims_d, hB.children, hB.sizes _ rfl, m, e, hme, hm, he, ?_⟩
  intro nk hnk hd
  rw [hB.sizes _ rfl nk hnk]
  show (fun x => fl (x / 2))^[nk.2] (root_size_d (get_min_max L).1 (get_min_max L).2) =
    root_size_d (get_min_max L).1 (get_min_max L).2 / 2 ^ nk.2
  rw [hme]
  exact halve_iterate_exact m e hm nk.2 hd

/-! ## C4: the child cells never overlap -/

/-- C4 (amended): in every tree the constructor returns in double arithmetic, every node that
is not a
leaf, with cell origin (x, y) and edge length s, has its four children A, B, C, D; the
lower-left corner of the cell of C is the lower-left corner of the node's cell, and the
upper-right corner of the cell of B is computed as ((x + s/2) + s/2, (y + s/2) + s/2); for
every point p at most one of the four child cells contains p (min < p <= max on both axes),
and exactly one contains it when p lies in the rectangle from the lower-left corner of C to
the upper-right corner of B; so when the upper-right corner of B is the upper-right corner
of the node's cell, every point of the node's cell lies in exactly one child cell. -/
theorem C4_child_cells_do_not_overlap (hit : rz_aabb → T → Bool) (L : List T) (ot dt : Nat) :
    ∃ (t : rz_quadtree T) (r : rz_quadtree_node T),
      rz_quadtree.new_d hit L ot dt = .ok t ∧ t.root_ = some r ∧
      ∀ n ∈ nodes r, n.is_leaf = false →
        ∃ a b c d, n.child_a = some a ∧ n.child_b = some b ∧ n.child_c = some c ∧
          n.child_d = some d ∧ c.cell_d.min = n.cell_d.min ∧
          b.cell_d.max =
            ⟨fl (fl (n.get_dimentions.1.x + fl (n.get_dimentions.2 / 2)) +
                fl (n.get_dimentions.2 / 2)),
              fl (fl (n.get_dimentions.1.y + fl (n.get_dimentions.2 / 2)) +
                fl (n.get_dimentions.2 / 2))⟩ ∧
          (∀ p,
            ([a, b, c, d].filter
              (fun ch => intersect_2d_aabb_point ch.cell_d p)).length ≤ 1 ∧
            (c.cell_d.min.x < p.x ∧ p.x ≤ b.cell_d.max.x ∧ c.cell_d.min.y < p.y ∧
                p.y ≤ b.cell_d.max.y →
              ([a, b, c, d].filter
                (fun ch => intersect_2d_aabb_point ch.cell_d p)).length = 1)) ∧
          (b.cell_d.max = n.cell_d.max →
            ∀ p, intersect_2d_aabb_point n.cell_d p = true →
              ([a, b, c, d].filter
                (fun ch => intersect_2d_aabb_point ch.cell_d p)).length = 1) := by
  obtain ⟨r, hnew, hB⟩ := rz_quadtree_new_d_builds hit L ot dt
  refine ⟨_, r, hnew, rfl, fun n hn hleaf => ?_⟩
  obtain ⟨a, b, c, e, h1, h2, h3, h4, ha, hb, hc, he⟩ := hB.children n hn hleaf
  have hcm : c.cell_d.min = n.cell_d.min := by rw [cell_d_of_dims hc]; rfl
  have hcells := child_cells_d a b c e n.get_dimentions.1 n.get_dimentions.2 ha hb hc he
  refine ⟨a, b, c, e, h1, h2, h3, h4, hcm, ?_, hcells, ?_⟩
  · rw [cell_d_of_dims hb]; rfl
  · intro hbm p hp
    apply (hcells p).2
    rw [hcm, hbm]
    unfold intersect_2d_aabb_point at hp
    simpa using hp

/-! ## C6: the root square as computed -/

theorem BuildsTo_d.unique_d {hit : rz_aabb → T → Bool} {min_ max_ : rz_point_2d} {ot dt : Nat}
    {L : List T}
    {o : rz_point_2d} {s : ℚ} {d : Nat} {r r' : rz_quadtree_node T}
    (h : BuildsTo_d hit min_ max_ ot dt L o s d r) (h' : BuildsTo_d hit min_ max_ ot dt L o s d r') :
    r = r' := by
  induction h generalizing r' with
  | outside h1 =>
    cases h' with
    | outside _ => rfl
    | stop h2 _ => rw [h1] at h2; cases h2
    | split h2 _ _ _ _ _ _ => rw [h1] at h2; cases h2
  | stop h1 h3 =>
    cases h' with
    | outside h2 => rw [h1] at h2; cases h2
    | stop _ _ => rfl
    | split _ h4 h5 _ _ _ _ => omega
  | split h1 h3 h4 _ _ _ _ ihA ihB ihC ihE =>
    cases h' with
    | outside h2 => rw [h1] at h2; cases h2
    | stop _ h5 => omega
    | split _ _ _ hA hB hC hE => rw [ihA hA, ihB hB, ihC hC, ihE hE]

theorem build_sub_tree_d_eq_of_builds {hit : rz_aabb → T → Bool} {min_ max_ : rz_point_2d} {ot dt : Nat}
    {L : List T}
    {o : rz_point_2d} {s : ℚ} {d : Nat} {r : rz_quadtree_node T}
    (h : BuildsTo_d hit min_ max_ ot dt L o s d r) :
    build_sub_tree_d hit min_ max_ ot dt (some (bare [] false o s)) L o s d = .ok r := by
  obtain ⟨r', hr', hB'⟩ := build_sub_tree_d_builds hit min_ max_ ot dt L o s d
  rw [hr', hB'.unique_d h]

theorem is_leaf_iff_of_builds_d {hit : rz_aabb → T → Bool} {min_ max_ : rz_point_2d} {ot dt : Nat}
    {L : List T}
    {o : rz_point_2d} {s : ℚ} {d : Nat} {r : rz_quadtree_node T}
    (h : BuildsTo_d hit min_ max_ ot dt L o s d r) :
    r.is_leaf = true ↔
      (intersect_2d_aabb_aabb_d (cell_box_d o s) ⟨min_, max_⟩ = false ∨ L.length ≤ ot ∨
        d ≥ dt) := by
  cases h with
  | outside h1 => exact ⟨fun _ => Or.inl h1, fun _ => rfl⟩
  | stop h1 h2 => exact ⟨fun _ => Or.inr h2, fun _ => rfl⟩
  | split h1 h2 h3 _ _ _ _ =>
    constructor
    · intro hl
      simp [is_leaf] at hl
    · rintro (h | h | h)
      · rw [h1] at h; cases h
      · omega
      · omega

theorem node_shape_of_wellShaped_d (r : rz_quadtree_node T) (hr : WellShaped_d r) :
    ∀ n ∈ nodes r,
      (n.is_leaf = true ∧ n.child_a = none ∧ n.child_b = none ∧ n.child_c = none ∧
        n.child_d = none) ∨
      (n.is_leaf = false ∧ ∃ a b c d, n.child_a = some a ∧ n.child_b = some b ∧
        n.child_c = some c ∧ n.child_d = some d) := by
  induction hr with
  | leaf l o s hl =>
    intro n hn
    simp only [nodes, List.mem_singleton] at hn
    subst hn
    exact Or.inl ⟨rfl, rfl, rfl, rfl, rfl⟩
  | inner l o s a b c d hl ha hb hc hd wa wb wc wd iha ihb ihc ihd =>
    intro n hn
    simp only [nodes, List.mem_cons, List.mem_append] at hn
    rcases hn with hn | ((hn | hn) | hn) | hn
    · subst hn
      exact Or.inr ⟨rfl, a, b, c, d, rfl, rfl, rfl, rfl⟩
    · exact iha n hn
    · exact ihb n hn
    · exact ihc n hn
    · exact ihd n hn

theorem nodes_with_input_d_nodes (hit : rz_aabb → T → Bool) (r : rz_quadtree_node T) :
    ∀ (k : Nat) (incoming : List T),
      (nodes_with_input_d hit r k incoming).map (fun x => (x.1, x.2.1)) = nodes_with_depth r k := by
  induction r with
  | bare l f o s =>
    intro k incoming
    rfl
  | branch l f o s a b c d iha ihb ihc ihd =>
    intro k incoming
    simp only [nodes_with_input_d, nodes_with_depth, List.map_cons, List.map_append, iha, ihb,
      ihc, ihd]

/-- Every node of a built subtree is what the build rules give for the node's own cell, its
depth and the list it received. -/
theorem nodes_built_from_input_d {hit : rz_aabb → T → Bool} {min_ max_ : rz_point_2d} {ot dt : Nat}
    {L : List T}
    {o : rz_point_2d} {s : ℚ} {d : Nat} {r : rz_quadtree_node T}
    (h : BuildsTo_d hit min_ max_ ot dt L o s d r) :
    ∀ x ∈ nodes_with_input_d hit r d L,
      BuildsTo_d hit min_ max_ ot dt x.2.2 x.1.get_dimentions.1 x.1.get_dimentions.2 x.2.1 x.1 := by
  induction h with
  | @outside L o s d h1 =>
    intro x hx
    simp only [nodes_with_input_d, List.mem_singleton] at hx
    subst hx
    exact BuildsTo_d.outside h1
  | @stop L o s d h1 h2 =>
    intro x hx
    simp only [nodes_with_input_d, List.mem_singleton] at hx
    subst hx
    exact BuildsTo_d.stop h1 h2
  | @split L o s d a b c e h1 h2 h3 hA hB hC hE ihA ihB ihC ihE =>
    intro x hx
    simp only [nodes_with_input_d, List.mem_cons, List.mem_append, hA.dims_d, hB.dims_d, hC.dims_d,
      hE.dims_d] at hx
    rcases hx with hx | ((hx | hx) | hx) | hx
    · subst hx
      exact BuildsTo_d.split h1 h2 h3 hA hB hC hE
    · exact ihA x hx
    · exact ihB x hx
    · exact ihC x hx
    · exact ihE x hx

/-- C16: in every tree the constructor returns, every node either is a leaf without
children or is not a leaf and has its four children; and every node of the tree, with its
depth `d` and the list `L` that `build_sub_tree` received for it (the input list for the
root, the parent's received list filtered by `intersect_objects_with_cell` for a child),
is the node that `build_sub_tree` returns for a fresh node with that cell, that list and
that depth, and it is a leaf if and only if its cell does not intersect the data box, or
`|L| <= objects_threshold`, or `d >= depth_threshold`. The first part states this for exact
arithmetic, the second part for double arithmetic, with every object test `hit`. -/
theorem C16_node_shape_and_leaf_condition (hit : rz_aabb → T → Bool) (L : List T)
    (ot dt : Nat) :
    (∃ (t : rz_quadtree T) (r : rz_quadtree_node T),
      rz_quadtree.new L ot dt = .ok t ∧ t.root_ = some r ∧
      (∀ n ∈ nodes r,
        (n.is_leaf = true ∧ n.child_a = none ∧ n.child_b = none ∧ n.child_c = none ∧
          n.child_d = none) ∨
        (n.is_leaf = false ∧ ∃ a b c d, n.child_a = some a ∧ n.child_b = some b ∧
          n.child_c = some c ∧ n.child_d = some d)) ∧
      (nodes_with_input r 0 L).map (fun x => (x.1, x.2.1)) = nodes_with_depth r 0 ∧
      (∃ rest, nodes_with_input r 0 L = (r, 0, L) :: rest) ∧
      ∀ x ∈ nodes_with_input r 0 L,
        build_sub_tree t.min_ t.max_ ot dt
          (some (bare [] false x.1.get_dimentions.1 x.1.get_dimentions.2)) x.2.2
          x.1.get_dimentions.1 x.1.get_dimentions.2 x.2.1 = .ok x.1 ∧
        (x.1.is_leaf = true ↔
          (intersect_2d_aabb_aabb x.1.cell ⟨t.min_, t.max_⟩ = false ∨ x.2.2.length ≤ ot ∨
            x.2.1 ≥ dt))) ∧
    (∃ (t : rz_quadtree T) (r : rz_quadtree_node T),
      rz_quadtree.new_d hit L ot dt = .ok t ∧ t.root_ = some r ∧
      (∀ n ∈ nodes r,
        (n.is_leaf = true ∧ n.child_a = none ∧ n.child_b = none ∧ n.child_c = none ∧
          n.child_d = none) ∨
        (n.is_leaf = false ∧ ∃ a b c d, n.child_a = some a ∧ n.child_b = some b ∧
          n.child_c = some c ∧ n.child_d = some d)) ∧
      (nodes_with_input_d hit r 0 L).map (fun x => (x.1, x.2.1)) = nodes_with_depth r 0 ∧
      (∃ rest, nodes_with_input_d hit r 0 L = (r, 0, L) :: rest) ∧
      ∀ x ∈ nodes_with_input_d hit r 0 L,
        build_sub_tree_d hit t.min_ t.max_ ot dt
          (some (bare [] false x.1.get_dimentions.1 x.1.get_dimentions.2)) x.2.2
          x.1.get_dimentions.1 x.1.get_dimentions.2 x.2.1 = .ok x.1 ∧
        (x.1.is_leaf = true ↔
          (intersect_2d_aabb_aabb_d x.1.cell_d ⟨t.min_, t.max_⟩ = false ∨
            x.2.2.length ≤ ot ∨ x.2.1 ≥ dt))) := by
  constructor
  · obtain ⟨r, hnew, hB⟩ := rz_quadtree_new_builds L ot dt
    refine ⟨_, r, hnew, rfl,
      node_shape_of_wellShaped r (hB.wellShaped (root_size_nonneg _ _)),
      nodes_with_input_nodes r 0 L, ?_, ?_⟩
    · cases r with
      | bare l f o s => exact ⟨[], rfl⟩
      | branch l f o s a b c d => exact ⟨_, rfl⟩
    · intro x hx
      have hb := nodes_built_from_input hB x hx
      exact ⟨build_sub_tree_eq_of_builds hb, is_leaf_iff_of_builds hb⟩
  · obtain ⟨r, hnew, hB⟩ := rz_quadtree_new_d_builds hit L ot dt
    refine ⟨_, r, hnew, rfl, node_shape_of_wellShaped_d r hB.wellShaped_d,
      nodes_with_input_d_nodes hit r 0 L, ?_, ?_⟩
    · cases r with
      | bare l f o s => exact ⟨[], rfl⟩
      | branch l f o s a b c d => exact ⟨_, rfl⟩
    · intro x hx
      have hb := nodes_built_from_input_d hB x hx
      exact ⟨build_sub_tree_d_eq_of_builds hb, is_leaf_iff_of_builds_d hb⟩

/-! ## C14: the queries leave the tree as it was -/

theorem point_query_d_total (mn mx pt : rz_point_2d) (r : rz_quadtree_node T)
    (hr : WellShaped_d r) (objs : List T) :
    ∃ res, intersect_tree_with_point_d mn mx pt objs r = .ok res := by
  induction hr with
  | leaf l o s hl =>
    rw [intersect_tree_with_point_d]
    by_cases h1 : intersect_2d_aabb_point ⟨mn, mx⟩ pt = false
    · exact ⟨objs, by simp [h1]⟩
    · by_cases h2 : intersect_2d_aabb_point (bare l true o s).cell_d pt = true
      · exact ⟨l.map copy, by simp [h1, h2]⟩
      · exact ⟨objs, by simp [h1, h2]⟩
  | inner l o s a b c d hl ha hb hc hd wa wb wc wd iha ihb ihc ihd =>
    obtain ⟨ra, hra⟩ := iha
    obtain ⟨rb, hrb⟩ := ihb
    obtain ⟨rc, hrc⟩ := ihc
    obtain ⟨rd, hrd⟩ := ihd
    rw [intersect_tree_with_point_d]
    by_cases h1 : intersect_2d_aabb_point ⟨mn, mx⟩ pt = false
    · exact ⟨objs, by simp [h1]⟩
    · by_cases h2 : intersect_2d_aabb_point (branch l false o s a b c d).cell_d pt = true
      · by_cases fa : intersect_2d_aabb_point a.cell_d pt = true
        · exact ⟨ra, by simp [h1, h2, fa, hra]⟩
        · by_cases fb : intersect_2d_aabb_point b.cell_d pt = true
          · exact ⟨rb, by simp [h1, h2, fa, fb, hrb]⟩
          · by_cases fc : intersect_2d_aabb_point c.cell_d pt = true
            · exact ⟨rc, by simp [h1, h2, fa, fb, fc, hrc]⟩
            · by_cases fd : intersect_2d_aabb_point d.cell_d pt = true
              · exact ⟨rd, by simp [h1, h2, fa, fb, fc, fd, hrd]⟩
              · exact ⟨objs, by simp [h1, h2, fa, fb, fc, fd]⟩
      · exact ⟨objs, by simp [h1, h2]⟩

theorem aabb_query_d_total (mn mx : rz_point_2d) (q : rz_aabb) (r : rz_quadtree_node T)
    (hr : WellShaped_d r) :
    ∀ objs, ∃ ext, intersect_tree_with_aabb_d mn mx q objs r = .ok (objs ++ ext) := by
  induction hr with
  | leaf l o s hl =>
    intro objs
    rw [intersect_tree_with_aabb_d]
    by_cases h1 : intersect_2d_aabb_aabb_d ⟨mn, mx⟩ q = false
    · exact ⟨[], by simp [h1]⟩
    by_cases h2 : intersect_2d_aabb_aabb_d (bare l true o s).cell_d q = true
    · exact ⟨l.map copy, by simp [h1, h2]⟩
    · exact ⟨[], by simp [h1, h2]⟩
  | inner l o s a b c d hl ha hb hc hd wa wb wc wd iha ihb ihc ihd =>
    intro objs
    by_cases h1 : intersect_2d_aabb_aabb_d ⟨mn, mx⟩ q = false
    · exact ⟨[], by rw [intersect_tree_with_aabb_d]; simp [h1]⟩
    by_cases h2 : intersect_2d_aabb_aabb_d (cell_box_d o s) q = true
    · rw [aabb_query_d_branch mn mx q l o s a b c d objs (by simpa using h1) h2]
      have step : ∀ (ch : rz_quadtree_node T),
          (∀ objs, ∃ ext, intersect_tree_with_aabb_d mn mx q objs ch = .ok (objs ++ ext)) →
          ∀ objs, ∃ ext, aabb_step_d mn mx q ch objs = .ok (objs ++ ext) := by
        intro ch ih objs
        unfold aabb_step_d
        split
        · exact ih objs
        · exact ⟨[], by simp⟩
      obtain ⟨e1, he1⟩ := step a iha objs
      obtain ⟨e2, he2⟩ := step b ihb (objs ++ e1)
      obtain ⟨e3, he3⟩ := step c ihc (objs ++ e1 ++ e2)
      obtain ⟨e4, he4⟩ := step d ihd (objs ++ e1 ++ e2 ++ e3)
      refine ⟨e1 ++ e2 ++ e3 ++ e4, ?_⟩
      simp only [he1, he2, he3, he4]
      simp only [List.append_assoc]
    · exact ⟨[], by rw [intersect_tree_with_aabb_d]; simp [h1, cell_d_branch, h2]⟩

/-- The traversal of the point query leaves every node as it found it, and its vector is
the one `intersect_tree_with_point_d` computes. -/
theorem intersect_tree_with_point_st_d_eq (mn mx pt : rz_point_2d) (r : rz_quadtree_node T) :
    ∀ objs, intersect_tree_with_point_st_d mn mx pt objs r =
      match intersect_tree_with_point_d mn mx pt objs r with
      | .error e => .error e
      | .ok res => .ok (r, res) := by
  induction r with
  | bare l f o s =>
    intro objs
    rw [intersect_tree_with_point_st_d, intersect_tree_with_point_d]
    split_ifs <;> rfl
  | branch l f o s a b c d iha ihb ihc ihd =>
    intro objs
    rw [intersect_tree_with_point_st_d, intersect_tree_with_point_d]
    split_ifs
    · rfl
    · rfl
    · rw [iha]
      cases intersect_tree_with_point_d mn mx pt objs a <;> rfl
    · rw [ihb]
      cases intersect_tree_with_point_d mn mx pt objs b <;> rfl
    · rw [ihc]
      cases intersect_tree_with_point_d mn mx pt objs c <;> rfl
    · rw [ihd]
      cases intersect_tree_with_point_d mn mx pt objs d <;> rfl
    · rfl
    · rfl

/-- The traversal of the region query leaves every node as it found it, and its vector is
the one `intersect_tree_with_aabb_d` computes. -/
theorem intersect_tree_with_aabb_st_d_eq (mn mx : rz_point_2d) (q : rz_aabb)
    (r : rz_quadtree_node T) :
    ∀ objs, intersect_tree_with_aabb_st_d mn mx q objs r =
      match intersect_tree_with_aabb_d mn mx q objs r with
      | .error e => .error e
      | .ok res => .ok (r, res) := by
  induction r with
  | bare l f o s =>
    intro objs
    rw [intersect_tree_with_aabb_st_d, intersect_tree_with_aabb_d]
    split_ifs <;> rfl
  | branch l f o s a b c d iha ihb ihc ihd =>
    intro objs
    have step : ∀ (ch : rz_quadtree_node T)
        (ih : ∀ objs, intersect_tree_with_aabb_st_d mn mx q objs ch =
          match intersect_tree_with_aabb_d mn mx q objs ch with
          | .error e => .error e
          | .ok res => .ok (ch, res)) (objs : List T),
        (if intersect_2d_aabb_aabb_d ch.cell_d q then
            intersect_tree_with_aabb_st_d mn mx q objs ch else .ok (ch, objs)) =
          match (if intersect_2d_aabb_aabb_d ch.cell_d q then
            intersect_tree_with_aabb_d mn mx q objs ch else .ok objs) with
          | .error e => .error e
          | .ok res => .ok (ch, res) := by
      intro ch ih objs
      split_ifs
      · exact ih objs
      · rfl
    rw [intersect_tree_with_aabb_st_d, intersect_tree_with_aabb_d]
    by_cases h1 : intersect_2d_aabb_aabb_d ⟨mn, mx⟩ q = false
    · rw [if_pos h1, if_pos h1]
    · rw [if_neg h1, if_neg h1]
      by_cases h2 : intersect_2d_aabb_aabb_d (branch l f o s a b c d).cell_d q = true
      · rw [if_pos h2, if_pos h2]
        cases f with
        | true => rfl
        | false =>
          simp only [Bool.false_eq_true, if_false, step a iha, step b ihb, step c ihc,
            step d ihd]
          cases (if intersect_2d_aabb_aabb_d a.cell_d q then
              intersect_tree_with_aabb_d mn mx q objs a else .ok objs) with
          | error e => rfl
          | ok o1 =>
            dsimp only
            cases (if intersect_2d_aabb_aabb_d b.cell_d q then
                intersect_tree_with_aabb_d mn mx q o1 b else .ok o1) with
            | error e => rfl
            | ok o2 =>
              dsimp only
              cases (if intersect_2d_aabb_aabb_d c.cell_d q then
                  intersect_tree_with_aabb_d mn mx q o2 c else .ok o2) with
              | error e => rfl
              | ok o3 =>
                dsimp only
                cases (if intersect_2d_aabb_aabb_d d.cell_d q then
                    intersect_tree_with_aabb_d mn mx q o3 d else .ok o3) with
                | error e => rfl
                | ok o4 => rfl
      · rw [if_neg h2, if_neg h2]

/-- C14: for every tree the constructor returns and every query argument, a point query
and a region query, started on an empty vector and followed through the traversal with the
tree as part of the state, return a sequence and leave the tree (the root with every
node's cell, leaf flag, object list and children, and the other members) exactly as it was;
the sequence is the one the query computes, and the same query repeated on the tree left
by the first call returns the identical sequence and again leaves the tree as it was. The
first part states this for exact arithmetic, the second part for double arithmetic, with
every object test `hit` used on construction. -/
theorem C14_repeated_queries_agree (hit : rz_aabb → T → Bool) (L : List T) (ot dt : Nat) :
    (∃ t : rz_quadtree T, rz_quadtree.new L ot dt = .ok t ∧
      (∀ pt : rz_point_2d, ∃ res,
        get_objects_from_point_st t pt [] = .ok (t, res) ∧
        get_objects_from_point t pt [] = .ok res ∧
        ∀ t1 res1, get_objects_from_point_st t pt [] = .ok (t1, res1) →
          get_objects_from_point_st t1 pt [] = .ok (t, res)) ∧
      (∀ q : rz_aabb, ∃ res,
        get_objects_from_aabb_st t q [] = .ok (t, res) ∧
        get_objects_from_aabb t q [] = .ok res ∧
        ∀ t1 res1, get_objects_from_aabb_st t q [] = .ok (t1, res1) →
          get_objects_from_aabb_st t1 q [] = .ok (t, res))) ∧
    (∃ t : rz_quadtree T, rz_quadtree.new_d hit L ot dt = .ok t ∧
      (∀ pt : rz_point_2d, ∃ res,
        get_objects_from_point_st_d t pt [] = .ok (t, res) ∧
        get_objects_from_point_d t pt [] = .ok res ∧
        ∀ t1 res1, get_objects_from_point_st_d t pt [] = .ok (t1, res1) →
          get_objects_from_point_st_d t1 pt [] = .ok (t, res)) ∧
      (∀ q : rz_aabb, ∃ res,
        get_objects_from_aabb_st_d t q [] = .ok (t, res) ∧
        get_objects_from_aabb_d t q [] = .ok res ∧
        ∀ t1 res1, get_objects_from_aabb_st_d t q [] = .ok (t1, res1) →
          get_objects_from_aabb_st_d t1 q [] = .ok (t, res))) := by
  constructor
  · obtain ⟨r, hnew, _, hw⟩ := rz_quadtree_new_wellShaped L ot dt
    refine ⟨_, hnew, ?_, ?_⟩
    · intro pt
      obtain ⟨res, hres⟩ := point_query_total (get_min_max L).1 (get_min_max L).2 pt r hw []
      have hst : get_objects_from_point_st (⟨(get_min_max L).1, (get_min_max L).2,
          root_size (get_min_max L).1 (get_min_max L).2, some r, ot, dt⟩ : rz_quadtree T)
          pt [] =
          .ok ((⟨(get_min_max L).1, (get_min_max L).2,
            root_size (get_min_max L).1 (get_min_max L).2, some r, ot, dt⟩ : rz_quadtree T),
            res) := by
        simp only [get_objects_from_point_st, intersect_tree_with_point_st_eq, hres]
      refine ⟨res, hst, ?_, ?_⟩
      · simp only [get_objects_from_point, hres]
      · intro t1 res1 h1
        rw [hst] at h1
        simp only [Except.ok.injEq, Prod.mk.injEq] at h1
        rw [← h1.1]
        exact hst
    · intro q
      obtain ⟨ext, hres⟩ := aabb_query_total (get_min_max L).1 (get_min_max L).2 q r hw []
      have hst : get_objects_from_aabb_st (⟨(get_min_max L).1, (get_min_max L).2,
          root_size (get_min_max L).1 (get_min_max L).2, some r, ot, dt⟩ : rz_quadtree T)
          q [] =
          .ok ((⟨(get_min_max L).1, (get_min_max L).2,
            root_size (get_min_max L).1 (get_min_max L).2, some r, ot, dt⟩ : rz_quadtree T),
            [] ++ ext) := by
        simp only [get_objects_from_aabb_st, intersect_tree_with_aabb_st_eq, hres]
      refine ⟨[] ++ ext, hst, ?_, ?_⟩
      · simp only [get_objects_from_aabb, hres]
      · intro t1 res1 h1
        rw [hst] at h1
        simp only [Except.ok.injEq, Prod.mk.injEq] at h1
        rw [← h1.1]
        exact hst
  · obtain ⟨r, hnew, hB⟩ := rz_quadtree_new_d_builds hit L ot dt
    have hw := hB.wellShaped_d
    refine ⟨_, hnew, ?_, ?_⟩
    · intro pt
      obtain ⟨res, hres⟩ :=
        point_query_d_total (get_min_max L).1 (get_min_max L).2 pt r hw []
      have hst : get_objects_from_point_st_d (⟨(get_min_max L).1, (get_min_max L).2,
          root_size_d (get_min_max L).1 (get_min_max L).2, some r, ot, dt⟩ : rz_quadtree T)
          pt [] =
          .ok ((⟨(get_min_max L).1, (get_min_max L).2,
            root_size_d (get_min_max L).1 (get_min_max L).2, some r, ot, dt⟩ :
              rz_quadtree T), res) := by
        simp only [get_objects_from_point_st_d, intersect_tree_with_point_st_d_eq, hres]
      refine ⟨res, hst, ?_, ?_⟩
      · simp only [get_objects_from_point_d, hres]
      · intro t1 res1 h1
        rw [hst] at h1
        simp only [Except.ok.injEq, Prod.mk.injEq] at h1
        rw [← h1.1]
        exact hst
    · intro q
      obtain ⟨ext, hres⟩ :=
        aabb_query_d_total (get_min_max L).1 (get_min_max L).2 q r hw []
      have hst : get_objects_from_aabb_st_d (⟨(get_min_max L).1, (get_min_max L).2,
          root_size_d (get_min_max L).1 (get_min_max L).2, some r, ot, dt⟩ : rz_quadtree T)
          q [] =
          .ok ((⟨(get_min_max L).1, (get_min_max L).2,
            root_size_d (get_min_max L).1 (get_min_max L).2, some r, ot, dt⟩ :
              rz_quadtree T), [] ++ ext) := by
        simp only [get_objects_from_aabb_st_d, intersect_tree_with_aabb_st_d_eq, hres]
      refine ⟨[] ++ ext, hst, ?_, ?_⟩
      · simp only [get_objects_from_aabb_d, hres]
      · intro t1 res1 h1
        rw [hst] at h1
        simp only [Except.ok.injEq, Prod.mk.injEq] at h1
        rw [← h1.1]
        exact hst

end quadtree

end rimz
